import Mathlib

/-!
# SQL training app: the lesson page (`static/js/lesson.js`)

A shallow embedding of the client state machine of the lesson page: the task
list, task switching, graded submission, the debounced preview and the
completion provider.

Conventions of the embedding.

* The global variables (`lesson`, `currentTaskNumber`, `editor`, `sqlContext`)
  and the part of the DOM the code reads back (the `.task-item` elements, the
  answer popup) form a `Session`.  Every function takes the session and returns
  an `Outcome`: the session afterwards, the list of effects it caused (requests
  sent, notifications shown, calls of other asynchronous routines) and whether
  it ended with an uncaught exception.
* An `async` function is embedded as one atomic step per invocation, with the
  response of each awaited request passed as an argument.  A call of an
  `async` function that is not awaited inside the embedded segment is
  recorded as an effect; an exception inside it is a rejected promise and
  never reaches the caller.
* JavaScript `null` and `undefined` of `currentTaskNumber` are `none`.
* `console.log` calls are not embedded.
-/

namespace SqlTraining

/-! ## JavaScript values carried by server responses -/

/-- A JSON value of a response field, or `undefined` when the field is absent.
Numbers are restricted to integers. -/
inductive JsVal where
  | undefined
  | null
  | bool (b : Bool)
  | num (n : Int)
  | str (s : String)
deriving DecidableEq

namespace JsVal

/-- The `ToBoolean` conversion: what `if (v)` and `!v` test. -/
def truthy : JsVal → Bool
  | undefined => false
  | null => false
  | bool b => b
  | num n => n != 0
  | str s => s != ""

/-- The loose inequality `v != ""`.  `undefined` and `null` are loosely equal
only to each other; a boolean or a number is compared with `Number("") = 0`. -/
def looseNeEmptyString : JsVal → Bool
  | undefined => true
  | null => true
  | bool b => b
  | num n => n != 0
  | str s => s != ""

/-- The `ToString` conversion used by a template literal. -/
def toJsString : JsVal → String
  | undefined => "undefined"
  | null => "null"
  | bool true => "true"
  | bool false => "false"
  | num n => toString n
  | str s => s

end JsVal

/-! ## Data model -/

/-- One entry of `lesson["exercise-tasks"]`.  `initialQuery` is a string, so
`task["initial-query"] || ""` is the string itself. -/
structure ExerciseTask where
  taskId : String
  exerciseOrder : Nat
  description : String
  initialQuery : String
  completed : Bool
  previewAllowed : Bool
  largeQuery : Bool
  tables : Option (List String)
deriving DecidableEq

/-- The fetched lesson (`/lessons/details/<id>`).  `databaseTables` is `none`
when the object has no `database-tables` property. -/
structure Lesson where
  id : String
  title : String
  subtitle : String
  exerciseTasks : List ExerciseTask
  databaseTables : Option (List String)
deriving DecidableEq

/-- A `.task-item` element of the task list: its two marker classes, its text
and the number of `.task-tick` children. -/
structure TaskItem where
  taskSelected : Bool
  taskCompleted : Bool
  text : String
  ticks : Nat
deriving DecidableEq

/-- The value of `sqlContext.tables`: the own properties of the object in
`Object.keys` order, table name to column names. -/
abbrev SqlContext := List (String × List String)

/-- The answer popup and its overlay (`#answer-popup`, `#answer-overlay`,
`#answer-popup-text`, `#answer-popup-sql`). -/
structure AnswerPopup where
  active : Bool
  overlayActive : Bool
  errorClass : Bool
  successClass : Bool
  text : String
  sqlHtml : String
  sqlDisplayed : Bool
deriving DecidableEq

/-- The global state of the lesson page. `editor` is `none` while the global
`editor` is `null`, and otherwise holds the text of the editor. -/
structure Session where
  lesson : Option Lesson
  currentTaskNumber : Option Nat
  editor : Option String
  taskItems : List TaskItem
  sqlContext : SqlContext
  answerPopup : AnswerPopup
deriving DecidableEq

/-- The type argument of `showPopup`. -/
inductive PopupType where
  | error
  | success
deriving DecidableEq

/-- The result object handed to `updateDataTable`. -/
structure PreviewResult where
  columns : List String
  rows : List (List (String × String))
deriving DecidableEq

/-- What one invocation does to the outside: requests, notifications, and
calls of routines whose body is not part of the embedded segment. -/
inductive Effect where
  | fetchEvaluate (lessonId taskNumber query : String)
  | fetchComplete (lessonId : String)
  | fetchPreview (lessonId taskId query : String)
  | fetchAnswer (lessonId taskId : String)
  | showPopup (message : String) (type : PopupType)
  | updateDataTable (results : Option PreviewResult)
  | callSwitchTask (current : Option Nat) (next : Nat) (complete : Bool)
  | updateSqlContextForTask (task : ExerciseTask)
  | scaleEditor (isLarge : Bool)
  | changeDataTableVisibility (visible : Bool)
  | runLiveQuery (initialLoad : Bool)
  | updateLessonMenu
  | fetchTableMeta (tableName : String)
  | triggerSuggest
  | fetchNextLesson (lessonId : String)
  | fetchLessons
deriving DecidableEq

/-- The result of one invocation. -/
structure Outcome where
  session : Session
  effects : List Effect
  threw : Bool
deriving DecidableEq

/-- The index `n - 1` of `xs[n - 1]` when it is a valid array index: `null - 1`
and `0 - 1` are `-1`, which no array has. -/
def jsIndex : Option Nat → Option Nat
  | some (k + 1) => some k
  | _ => none

/-- The value of `xs[n - 1]`, `none` for `undefined`. -/
def elemAt {α : Type} (xs : List α) (n : Option Nat) : Option α :=
  match jsIndex n with
  | some i => xs[i]?
  | none => none

/-- The comparator `(a, b) => (a["exercise-order"] || 0) - (b["exercise-order"] || 0)`
is not positive. -/
def orderLE (a b : ExerciseTask) : Prop := a.exerciseOrder ≤ b.exerciseOrder

instance orderLE_decidable : DecidableRel orderLE :=
  fun a b => Nat.decLe a.exerciseOrder b.exerciseOrder

/-- The in-place `Array.prototype.sort` by exercise order (a stable sort). -/
def sortTasks (tasks : List ExerciseTask) : List ExerciseTask :=
  List.insertionSort orderLE tasks

/-- The first line `renderTaskList` puts in the editor. -/
def editorHeader : String := "-- Press Ctrl + Enter to submit your query\n"

/-! ## `renderTaskList` -/

/-- The loop variables of `renderTaskList`. -/
structure RenderAcc where
  firstTaskFound : Bool
  session : Session
  effects : List Effect

/-- The text of a task item. -/
def taskItemText (task : ExerciseTask) : String :=
  toString task.exerciseOrder ++ ": " ++ task.description

/-- One iteration of `for (const task of tasks)` in `renderTaskList`. -/
def renderTaskStep (acc : RenderAcc) (task : ExerciseTask) : RenderAcc :=
  let s := acc.session
  if task.completed then
    { acc with session := { s with taskItems := s.taskItems ++ [⟨false, true, taskItemText task, 1⟩] } }
  else if !acc.firstTaskFound then
    { firstTaskFound := true
      session :=
        { s with
          currentTaskNumber := some task.exerciseOrder
          editor := s.editor.map (fun _ => editorHeader ++ task.initialQuery)
          sqlContext := []
          taskItems := s.taskItems ++ [⟨true, false, taskItemText task, 0⟩] }
      effects := acc.effects ++
        [Effect.updateSqlContextForTask task, Effect.scaleEditor task.largeQuery,
         Effect.changeDataTableVisibility task.previewAllowed, Effect.runLiveQuery true] }
  else
    { acc with session := { s with taskItems := s.taskItems ++ [⟨false, false, taskItemText task, 0⟩] } }

/-- The function `renderTaskList()`. -/
def renderTaskList (s : Session) : Outcome :=
  match s.lesson with
  | none => ⟨{ s with taskItems := [] }, [], true⟩
  | some lesson =>
    let tasks := sortTasks lesson.exerciseTasks
    let s0 : Session := { s with taskItems := [], lesson := some { lesson with exerciseTasks := tasks } }
    let acc := tasks.foldl renderTaskStep ⟨false, s0, []⟩
    if !acc.firstTaskFound then
      match acc.session.editor, tasks with
      | some _, first :: _ =>
        ⟨{ acc.session with editor := some (editorHeader ++ first.initialQuery) }, acc.effects, false⟩
      | _, _ => ⟨acc.session, acc.effects, true⟩
    else
      ⟨acc.session, acc.effects, false⟩

/-! ## `switchTask` -/

/-- Step 1 of `switchTask`: the current item gets the completed class, and a
tick when it has none. -/
def markItemDone (el : TaskItem) : TaskItem :=
  if !el.taskCompleted then
    { el with taskCompleted := true, ticks := if el.ticks = 0 then 1 else el.ticks }
  else el

/-- The call `el.classList.remove("task-selected")`. -/
def unselectItem (el : TaskItem) : TaskItem := { el with taskSelected := false }

/-- The call `el.classList.add("task-selected")`. -/
def selectItem (el : TaskItem) : TaskItem := { el with taskSelected := true }

/-- Apply `f` to `xs[n - 1]` when that element exists. -/
def modifyAt {α : Type} (xs : List α) (n : Option Nat) (f : α → α) : List α :=
  match jsIndex n with
  | some i => xs.modify f i
  | none => xs

/-- The function `switchTask(current_task_number, next_task_number, complete_task)`,
up to its end; the awaited menu refresh is an effect. -/
def switchTask (s : Session) (current : Option Nat) (next : Nat) (complete : Bool) : Outcome :=
  let items1 := if complete then modifyAt s.taskItems current markItemDone else s.taskItems
  let items2 := items1.map unselectItem
  let s2 : Session := { s with taskItems := items2 }
  match s.lesson with
  | none => ⟨s2, [], true⟩
  | some lesson =>
    match elemAt lesson.exerciseTasks (some next) with
    | none => ⟨s2, [], true⟩
    | some target =>
      if target.completed then ⟨s2, [], false⟩
      else
        let items3 := modifyAt items2 (some next) selectItem
        let tasks := sortTasks lesson.exerciseTasks
        let s3 : Session :=
          { s2 with
            taskItems := items3
            currentTaskNumber := some next
            lesson := some { lesson with exerciseTasks := tasks } }
        match elemAt tasks (some next) with
        | none => ⟨{ s3 with sqlContext := [] }, [], true⟩
        | some newTask =>
          ⟨{ s3 with editor := s3.editor.map (fun _ => newTask.initialQuery), sqlContext := [] },
           [Effect.updateSqlContextForTask newTask, Effect.scaleEditor newTask.largeQuery,
            Effect.runLiveQuery true, Effect.updateLessonMenu,
            Effect.changeDataTableVisibility newTask.previewAllowed],
           false⟩

/-- The click handler `renderTaskList` attaches to the item at array position
`i`.  The handler closes over the task object; after `renderTaskList` the task
array is sorted and no later sort moves an element, so the object is the one
at position `i` of the array. -/
def clickTask (s : Session) (i : Nat) : Outcome :=
  match s.taskItems[i]?, s.lesson with
  | some _, some lesson =>
    match lesson.exerciseTasks[i]? with
    | some task =>
      if task.completed then ⟨s, [], false⟩
      else switchTask s s.currentTaskNumber task.exerciseOrder false
    | none => ⟨s, [], false⟩
  | _, _ => ⟨s, [], false⟩

/-! ## `submitSQL` -/

/-- The body of the evaluation response (`/lessons/evaluate/...`). -/
structure EvalResponse where
  resultsMatch : JsVal
  userError : JsVal
deriving DecidableEq

/-- The loop variables of the next-task scan, with the ghost list `examined`
of the indices whose task was read. -/
structure Scan where
  nextTaskNumber : Option Nat
  examined : List Nat
  threw : Bool
deriving DecidableEq

/-- One `for` loop of the scan over the listed indices:
`if (!tasks[i].completed) { nextTaskNumber = i + 1; break; }`. -/
def scanLoop (tasks : List ExerciseTask) : List Nat → Scan → Scan
  | [], st => st
  | i :: rest, st =>
    match tasks[i]? with
    | none => { st with examined := st.examined ++ [i], threw := true }
    | some t =>
      if !t.completed then
        { st with nextTaskNumber := some (i + 1), examined := st.examined ++ [i] }
      else scanLoop tasks rest { st with examined := st.examined ++ [i] }

/-- The two loops of `submitSQL` that look for the next incomplete task:
`i` from `currentTaskNumber - 1` below the length, then, when nothing was
found, `i` from `0` below `currentTaskNumber - 1`.  The number is at least 1
here: `submitSQL` has read `tasks[currentTaskNumber - 1]` before. -/
def findNextTask (tasks : List ExerciseTask) (currentTaskNumber : Nat) : Scan :=
  let s1 := scanLoop tasks
    (List.range' (currentTaskNumber - 1) (tasks.length - (currentTaskNumber - 1))) ⟨none, [], false⟩
  if s1.threw then s1
  else if s1.nextTaskNumber = none then scanLoop tasks (List.range' 0 (currentTaskNumber - 1)) s1
  else s1

/-- The text of the notification for a response that does not match. -/
def incorrectMessage (userError : JsVal) : String :=
  if userError.looseNeEmptyString then "Incorrect Answer: " ++ userError.toJsString
  else "Incorrect Answer"

/-- What `markTaskComplete` does to the task item: the completed class, no
selected class, one more tick. -/
def completeItem (el : TaskItem) : TaskItem :=
  { el with taskCompleted := true, taskSelected := false, ticks := el.ticks + 1 }

/-- The assignment `task.completed = true`. -/
def completeTask (t : ExerciseTask) : ExerciseTask := { t with completed := true }

/-- The function `markTaskComplete(taskNumber)` up to its awaited menu
refresh. -/
def markTaskComplete (s : Session) (taskNumber : Nat) : Outcome :=
  match elemAt s.taskItems (some taskNumber) with
  | none => ⟨s, [], false⟩
  | some _ =>
    let items := modifyAt s.taskItems (some taskNumber) completeItem
    let s1 : Session := { s with taskItems := items }
    match s.lesson with
    | none => ⟨s1, [], true⟩
    | some lesson =>
      match elemAt lesson.exerciseTasks (some taskNumber) with
      | none => ⟨s1, [], true⟩
      | some _ =>
        let tasks := modifyAt lesson.exerciseTasks (some taskNumber) completeTask
        ⟨{ s1 with lesson := some { lesson with exerciseTasks := tasks } }, [Effect.updateLessonMenu], false⟩

/-- The function `submitSQL()`, with the evaluation response as an argument,
up to the request of the lesson-completion endpoint or the call of
`switchTask`. -/
def submitSQL (s : Session) (result : EvalResponse) : Outcome :=
  match s.currentTaskNumber with
  | none => ⟨s, [], false⟩
  | some k =>
    match s.lesson with
    | none => ⟨s, [], true⟩
    | some lesson =>
      match elemAt lesson.exerciseTasks (some k) with
      | none => ⟨s, [], true⟩
      | some currentTask =>
        if currentTask.completed then ⟨s, [], false⟩
        else
          match s.editor with
          | none => ⟨s, [], true⟩
          | some sql =>
            let request := Effect.fetchEvaluate lesson.id currentTask.taskId sql
            if !result.resultsMatch.truthy then
              ⟨s, [request, Effect.showPopup (incorrectMessage result.userError) PopupType.error], false⟩
            else
              let marked := markTaskComplete s k
              let effects1 := [request] ++ marked.effects ++ [Effect.showPopup "Correct!" PopupType.success]
              match marked.session.lesson with
              | none => ⟨marked.session, effects1, true⟩
              | some lesson1 =>
                let scan := findNextTask lesson1.exerciseTasks k
                if scan.threw then ⟨marked.session, effects1, true⟩
                else
                  match scan.nextTaskNumber with
                  | none => ⟨marked.session, effects1 ++ [Effect.fetchComplete lesson1.id], false⟩
                  | some next =>
                    let switched := switchTask marked.session (some k) next true
                    ⟨switched.session,
                     effects1 ++ [Effect.callSwitchTask (some k) next true] ++ switched.effects, false⟩

/-! ## `runLiveQuery`, `revealTaskAnswer`, `resetMonaco` -/

/-- The parsed body of a preview response. -/
structure PreviewData where
  error : JsVal
  results : Option PreviewResult
deriving DecidableEq

/-- A preview response: its status and its parsed body, `none` for the JSON
value `null`. -/
structure PreviewResponse where
  status : Nat
  data : Option PreviewData
deriving DecidableEq

/-- The characters `String.prototype.trim` removes and `\s` matches: the
white space and line terminator code points. -/
def isJsWhitespace (c : Char) : Bool :=
  let n := c.toNat
  n == 9 || n == 10 || n == 11 || n == 12 || n == 13 || n == 32 || n == 160 || n == 5760 ||
  (8192 ≤ n && n ≤ 8202) || n == 8232 || n == 8233 || n == 8239 || n == 8287 || n == 12288 ||
  n == 65279

/-- The test `!sql.trim()`: the text is empty after trimming. -/
def blankAfterTrim (sql : String) : Bool := sql.toList.all isJsWhitespace

/-- The test `!currentTaskNumber`. -/
def cursorFalsy : Option Nat → Bool
  | none => true
  | some 0 => true
  | some (_ + 1) => false

/-- What `runLiveQuery` does with a preview response, after `fetch`: the
effects, whether it threw, and whether it returned.  On status 400 the code
reads `data` before the `const data` declaration of the same scope has run. -/
def handlePreviewResponse (resp : PreviewResponse) : List Effect × Bool × Bool :=
  if resp.status == 400 then ([], true, false)
  else
    match resp.data with
    | none => ([], true, false)
    | some data =>
      if data.error.truthy then
        ([Effect.showPopup data.error.toJsString PopupType.error], false, true)
      else ([Effect.updateDataTable data.results], false, false)

/-- The function `runLiveQuery(initial_load)`, with the responses of its two
preview requests as arguments. -/
def runLiveQuery (s : Session) (_initialLoad : Bool) (firstResp resp : PreviewResponse) : Outcome :=
  match s.editor with
  | none => ⟨s, [], false⟩
  | some sql =>
    if blankAfterTrim sql then ⟨s, [], false⟩
    else
      match s.lesson with
      | none => ⟨s, [], true⟩
      | some lesson =>
        match elemAt lesson.exerciseTasks s.currentTaskNumber with
        | none => ⟨s, [], true⟩
        | some current =>
          if !current.previewAllowed then ⟨s, [], false⟩
          else
            let block : List Effect × Bool × Bool :=
              if cursorFalsy s.currentTaskNumber then
                match lesson.exerciseTasks[0]? with
                | none => ([], true, false)
                | some previewTask =>
                  let r := handlePreviewResponse firstResp
                  (Effect.fetchPreview lesson.id current.taskId previewTask.initialQuery :: r.1, r.2)
              else ([], false, false)
            if block.2.1 then ⟨s, block.1, true⟩
            else if block.2.2 then ⟨s, block.1, false⟩
            else
              let r := handlePreviewResponse resp
              ⟨s, block.1 ++ Effect.fetchPreview lesson.id current.taskId sql :: r.1, r.2.1⟩

/-- The function `showAnswerPopup(error, task, message)` on the popup. -/
def showAnswerPopup (error : Bool) (task : Option ExerciseTask) (message : String) :
    Option AnswerPopup :=
  if error then
    some ⟨true, true, true, false, message, "", false⟩
  else
    match task with
    | none => none
    | some t =>
      some ⟨true, true, false, true, "Task " ++ t.taskId ++ " Answer: " ++ t.description,
        "<pre><code class=\"language-sql\">" ++ message ++ "</code></pre>", true⟩

/-- The response of the answer endpoint: its status and the value of
`data.answer`, `none` when `resp.json()` rejects or gives `null`. -/
structure AnswerResponse where
  status : Nat
  answer : Option JsVal
deriving DecidableEq

/-- The fixed message of the popup for status 403. -/
def timerActiveMessage : String := "Unable to reveal answers when the timer is active."

/-- The fixed message of the popup for status 404. -/
def answerNotFoundMessage : String := "Unable to find an answer for this task."

/-- The function `revealTaskAnswer()`, with the response as an argument. -/
def revealTaskAnswer (s : Session) (resp : AnswerResponse) : Outcome :=
  match s.lesson with
  | none => ⟨s, [], true⟩
  | some lesson =>
    match elemAt lesson.exerciseTasks s.currentTaskNumber with
    | none => ⟨s, [], true⟩
    | some task =>
      let request := Effect.fetchAnswer lesson.id task.taskId
      let withPopup := fun (s : Session) (p : Option AnswerPopup) =>
        match p with
        | some q => { s with answerPopup := q }
        | none => s
      if resp.status == 403 then
        ⟨withPopup s (showAnswerPopup true none timerActiveMessage), [request], false⟩
      else
        let s1 :=
          if resp.status == 404 then withPopup s (showAnswerPopup true none answerNotFoundMessage)
          else s
        match resp.answer with
        | none => ⟨s1, [request], true⟩
        | some answer =>
          ⟨withPopup s1 (showAnswerPopup false (some task) answer.toJsString), [request], false⟩

/-- The function `resetMonaco()`. -/
def resetMonaco (s : Session) : Outcome :=
  match s.editor with
  | none => ⟨s, [], false⟩
  | some _ =>
    match s.lesson with
    | none => ⟨s, [], true⟩
    | some lesson =>
      match elemAt lesson.exerciseTasks s.currentTaskNumber with
      | none => ⟨s, [], true⟩
      | some task => ⟨{ s with editor := some task.initialQuery }, [], false⟩

/-! ## The session as a transition system -/

/-- The operations of the page on the session. -/
inductive Op where
  | click (i : Nat)
  | switchTask (current : Option Nat) (next : Nat) (complete : Bool)
  | submitSQL (result : EvalResponse)
  | runLiveQuery (initialLoad : Bool) (firstResp resp : PreviewResponse)
  | revealTaskAnswer (resp : AnswerResponse)
  | resetMonaco

/-- Run one operation. -/
def Op.apply (s : Session) : Op → Outcome
  | Op.click i => clickTask s i
  | Op.switchTask current next complete => SqlTraining.switchTask s current next complete
  | Op.submitSQL result => SqlTraining.submitSQL s result
  | Op.runLiveQuery initialLoad firstResp resp => SqlTraining.runLiveQuery s initialLoad firstResp resp
  | Op.revealTaskAnswer resp => SqlTraining.revealTaskAnswer s resp
  | Op.resetMonaco => SqlTraining.resetMonaco s

/-- The events of a lesson session after load: a click on the task item at
position `i`, or a submission answered with `result`. -/
inductive Event where
  | click (i : Nat)
  | submit (result : EvalResponse)

/-- The session after one event. -/
def step (s : Session) : Event → Session
  | Event.click i => (clickTask s i).session
  | Event.submit result => (submitSQL s result).session

/-- The popup before anything was shown. -/
def closedPopup : AnswerPopup := ⟨false, false, false, false, "", "", false⟩

/-- The session right after `loadLesson`: `lesson` holds the fetched lesson
and `renderTaskList()` has run on the initial globals. -/
def loadLesson (lesson : Lesson) (editor : Option String) : Session :=
  (renderTaskList ⟨some lesson, none, editor, [], [], closedPopup⟩).session

/-- The session after lesson load and a sequence of events. -/
def runEvents (lesson : Lesson) (editor : Option String) (events : List Event) : Session :=
  events.foldl step (loadLesson lesson editor)

/-- The exercise-order values of the lesson are `1, ..., N`, each once. -/
def DenseOrder (lesson : Lesson) : Prop :=
  List.Perm (lesson.exerciseTasks.map (fun t => t.exerciseOrder))
    (List.range' 1 lesson.exerciseTasks.length)

/-- The task array of the session, empty while no lesson is loaded. -/
def Session.tasks (s : Session) : List ExerciseTask :=
  match s.lesson with
  | some lesson => lesson.exerciseTasks
  | none => []

/-- The number of task items that carry the selected marker. -/
def selectedCount (s : Session) : Nat := s.taskItems.countP (fun el => el.taskSelected)

/-! ## Regular expressions of the completion provider

A backtracking matcher for the fragment of JavaScript regular expressions the
provider uses.  The input is a zipper: the characters before the current
position (nearest first) and the characters after it.  `run` lists the states
in which a match of the expression can end, in the order in which the
backtracking matcher of the language tries them. -/

/-- The fragment of regular expressions in use. -/
inductive Re where
  | eps
  | cls (p : Char → Bool)
  | wordBoundary
  | endOfInput
  | seq (a b : Re)
  | alt (a b : Re)
  | star (a : Re)
  | group (a : Re)

/-- A position in the input and the text of capture group 1. -/
structure MatchState where
  before : List Char
  after : List Char
  capture : Option (List Char)
deriving DecidableEq

/-- The class `\w` (without the `u` flag): `[A-Za-z0-9_]`. -/
def isWordChar (c : Char) : Bool := c.isAlphanum || c == '_'

/-- The class `[a-zA-Z_]`. -/
def isIdentStart (c : Char) : Bool := c.isAlpha || c == '_'

/-- The assertion `\b`: exactly one of the characters around the position is a
word character. -/
def atWordBoundary (st : MatchState) : Bool :=
  let a := match st.before with
    | c :: _ => isWordChar c
    | [] => false
  let b := match st.after with
    | c :: _ => isWordChar c
    | [] => false
  a != b

/-- The greedy loop of `*`: one more iteration that consumes input, then the
rest, before the alternative of stopping here. -/
def starLoop (stepFn : MatchState → List MatchState) : Nat → MatchState → List MatchState
  | 0, st => [st]
  | fuel + 1, st =>
    ((stepFn st).filter (fun t => t.after.length < st.after.length)).flatMap (starLoop stepFn fuel) ++ [st]

/-- The end states of the matches of an expression that start at `st`. -/
def Re.run : Re → MatchState → List MatchState
  | Re.eps, st => [st]
  | Re.cls p, st =>
    match st.after with
    | c :: rest => if p c then [{ st with before := c :: st.before, after := rest }] else []
    | [] => []
  | Re.wordBoundary, st => if atWordBoundary st then [st] else []
  | Re.endOfInput, st => if st.after.isEmpty then [st] else []
  | Re.seq a b, st => (Re.run a st).flatMap (fun t => Re.run b t)
  | Re.alt a b, st => Re.run a st ++ Re.run b st
  | Re.star a, st => starLoop (fun t => Re.run a t) st.after.length st
  | Re.group a, st =>
    (Re.run a st).map (fun t =>
      { t with capture := some ((t.before.take (t.before.length - st.before.length)).reverse) })

/-- The search of `RegExp.prototype.exec` from the position given by the
zipper: the first match at the leftmost start position that has one. -/
def Re.execFrom (re : Re) : List Char → List Char → Option MatchState
  | before, [] => (re.run ⟨before, [], none⟩).head?
  | before, c :: rest =>
    match (re.run ⟨before, c :: rest, none⟩).head? with
    | some m => some m
    | none => Re.execFrom re (c :: before) rest

/-- The method `re.exec(text)` (also `text.match(re)` without the `g` flag). -/
def Re.exec (re : Re) (text : List Char) : Option MatchState := re.execFrom [] text

/-- The method `re.test(text)`. -/
def Re.test (re : Re) (text : List Char) : Bool := (re.exec text).isSome

/-- A literal word under the `i` flag: each pattern character (an upper-case
ASCII letter) matches the input characters whose upper-case form it is. -/
def ciWord : List Char → Re
  | [] => Re.eps
  | c :: rest => Re.seq (Re.cls (fun x => x.toUpper == c)) (ciWord rest)

/-- The pattern `\bKEYWORD\b` under the `i` flag. -/
def keywordRe (keyword : String) : Re :=
  Re.seq Re.wordBoundary (Re.seq (ciWord keyword.toList) Re.wordBoundary)

/-- The expression `/(\bFROM\b|\bJOIN\b|\bUPDATE\b|\bINTO\b)\s+$/i`. -/
def tableKeywordRe : Re :=
  Re.seq
    (Re.group (Re.alt (keywordRe "FROM")
      (Re.alt (keywordRe "JOIN") (Re.alt (keywordRe "UPDATE") (keywordRe "INTO")))))
    (Re.seq (Re.seq (Re.cls isJsWhitespace) (Re.star (Re.cls isJsWhitespace))) Re.endOfInput)

/-- The expression `/([a-zA-Z_][a-zA-Z0-9_]*)\.$/`. -/
def tableDotRe : Re :=
  Re.seq (Re.group (Re.seq (Re.cls isIdentStart) (Re.star (Re.cls isWordChar))))
    (Re.seq (Re.cls (fun c => c == '.')) Re.endOfInput)

/-! ## The completion provider -/

/-- The two kinds of completion item in use. -/
inductive CompletionItemKind where
  | Class
  | Field
deriving DecidableEq

/-- A completion item. -/
structure Suggestion where
  label : String
  kind : CompletionItemKind
  insertText : String
deriving DecidableEq

/-- An uncaught exception. -/
inductive JsError where
  | typeError (message : String)
deriving DecidableEq

/-- The property names every plain object inherits from `Object.prototype`. -/
def objectPrototypeProperties : List String :=
  ["constructor", "__defineGetter__", "__defineSetter__", "hasOwnProperty",
   "__lookupGetter__", "__lookupSetter__", "isPrototypeOf", "propertyIsEnumerable",
   "toString", "valueOf", "__proto__", "toLocaleString"]

/-- The value of a property read `sqlContext.tables[name]`. -/
inductive PropertyValue where
  | columns (cols : List String)
  | inherited
  | undefined
deriving DecidableEq

/-- The property read `sqlContext.tables[tableName]` on the plain object: an
own property, else a property inherited from `Object.prototype` (a function
or an object, never an array), else `undefined`. -/
def lookupTable (ctx : SqlContext) (tableName : String) : PropertyValue :=
  match ctx.lookup tableName with
  | some cols => PropertyValue.columns cols
  | none =>
    if tableName ∈ objectPrototypeProperties then PropertyValue.inherited
    else PropertyValue.undefined

/-- The item for a table name. -/
def tableSuggestion (tableName : String) : Suggestion :=
  ⟨tableName, CompletionItemKind.Class, tableName⟩

/-- The item for a column name. -/
def columnSuggestion (col : String) : Suggestion :=
  ⟨col, CompletionItemKind.Field, col⟩

/-- The loop `for (const [tableName, cols] of Object.entries(sqlContext.tables))
allCols = allCols.concat(cols)`. -/
def allColumns (ctx : SqlContext) : List String :=
  ctx.foldl (fun allCols entry => allCols ++ entry.2) []

/-- The body of `provideCompletionItems` after `textUntilPos` is computed. -/
def resolveCompletion (ctx : SqlContext) (textUntilPos : List Char) :
    Except JsError (List Suggestion) :=
  if tableKeywordRe.test textUntilPos then
    Except.ok ((ctx.map (fun entry => entry.1)).map tableSuggestion)
  else
    match tableDotRe.exec textUntilPos with
    | some tableDotMatch =>
      let tableName := String.mk (tableDotMatch.capture.getD [])
      match lookupTable ctx tableName with
      | PropertyValue.columns cols => Except.ok (cols.map columnSuggestion)
      | PropertyValue.inherited => Except.error (JsError.typeError "cols.map is not a function")
      | PropertyValue.undefined => Except.ok []
    | none => Except.ok ((allColumns ctx).map columnSuggestion)

/-- The method `provideCompletionItems(model, position)`, given the content of
the line of the position and `position.column`:
`textUntilPos = line.slice(0, position.column)`. -/
def provideCompletionItems (ctx : SqlContext) (line : String) (column : Nat) :
    Except JsError (List Suggestion) :=
  resolveCompletion ctx (line.toList.take column)

/-! ## The debounce timer of the editor

The timers of the page that call `runLiveQuery`, with the time in
milliseconds.  `runs` is a ghost log: one entry, the time and the editor text
read by `editor.getValue()`, for each execution of `runLiveQuery` started by a
timer. -/

/-- A pending `setTimeout(runLiveQuery, delay)`. -/
structure Timer where
  id : Nat
  due : Nat
deriving DecidableEq

/-- The clock, the pending timers, the global `debounceTimer`, the editor
text and the log of executions. -/
structure Clock where
  now : Nat
  nextTimerId : Nat
  timers : List Timer
  debounceTimer : Option Nat
  editorText : String
  runs : List (Nat × String)
deriving DecidableEq

/-- The call `clearTimeout(id)`: a pending timer with that id is removed. -/
def clearTimeout (c : Clock) (id : Option Nat) : Clock :=
  match id with
  | some i => { c with timers := c.timers.filter (fun tm => tm.id != i) }
  | none => c

/-- The call `setTimeout(runLiveQuery, delay)`: the clock with the new timer,
and the id returned. -/
def setTimeout (c : Clock) (delay : Nat) : Clock × Nat :=
  ({ c with timers := c.timers ++ [⟨c.nextTimerId, c.now + delay⟩], nextTimerId := c.nextTimerId + 1 },
   c.nextTimerId)

/-- The handler of `editor.onDidChangeModelContent`:
`clearTimeout(debounceTimer); debounceTimer = setTimeout(runLiveQuery, 400)`. -/
def onDidChangeModelContent (c : Clock) : Clock :=
  let c1 := clearTimeout c c.debounceTimer
  let r := setTimeout c1 400
  { r.1 with debounceTimer := some r.2 }

/-- The pending timer that fires next among those due at or before `t`: the
earliest, and among equals the one set first. -/
def nextDue (timers : List Timer) (t : Nat) : Option Timer :=
  (timers.filter (fun tm => tm.due ≤ t)).foldl
    (fun best tm =>
      match best with
      | none => some tm
      | some b => if tm.due < b.due then some tm else some b)
    none

/-- Let the time pass until `t`: the timers due fire in order, each one an
execution of `runLiveQuery` that reads the editor text. -/
def advanceFuel : Nat → Clock → Nat → Clock
  | 0, c, t => { c with now := max c.now t }
  | fuel + 1, c, t =>
    match nextDue c.timers t with
    | none => { c with now := max c.now t }
    | some tm =>
      advanceFuel fuel
        { c with
          now := max c.now tm.due
          timers := c.timers.filter (fun x => x.id != tm.id)
          runs := c.runs ++ [(max c.now tm.due, c.editorText)] }
        t

/-- Let the time pass until `t`. -/
def advance (c : Clock) (t : Nat) : Clock := advanceFuel c.timers.length c t

/-- A content change at time `t` that leaves `text` in the editor: the timers
due before it fire, then the handler runs. -/
def changeAt (c : Clock) (t : Nat) (text : String) : Clock :=
  onDidChangeModelContent { advance c t with editorText := text }

/-- A sequence of content changes, each with its time and the text it leaves. -/
def changes (c : Clock) (events : List (Nat × String)) : Clock :=
  events.foldl (fun c e => changeAt c e.1 e.2) c

/-- Each event of the list follows the one before it (the first one follows
time `t`) by less than `quiet` milliseconds. -/
def Burst (quiet : Nat) : Nat → List (Nat × String) → Prop
  | _, [] => True
  | t, e :: rest => t ≤ e.1 ∧ e.1 < t + quiet ∧ Burst quiet e.1 rest

/-! ## `updateSqlContextForTask`

The routine is embedded step by step: `startRefresh` is the segment up to the
first `await`, `resumeRefresh` the segment from one metadata response to the
next `await` or to the end.  Table lists hold the `name` of each entry.  A
table name is taken to be an ordinary property name (not `__proto__`, not an
array index), so that the assignment creates or overwrites an own property
and `Object.keys` lists the names in the order of their first assignment. -/

/-- The body of a metadata response (`/tables/meta/<name>`). -/
structure TableMetadata where
  name : String
  columns : List String
deriving DecidableEq

/-- The assignment `sqlContext.tables[name] = columns`. -/
def setTable (ctx : SqlContext) (name : String) (columns : List String) : SqlContext :=
  if ctx.any (fun e => e.1 == name) then
    ctx.map (fun e => if e.1 == name then (name, columns) else e)
  else ctx ++ [(name, columns)]

/-- A run of `updateSqlContextForTask` suspended at `await fetch(...)`: the
tables of the loop that are not yet answered, the first of them being the one
requested. -/
structure Refresh where
  remaining : List String
deriving DecidableEq

/-- The result of one segment of a run: the session, the suspended run
(`none` when the run has ended), the effects and whether the run ended with an
exception. -/
structure RefreshStep where
  session : Session
  run : Option Refresh
  effects : List Effect
  threw : Bool
deriving DecidableEq

/-- The head of the loop `for (const t of tables)`: the request for the next
table, or after the last one `if (editor) editor.trigger(...)` and the end. -/
def refreshNext (s : Session) : List String → RefreshStep
  | [] => ⟨s, none, if s.editor.isSome then [Effect.triggerSuggest] else [], false⟩
  | t :: rest => ⟨s, some ⟨t :: rest⟩, [Effect.fetchTableMeta t], false⟩

/-- The function `updateSqlContextForTask(task)` up to its first `await`.
The read `lesson["database-tables"].length` throws a `TypeError` when the
lesson has no such property, after the context was reset; the table list of
the loop is `task["tables"] || lesson["database-tables"] || []`. -/
def startRefresh (s : Session) (task : Option ExerciseTask) : RefreshStep :=
  let s1 : Session := { s with sqlContext := [] }
  match s.lesson with
  | none => ⟨s1, none, [], true⟩
  | some lesson =>
    match lesson.databaseTables with
    | none => ⟨s1, none, [], true⟩
    | some databaseTables =>
      if databaseTables.length == 0 then ⟨s1, none, [], false⟩
      else
        match task with
        | none => ⟨s1, none, [], true⟩
        | some t => refreshNext s1 ((t.tables.or lesson.databaseTables).getD [])

/-- The function `updateSqlContextForTask` from the arrival of a metadata
response: the entry is written into the object that `sqlContext.tables`
holds at that moment, then the loop goes on. -/
def resumeRefresh (s : Session) (run : Refresh) (response : TableMetadata) : RefreshStep :=
  match run.remaining with
  | [] => ⟨s, none, [], false⟩
  | _ :: rest =>
    refreshNext { s with sqlContext := setTable s.sqlContext response.name response.columns } rest

/-- Resume a run until it ends, nothing else running in between; `endpoint`
gives the response for each requested table. -/
def runToEnd (endpoint : String → TableMetadata) : Nat → RefreshStep → RefreshStep
  | 0, st => st
  | fuel + 1, st =>
    match st.run with
    | none => st
    | some run =>
      match run.remaining with
      | [] => st
      | t :: _ =>
        let next := resumeRefresh st.session run (endpoint t)
        runToEnd endpoint fuel ⟨next.session, next.run, st.effects ++ next.effects, next.threw⟩

/-- The function `updateSqlContextForTask(task)` run to completion. -/
def updateSqlContextForTask (s : Session) (task : Option ExerciseTask)
    (endpoint : String → TableMetadata) : RefreshStep :=
  match (startRefresh s task).run with
  | none => startRefresh s task
  | some run => runToEnd endpoint run.remaining.length (startRefresh s task)

/-! ## The next-lesson button -/

/-- One value of the lesson listing (`/lessons`). -/
structure LessonEntry where
  title : String
  subtitle : String
  order : Nat
  completed : Bool
  difficulty : String
deriving DecidableEq

/-- The body of the lesson listing: lesson id to entry, in `Object.entries`
order. -/
abbrev LessonsData := List (String × LessonEntry)

/-- The element `#next-lesson-btn`: its disabled class, its text and the
address its click handler navigates to (`none` while it has no handler). -/
structure NextLessonButton where
  disabled : Bool
  innerText : String
  destination : Option String
deriving DecidableEq

/-- The result of a routine that sets up the button. -/
structure ButtonOutcome where
  button : NextLessonButton
  effects : List Effect
  threw : Bool
deriving DecidableEq

/-- The loose inequality `v != null`. -/
def JsVal.looseNeNull : JsVal → Bool
  | JsVal.undefined => false
  | JsVal.null => false
  | _ => true

/-- The loop of the page-load handler over `Object.entries(lessons_data)`:
`if (!lsn.completed) { all_lessons_completed = false; break; }`. -/
def allLessonsCompletedLoop : LessonsData → Bool
  | [] => true
  | e :: rest => if !e.2.completed then false else allLessonsCompletedLoop rest

/-- The loop of the page-load handler over the tasks of the lesson:
`if (!task.completed) { incomplete_task_exists = true; break; }`. -/
def incompleteTaskExists : List ExerciseTask → Bool
  | [] => false
  | t :: rest => if !t.completed then true else incompleteTaskExists rest

/-- The end of the `DOMContentLoaded` handler, from the loop over the tasks
on, with the two response bodies as arguments. -/
def pageLoadNextLesson (s : Session) (button : NextLessonButton) (nextLessonId : JsVal)
    (lessonsData : LessonsData) : ButtonOutcome :=
  match s.lesson with
  | none => ⟨button, [], true⟩
  | some lesson =>
    if incompleteTaskExists lesson.exerciseTasks then
      ⟨{ button with disabled := true }, [], false⟩
    else
      let effects := [Effect.fetchNextLesson lesson.id, Effect.fetchLessons]
      if allLessonsCompletedLoop lessonsData then
        ⟨{ button with innerText := "All Lessons Complete - Return Home", destination := some "/" },
          effects, false⟩
      else if nextLessonId.looseNeNull then
        ⟨{ button with
            innerText := "Next Lesson"
            destination := some ("/lesson/" ++ nextLessonId.toJsString) }, effects, false⟩
      else
        ⟨{ button with innerText := "View Incomplete Lessons", destination := some "/" },
          effects, false⟩

/-- The function `handleNextLessonButton()`, with the two response bodies as
arguments. -/
def handleNextLessonButton (s : Session) (button : NextLessonButton) (nextLessonId : JsVal)
    (lessonsData : LessonsData) : ButtonOutcome :=
  match s.lesson with
  | none => ⟨button, [], true⟩
  | some lesson =>
    let b : NextLessonButton := { button with disabled := false }
    let effects :=
      [Effect.fetchNextLesson lesson.id, Effect.fetchLessons, Effect.updateLessonMenu]
    if lessonsData.all (fun e => e.2.completed) then
      ⟨{ b with innerText := "All Lessons Complete - Return Home", destination := some "/" },
        effects, false⟩
    else if nextLessonId.truthy then
      ⟨{ b with
          innerText := "Next Lesson"
          destination := some ("/lesson/" ++ nextLessonId.toJsString) }, effects, false⟩
    else
      ⟨{ b with innerText := "View Incomplete Lessons", destination := some "/" }, effects, false⟩

/-! ## Notions used by the statements -/

/-- The task at array position `i` has exercise order `i + 1`. -/
def Aligned (tasks : List ExerciseTask) : Prop :=
  ∀ i t, tasks[i]? = some t → t.exerciseOrder = i + 1

instance orderLE_total : IsTotal ExerciseTask orderLE := ⟨fun _ _ => Nat.le_total _ _⟩

instance orderLE_trans : IsTrans ExerciseTask orderLE := ⟨fun _ _ _ h1 h2 => Nat.le_trans h1 h2⟩

/-- The task at array index `i` exists and is not completed. -/
def incompleteAt (tasks : List ExerciseTask) (i : Nat) : Bool :=
  match tasks[i]? with
  | some t => !t.completed
  | none => false

/-- Task number `j` (counted from 1) exists and is not completed. -/
def taskIncomplete (tasks : List ExerciseTask) (j : Nat) : Bool :=
  match elemAt tasks (some j) with
  | some t => !t.completed
  | none => false

/-- The task numbers in cyclic order after task `k`: `k+1, ..., n, 1, ..., k-1`. -/
def cyclicOrder (n k : Nat) : List Nat := List.range' (k + 1) (n - k) ++ List.range' 1 (k - 1)

/-- The array indices in the order of the two loops of the scan. -/
def scanOrder (n k : Nat) : List Nat :=
  List.range' (k - 1) (n - (k - 1)) ++ List.range' 0 (k - 1)

/-- The three tasks of the example: task 1 done, task 2 not done, task 3 just
completed. -/
def exampleTasks : List ExerciseTask :=
  [⟨"t1", 1, "first", "", true, true, false, none⟩,
   ⟨"t2", 2, "second", "", false, true, false, none⟩,
   ⟨"t3", 3, "third", "", true, true, false, none⟩]

/-- The invariant of a loaded session: the task array is in exercise order
with order `i + 1` at position `i`, there is one task item per task, a
selected item sits at the position of the cursor, and some item is selected
while a task is not completed. -/
structure SessionInv (s : Session) : Prop where
  aligned : Aligned s.tasks
  items_length : s.taskItems.length = s.tasks.length
  selected_cursor : ∀ (i : Nat) (el : TaskItem), s.taskItems[i]? = some el → el.taskSelected = true →
    s.currentTaskNumber = some (i + 1)
  selected_exists : (∃ t ∈ s.tasks, t.completed = false) →
    ∃ (i : Nat) (el : TaskItem), s.taskItems[i]? = some el ∧ el.taskSelected = true

/-- A lesson of three tasks given out of order, the first one completed. -/
def exampleLesson : Lesson :=
  ⟨"lesson-1", "Basics", "Select", 
   [⟨"c", 3, "third", "SELECT 3", false, true, false, none⟩,
    ⟨"a", 1, "first", "SELECT 1", true, true, false, none⟩,
    ⟨"b", 2, "second", "SELECT 2", false, true, false, none⟩], some []⟩

/-- A lesson with a single task, not completed. -/
def oneTaskLesson : Lesson :=
  ⟨"lesson-1", "Basics", "Select", [⟨"a", 1, "only", "SELECT 1", false, true, false, none⟩], some []⟩

/-- The completed flags of the tasks, by array position. -/
def completedFlags (s : Session) : List Bool := s.tasks.map (fun t => t.completed)

/-- The context of the examples: `orders(id, total)` and `users(id, name)`. -/
def exampleContext : SqlContext := [("orders", ["id", "total"]), ("users", ["id", "name"])]

/-- The four keywords of the table rule, as character lists. -/
def tableKeywords : List (List Char) :=
  ["FROM".toList, "JOIN".toList, "UPDATE".toList, "INTO".toList]

/-- The clock of a page on which nothing happened yet. -/
def initialClock : Clock := ⟨0, 0, [], none, "", []⟩

/-- The last change of a burst that starts with `e`. -/
def lastChange : Nat × String → List (Nat × String) → Nat × String
  | e, [] => e
  | _, x :: rest => lastChange x rest

/-- The state right after a content change at time `t` that left `text`, with
the executions logged so far: one pending timer, due 400 ms later, held by
`debounceTimer`. -/
def Pending (c : Clock) (t : Nat) (text : String) (runs : List (Nat × String)) : Prop :=
  c.now = t ∧ (∃ id, c.timers = [⟨id, t + 400⟩] ∧ c.debounceTimer = some id) ∧
    c.editorText = text ∧ c.runs = runs

/-- A lesson whose three tasks are all completed. -/
def completedLesson : Lesson :=
  ⟨"lesson-1", "Basics", "Select",
   [⟨"b", 2, "second", "SELECT 2", true, true, false, none⟩,
    ⟨"a", 1, "first", "SELECT 1", true, true, false, none⟩,
    ⟨"c", 3, "third", "SELECT 3", true, true, false, none⟩], some []⟩

/-- A lesson with the tables `orders` and `users`, whose first task is
restricted to `orders` and whose second task to `users`. -/
def contextLesson : Lesson :=
  ⟨"lesson-2", "Joins", "Inner join",
   [⟨"a", 1, "first", "SELECT 1", false, true, false, some ["orders"]⟩,
    ⟨"b", 2, "second", "SELECT 2", false, true, false, some ["users"]⟩],
   some ["orders", "users"]⟩

/-- A lesson object without the property `database-tables`, with one task
that has no table list of its own. -/
def noTablesLesson : Lesson :=
  ⟨"lesson-3", "Updates", "Update",
   [⟨"a", 1, "first", "SELECT 1", false, true, false, none⟩], none⟩

/-- A metadata endpoint for the tables `orders` and `users`. -/
def exampleEndpoint (tableName : String) : TableMetadata :=
  ⟨tableName, if tableName = "orders" then ["id", "total"] else ["id", "name"]⟩

/-- A lesson listing with one completed and one open lesson. -/
def exampleCatalog : LessonsData :=
  [("lesson-1", ⟨"Basics", "Select", 1, true, "easy"⟩),
   ("lesson-2", ⟨"Joins", "Inner join", 2, false, "medium"⟩)]

/-- The button as the page delivers it. -/
def initialButton : NextLessonButton := ⟨true, "Next Lesson", none⟩

/-- The effective table set of a task, in the words of the specification: the
table override of the task when it has one, otherwise the table list of the
lesson, otherwise the empty set. -/
def effectiveTables (lesson : Lesson) (task : ExerciseTask) : List String :=
  match task.tables with
  | some override => override
  | none =>
    match lesson.databaseTables with
    | some databaseTables => databaseTables
    | none => []

/-- The table override of a task narrows the schema of the lesson: every
table it names is a table of the lesson. -/
def NarrowingOverride (lesson : Lesson) (task : ExerciseTask) : Prop :=
  ∀ override, task.tables = some override →
    ∀ t ∈ override, t ∈ lesson.databaseTables.getD []

/-- The text before the cursor on its line.  The editor counts columns from
1: a cursor at `column` stands after `column - 1` characters of the line. -/
def textBeforeCursor (line : String) (column : Nat) : List Char :=
  line.toList.take (column - 1)

/-- A value of `next_lesson_id` in the answer of the next-lesson lookup: null
or absent when no lesson follows, or the id of a lesson, a non-empty
string. -/
def ReportedLessonId (v : JsVal) : Prop :=
  v = JsVal.null ∨ v = JsVal.undefined ∨ ∃ id : String, id ≠ "" ∧ v = JsVal.str id

/-- Position `i` of the list holds the first task that is not completed. -/
def FirstOpen (tasks : List ExerciseTask) (i : Nat) : Prop :=
  (∃ t, tasks[i]? = some t ∧ t.completed = false) ∧
    ∀ j, j < i → ∀ u, tasks[j]? = some u → u.completed = true

/-- The completion provider with its first two rules tested in the opposite
order: the identifier-dot rule first, then the table-keyword rule, then the
columns of all tables. -/
def resolveCompletionSwapped (ctx : SqlContext) (textUntilPos : List Char) :
    Except JsError (List Suggestion) :=
  match tableDotRe.exec textUntilPos with
  | some tableDotMatch =>
    let tableName := String.mk (tableDotMatch.capture.getD [])
    match lookupTable ctx tableName with
    | PropertyValue.columns cols => Except.ok (cols.map columnSuggestion)
    | PropertyValue.inherited => Except.error (JsError.typeError "cols.map is not a function")
    | PropertyValue.undefined => Except.ok []
  | none =>
    if tableKeywordRe.test textUntilPos then
      Except.ok ((ctx.map (fun entry => entry.1)).map tableSuggestion)
    else
      Except.ok ((allColumns ctx).map columnSuggestion)

/-! ## Sorting, alignment and the next-task scan -/

theorem sortTasks_of_sorted {tasks : List ExerciseTask} (h : List.Sorted orderLE tasks) :
    sortTasks tasks = tasks :=
  List.Sorted.insertionSort_eq h

theorem sorted_of_aligned {tasks : List ExerciseTask} (h : Aligned tasks) :
    List.Sorted orderLE tasks := by
  unfold List.Sorted
  rw [List.pairwise_iff_getElem]
  intro i j hi hj hij
  have h1 := h i tasks[i] (List.getElem?_eq_getElem hi)
  have h2 := h j tasks[j] (List.getElem?_eq_getElem hj)
  unfold orderLE
  omega

theorem sortTasks_of_aligned {tasks : List ExerciseTask} (h : Aligned tasks) :
    sortTasks tasks = tasks :=
  sortTasks_of_sorted (sorted_of_aligned h)

theorem length_sortTasks (tasks : List ExerciseTask) : (sortTasks tasks).length = tasks.length :=
  List.length_insertionSort _ _

theorem aligned_sortTasks {lesson : Lesson} (h : DenseOrder lesson) :
    Aligned (sortTasks lesson.exerciseTasks) := by
  have hs : List.Sorted orderLE (sortTasks lesson.exerciseTasks) := List.sorted_insertionSort _ _
  have hs2 : List.Sorted (· ≤ ·) ((sortTasks lesson.exerciseTasks).map (fun t => t.exerciseOrder)) := by
    unfold List.Sorted
    rw [List.pairwise_map]
    exact hs
  have hp : List.Perm ((sortTasks lesson.exerciseTasks).map (fun t => t.exerciseOrder))
      (List.range' 1 lesson.exerciseTasks.length) :=
    ((List.perm_insertionSort orderLE lesson.exerciseTasks).map _).trans h
  have hr : List.Sorted (· ≤ ·) (List.range' 1 lesson.exerciseTasks.length) :=
    (List.pairwise_lt_range' 1 lesson.exerciseTasks.length).imp Nat.le_of_lt
  have heq := List.eq_of_perm_of_sorted hp hs2 hr
  intro i t hit
  have h3 : ((sortTasks lesson.exerciseTasks).map (fun t => t.exerciseOrder))[i]? = some t.exerciseOrder := by
    simp [hit]
  have hlt : i < lesson.exerciseTasks.length := by
    obtain ⟨hl, _⟩ := List.getElem?_eq_some.mp hit
    rw [length_sortTasks] at hl
    exact hl
  rw [heq, List.getElem?_range' 1 1 hlt] at h3
  simp at h3
  omega

theorem aligned_modify {tasks : List ExerciseTask} (h : Aligned tasks) (n : Option Nat) :
    Aligned (modifyAt tasks n completeTask) := by
  unfold modifyAt
  cases hj : jsIndex n with
  | none => simpa using h
  | some j =>
    intro i t hit
    simp only at hit
    rw [List.getElem?_modify] at hit
    cases hti : tasks[i]? with
    | none => simp [hti] at hit
    | some t0 =>
      have := h i t0 hti
      simp [hti] at hit
      by_cases hji : j = i
      · simp [hji] at hit; rw [← hit]; simpa [completeTask] using this
      · simp [hji] at hit; rw [← hit]; exact this

theorem elemAt_some {α : Type} (xs : List α) (n : Nat) :
    elemAt xs (some (n + 1)) = xs[n]? := rfl

theorem elemAt_eq_some {α : Type} {xs : List α} {n : Option Nat} {x : α}
    (h : elemAt xs n = some x) : ∃ k, n = some (k + 1) ∧ xs[k]? = some x := by
  unfold elemAt at h
  match n, h with
  | some (k + 1), h => exact ⟨k, rfl, h⟩
  | some 0, h => simp [jsIndex] at h
  | none, h => simp [jsIndex] at h

/-! ## The next-task scan -/

theorem scanLoop_threw (tasks : List ExerciseTask) :
    ∀ (idxs : List Nat) (st : Scan), (∀ i ∈ idxs, i < tasks.length) →
      (scanLoop tasks idxs st).threw = st.threw := by
  intro idxs
  induction idxs with
  | nil => intro st _; rfl
  | cons i rest ih =>
    intro st h
    have hi : i < tasks.length := h i (List.mem_cons_self _ _)
    unfold scanLoop
    rw [List.getElem?_eq_getElem hi]
    simp only
    split
    · rfl
    · rw [ih _ (fun j hj => h j (List.mem_cons_of_mem _ hj))]

theorem scanLoop_next (tasks : List ExerciseTask) :
    ∀ (idxs : List Nat) (st : Scan), (∀ i ∈ idxs, i < tasks.length) →
      (scanLoop tasks idxs st).nextTaskNumber =
        ((idxs.find? (incompleteAt tasks)).map (· + 1)).or st.nextTaskNumber := by
  intro idxs
  induction idxs with
  | nil => intro st _; simp [scanLoop]
  | cons i rest ih =>
    intro st h
    have hi : i < tasks.length := h i (List.mem_cons_self _ _)
    unfold scanLoop
    rw [List.getElem?_eq_getElem hi]
    simp only
    by_cases hc : tasks[i].completed = true
    · have : incompleteAt tasks i = false := by
        simp [incompleteAt, List.getElem?_eq_getElem hi, hc]
      simp only [hc, Bool.not_true, Bool.false_eq_true, if_false, List.find?_cons, this]
      rw [ih _ (fun j hj => h j (List.mem_cons_of_mem _ hj))]
    · have : incompleteAt tasks i = true := by
        simp [incompleteAt, List.getElem?_eq_getElem hi, hc]
      simp [hc, List.find?_cons, this]

theorem scanLoop_examined (tasks : List ExerciseTask) :
    ∀ (idxs : List Nat) (st : Scan), (∀ i ∈ idxs, i < tasks.length) →
      ∃ p, (scanLoop tasks idxs st).examined = st.examined ++ p ∧ p <+: idxs ∧
        (idxs.find? (incompleteAt tasks) = none → p = idxs) := by
  intro idxs
  induction idxs with
  | nil => intro st _; exact ⟨[], by simp [scanLoop], List.prefix_refl _, fun _ => rfl⟩
  | cons i rest ih =>
    intro st h
    have hi : i < tasks.length := h i (List.mem_cons_self _ _)
    unfold scanLoop
    rw [List.getElem?_eq_getElem hi]
    simp only
    by_cases hc : tasks[i].completed = true
    · have hinc : incompleteAt tasks i = false := by
        simp [incompleteAt, List.getElem?_eq_getElem hi, hc]
      simp only [hc, Bool.not_true, Bool.false_eq_true, if_false]
      obtain ⟨p, hp1, hp2, hp3⟩ := ih { st with examined := st.examined ++ [i] }
        (fun j hj => h j (List.mem_cons_of_mem _ hj))
      refine ⟨i :: p, ?_, ?_, ?_⟩
      · rw [hp1]; simp
      · exact (List.prefix_cons_inj i).mpr hp2
      · intro hf
        rw [List.find?_cons, hinc] at hf
        rw [hp3 hf]
    · have hinc : incompleteAt tasks i = true := by
        simp [incompleteAt, List.getElem?_eq_getElem hi, hc]
      simp only [hc, Bool.not_false, if_true]
      refine ⟨[i], rfl, ?_, ?_⟩
      · simp
      · intro hf
        rw [List.find?_cons, hinc] at hf
        simp at hf

theorem taskIncomplete_succ (tasks : List ExerciseTask) :
    (taskIncomplete tasks ∘ fun i => i + 1) = incompleteAt tasks := by
  funext i
  rfl

theorem scanOrder_perm (n k : Nat) (hk : k - 1 ≤ n) : List.Perm (scanOrder n k) (List.range n) := by
  unfold scanOrder
  refine List.perm_append_comm.trans ?_
  have := List.range'_append 0 (k - 1) (n - (k - 1)) 1
  simp only [Nat.zero_add, Nat.one_mul] at this
  rw [this, List.range_eq_range']
  have : n - (k - 1) + (k - 1) = n := by omega
  rw [this]

theorem scanOrder_lt {n k i : Nat} (h : i ∈ scanOrder n k) (hk : k - 1 ≤ n) : i < n := by
  have := (scanOrder_perm n k hk).mem_iff.mp h
  simpa using this

theorem findNextTask_spec (tasks : List ExerciseTask) (k : Nat) (hk : k - 1 ≤ tasks.length) :
    (findNextTask tasks k).threw = false ∧
    (findNextTask tasks k).nextTaskNumber =
      ((scanOrder tasks.length k).find? (incompleteAt tasks)).map (· + 1) ∧
    (findNextTask tasks k).examined <+: scanOrder tasks.length k ∧
    ((findNextTask tasks k).nextTaskNumber = none →
      (findNextTask tasks k).examined = scanOrder tasks.length k) := by
  have hr1 : ∀ i ∈ List.range' (k - 1) (tasks.length - (k - 1)), i < tasks.length := by
    intro i hi
    exact scanOrder_lt (List.mem_append_left _ hi) hk
  have hr2 : ∀ i ∈ List.range' 0 (k - 1), i < tasks.length := by
    intro i hi
    exact scanOrder_lt (List.mem_append_right _ hi) hk
  have ht1 := scanLoop_threw tasks _ ⟨none, [], false⟩ hr1
  have hn1 := scanLoop_next tasks _ ⟨none, [], false⟩ hr1
  obtain ⟨p1, he1, hp1, hf1⟩ := scanLoop_examined tasks _ ⟨none, [], false⟩ hr1
  simp only [List.nil_append, Option.or_none] at ht1 hn1 he1
  unfold findNextTask scanOrder
  simp only [ht1, Bool.false_eq_true, if_false, List.find?_append]
  cases hfind : (List.range' (k - 1) (tasks.length - (k - 1))).find? (incompleteAt tasks) with
  | some i =>
    rw [hfind] at hn1
    simp only [Option.map_some'] at hn1
    simp only [hn1, ht1, he1, Option.some_ne_none, if_false, Option.or_some, Option.map_some',
      false_implies, and_true, true_and]
    exact hp1.trans (List.prefix_append _ _)
  | none =>
    rw [hfind] at hn1
    simp only [Option.map_none'] at hn1
    have hp : p1 = List.range' (k - 1) (tasks.length - (k - 1)) := hf1 hfind
    subst hp
    have ht2 := scanLoop_threw tasks _ (scanLoop tasks (List.range' (k - 1) (tasks.length - (k - 1))) ⟨none, [], false⟩) hr2
    have hn2 := scanLoop_next tasks _ (scanLoop tasks (List.range' (k - 1) (tasks.length - (k - 1))) ⟨none, [], false⟩) hr2
    obtain ⟨p2, he2, hp2, hf2⟩ := scanLoop_examined tasks _ (scanLoop tasks (List.range' (k - 1) (tasks.length - (k - 1))) ⟨none, [], false⟩) hr2
    rw [hn1] at hn2
    rw [he1] at he2
    simp only [Option.or_none] at hn2
    simp only [hn1, if_true, ht2, ht1, hn2, he2, Option.none_or, true_and]
    refine ⟨(List.prefix_append_right_inj _).mpr hp2, ?_⟩
    intro hnone
    rw [Option.map_eq_none'] at hnone
    rw [hf2 hnone]

theorem cyclicOrder_eq_map (n j : Nat) :
    cyclicOrder n (j + 1) = (List.range' (j + 1) (n - (j + 1)) ++ List.range' 0 j).map (· + 1) := by
  unfold cyclicOrder
  have h : ∀ s m, (List.range' s m).map (· + 1) = List.range' (s + 1) m := by
    intro s m
    have := List.map_add_range' 1 s m 1
    simp only [Nat.add_comm 1] at this
    exact this
  rw [List.map_append, h, h]
  simp

theorem scanOrder_find (tasks : List ExerciseTask) (j : Nat) (t : ExerciseTask)
    (hj : tasks[j]? = some t) (hdone : t.completed = true) :
    ((scanOrder tasks.length (j + 1)).find? (incompleteAt tasks)).map (· + 1) =
      (cyclicOrder tasks.length (j + 1)).find? (taskIncomplete tasks) := by
  obtain ⟨hlt, _⟩ := List.getElem?_eq_some.mp hj
  rw [cyclicOrder_eq_map, List.find?_map, taskIncomplete_succ]
  unfold scanOrder
  have h1 : tasks.length - (j + 1 - 1) = (tasks.length - (j + 1)) + 1 := by omega
  have hinc : incompleteAt tasks j = false := by simp [incompleteAt, hj, hdone]
  simp only [Nat.add_sub_cancel, h1, List.range'_succ, List.cons_append, List.find?_cons, hinc]
  rw [Nat.add_sub_cancel] at h1
  rw [h1, List.range'_succ]
  simp [List.find?_cons, hinc]

theorem findNextTask_none_iff (tasks : List ExerciseTask) (k : Nat) (hk : k - 1 ≤ tasks.length) :
    (findNextTask tasks k).nextTaskNumber = none ↔ ∀ x ∈ tasks, x.completed = true := by
  have hperm := scanOrder_perm tasks.length k hk
  rw [(findNextTask_spec tasks k hk).2.1, Option.map_eq_none', List.find?_eq_none]
  constructor
  · intro h x hx
    obtain ⟨i, hi, hxi⟩ := List.getElem_of_mem hx
    have hmem : i ∈ scanOrder tasks.length k := hperm.mem_iff.mpr (by simpa using hi)
    have := h i hmem
    simp only [incompleteAt, List.getElem?_eq_getElem hi, hxi] at this
    simpa using this
  · intro h i hi
    have hil : i < tasks.length := scanOrder_lt hi hk
    have := h tasks[i] (List.getElem_mem hil)
    simp [incompleteAt, List.getElem?_eq_getElem hil, this]

theorem findNextTask_some (tasks : List ExerciseTask) (k n : Nat) (hk : k - 1 ≤ tasks.length)
    (h : (findNextTask tasks k).nextTaskNumber = some n) :
    ∃ t, elemAt tasks (some n) = some t ∧ t.completed = false := by
  rw [(findNextTask_spec tasks k hk).2.1] at h
  cases hf : (scanOrder tasks.length k).find? (incompleteAt tasks) with
  | none => simp [hf] at h
  | some i =>
    simp only [hf, Option.map_some', Option.some.injEq] at h
    subst h
    have hp := List.find?_some hf
    unfold incompleteAt at hp
    cases hti : tasks[i]? with
    | none => simp [hti] at hp
    | some t =>
      simp only [hti, Bool.not_eq_true'] at hp
      exact ⟨t, by simpa [elemAt_some] using hti, hp⟩

/-! ## The session invariant -/

theorem length_modifyAt {α : Type} (xs : List α) (n : Option Nat) (f : α → α) :
    (modifyAt xs n f).length = xs.length := by
  unfold modifyAt
  cases jsIndex n <;> simp

theorem getElem?_modifyAt {α : Type} (xs : List α) (n : Nat) (f : α → α) (i : Nat) :
    (modifyAt xs (some (n + 1)) f)[i]? = if n = i then xs[i]?.map f else xs[i]? := by
  simp only [modifyAt, jsIndex]
  rw [List.getElem?_modify]
  split <;> simp

theorem switchTask_session (s : Session) (lesson : Lesson) (cur : Option Nat) (next : Nat)
    (c : Bool) (t : ExerciseTask) (hL : s.lesson = some lesson)
    (ha : Aligned lesson.exerciseTasks)
    (ht : elemAt lesson.exerciseTasks (some next) = some t) (hc : t.completed = false) :
    (switchTask s cur next c).session =
      { s with
        taskItems := modifyAt
          ((if c then modifyAt s.taskItems cur markItemDone else s.taskItems).map unselectItem)
          (some next) selectItem
        currentTaskNumber := some next
        editor := s.editor.map (fun _ => t.initialQuery)
        sqlContext := [] } := by
  unfold switchTask
  simp only [hL, ht, hc, sortTasks_of_aligned ha, Bool.false_eq_true, if_false]

theorem switchTask_inv (s : Session) (lesson : Lesson) (cur : Option Nat) (next : Nat)
    (c : Bool) (t : ExerciseTask) (hL : s.lesson = some lesson)
    (ha : Aligned lesson.exerciseTasks) (hlen : s.taskItems.length = lesson.exerciseTasks.length)
    (ht : elemAt lesson.exerciseTasks (some next) = some t) (hc : t.completed = false) :
    SessionInv (switchTask s cur next c).session := by
  rw [switchTask_session s lesson cur next c t hL ha ht hc]
  obtain ⟨n, hn, hnt⟩ := elemAt_eq_some ht
  have hn : next = n + 1 := by simpa using hn
  subst hn
  obtain ⟨hlt, _⟩ := List.getElem?_eq_some.mp hnt
  have htasks : ∀ (x : List TaskItem) (cn : Option Nat) (e : Option String) (q : SqlContext),
      Session.tasks { s with taskItems := x, currentTaskNumber := cn, editor := e, sqlContext := q }
        = lesson.exerciseTasks := by
    intro x cn e q
    simp [Session.tasks, hL]
  constructor
  · rw [htasks]; exact ha
  · rw [htasks]
    simp only [length_modifyAt, List.length_map]
    split <;> simp [length_modifyAt, hlen]
  · intro i el hi hsel
    simp only at hi ⊢
    rw [getElem?_modifyAt] at hi
    by_cases hni : n = i
    · rw [hni]
    · simp only [hni, if_false, List.getElem?_map] at hi
      cases hx : (if c = true then modifyAt s.taskItems cur markItemDone else s.taskItems)[i]? with
      | none => simp [hx] at hi
      | some x =>
        simp only [hx, Option.map_some', Option.some.injEq] at hi
        rw [← hi] at hsel
        simp [unselectItem] at hsel
  · intro _
    have hlen2 : n < (if c = true then modifyAt s.taskItems cur markItemDone
        else s.taskItems).length := by
      split <;> simp [length_modifyAt, hlen, hlt]
    refine ⟨n, selectItem (unselectItem
      ((if c = true then modifyAt s.taskItems cur markItemDone else s.taskItems)[n])), ?_, rfl⟩
    simp only
    rw [getElem?_modifyAt]
    simp only [if_true, List.getElem?_map, List.getElem?_eq_getElem hlen2, Option.map_some']

theorem clickTask_inv (s : Session) (i : Nat) (h : SessionInv s) :
    SessionInv (clickTask s i).session := by
  unfold clickTask
  cases hi : s.taskItems[i]? with
  | none => simpa using h
  | some el =>
    cases hL : s.lesson with
    | none => simpa using h
    | some lesson =>
      simp only
      have htasks : s.tasks = lesson.exerciseTasks := by simp [Session.tasks, hL]
      cases hti : lesson.exerciseTasks[i]? with
      | none => simpa using h
      | some task =>
        simp only
        by_cases hc : task.completed = true
        · simpa [hc] using h
        · simp only [hc, Bool.false_eq_true, if_false]
          have hal : Aligned lesson.exerciseTasks := htasks ▸ h.aligned
          have hord := hal i task hti
          refine switchTask_inv s lesson _ _ false task hL hal (htasks ▸ h.items_length) ?_
            (by simpa using hc)
          rw [hord, elemAt_some]
          exact hti

theorem markTaskComplete_eq (s : Session) (lesson : Lesson) (k : Nat) (el : TaskItem)
    (t : ExerciseTask) (hL : s.lesson = some lesson) (hi : elemAt s.taskItems (some k) = some el)
    (ht : elemAt lesson.exerciseTasks (some k) = some t) :
    markTaskComplete s k =
      ⟨{ s with
          taskItems := modifyAt s.taskItems (some k) completeItem
          lesson := some { lesson with
            exerciseTasks := modifyAt lesson.exerciseTasks (some k) completeTask } },
        [Effect.updateLessonMenu], false⟩ := by
  unfold markTaskComplete
  simp only [hi, hL, ht]

theorem submitSQL_inv (s : Session) (result : EvalResponse) (h : SessionInv s) :
    SessionInv (submitSQL s result).session := by
  unfold submitSQL
  cases hcur : s.currentTaskNumber with
  | none => simpa using h
  | some k =>
    cases hL : s.lesson with
    | none => simpa using h
    | some lesson =>
      simp only
      have htasks : s.tasks = lesson.exerciseTasks := by simp [Session.tasks, hL]
      cases hti : elemAt lesson.exerciseTasks (some k) with
      | none => simpa using h
      | some currentTask =>
        simp only
        by_cases hc : currentTask.completed = true
        · simpa [hc] using h
        · simp only [hc, Bool.false_eq_true, if_false]
          cases hed : s.editor with
          | none => simpa using h
          | some sql =>
            simp only
            by_cases hm : result.resultsMatch.truthy = true
            · simp only [hm, Bool.not_true, Bool.false_eq_true, if_false]
              obtain ⟨j, hkj, hj⟩ := elemAt_eq_some hti
              have hkj : k = j + 1 := by simpa using hkj
              subst hkj
              obtain ⟨hlt, _⟩ := List.getElem?_eq_some.mp hj
              have hal : Aligned lesson.exerciseTasks := htasks ▸ h.aligned
              have hlen : s.taskItems.length = lesson.exerciseTasks.length :=
                htasks ▸ h.items_length
              have hjl : j < s.taskItems.length := by omega
              have hitem : elemAt s.taskItems (some (j + 1)) = some s.taskItems[j] := by
                rw [elemAt_some]; exact List.getElem?_eq_getElem hjl
              rw [markTaskComplete_eq s lesson (j + 1) _ currentTask hL hitem hti]
              simp only
              have hle : j + 1 - 1 ≤ (modifyAt lesson.exerciseTasks (some (j + 1)) completeTask).length := by
                rw [length_modifyAt]; omega
              have hthrew := (findNextTask_spec _ (j + 1) hle).1
              simp only [hthrew, Bool.false_eq_true, if_false]
              cases hnext : (findNextTask (modifyAt lesson.exerciseTasks (some (j + 1)) completeTask)
                  (j + 1)).nextTaskNumber with
              | none =>
                simp only
                have hall := (findNextTask_none_iff _ (j + 1) hle).mp hnext
                constructor
                · simp only [Session.tasks]
                  exact aligned_modify hal _
                · simp [Session.tasks, length_modifyAt, hlen]
                · intro i el hi hsel
                  simp only at hi ⊢
                  rw [getElem?_modifyAt] at hi
                  by_cases hji : j = i
                  · simp only [hji, if_true] at hi
                    cases hx : s.taskItems[i]? with
                    | none => simp [hx] at hi
                    | some x =>
                      simp only [hx, Option.map_some', Option.some.injEq] at hi
                      rw [← hi] at hsel
                      simp [completeItem] at hsel
                  · simp only [hji, if_false] at hi
                    have := h.selected_cursor i el hi hsel
                    rw [hcur] at this
                    simp only [Option.some.injEq, Nat.add_right_cancel_iff] at this
                    exact absurd this hji
                · intro hex
                  exfalso
                  obtain ⟨x, hx, hxc⟩ := hex
                  simp only [Session.tasks] at hx
                  have := hall x hx
                  rw [this] at hxc
                  exact Bool.noConfusion hxc
              | some n =>
                simp only
                obtain ⟨t2, ht2, hc2⟩ := findNextTask_some _ (j + 1) n hle hnext
                exact switchTask_inv _ _ _ _ true t2 rfl
                  (show Aligned (modifyAt lesson.exerciseTasks (some (j + 1)) completeTask) from
                    aligned_modify hal _)
                  (by simp [length_modifyAt, hlen]) ht2 hc2
            · simpa [hm] using h

/-! ### The loop of `renderTaskList` -/

theorem renderTaskStep_completed (acc : RenderAcc) (task : ExerciseTask)
    (hc : task.completed = true) :
    renderTaskStep acc task =
      { acc with session := { acc.session with
          taskItems := acc.session.taskItems ++ [⟨false, true, taskItemText task, 1⟩] } } := by
  unfold renderTaskStep
  simp only [hc, if_true]

theorem renderTaskStep_first (acc : RenderAcc) (task : ExerciseTask)
    (hc : ¬ task.completed = true) (hf : ¬ acc.firstTaskFound = true) :
    renderTaskStep acc task =
      { firstTaskFound := true
        session :=
          { acc.session with
            currentTaskNumber := some task.exerciseOrder
            editor := acc.session.editor.map (fun _ => editorHeader ++ task.initialQuery)
            sqlContext := []
            taskItems := acc.session.taskItems ++ [⟨true, false, taskItemText task, 0⟩] }
        effects := acc.effects ++
          [Effect.updateSqlContextForTask task, Effect.scaleEditor task.largeQuery,
           Effect.changeDataTableVisibility task.previewAllowed, Effect.runLiveQuery true] } := by
  unfold renderTaskStep
  simp only [hc, hf, Bool.not_false, Bool.false_eq_true, if_false, if_true]

theorem renderTaskStep_later (acc : RenderAcc) (task : ExerciseTask)
    (hc : ¬ task.completed = true) (hf : acc.firstTaskFound = true) :
    renderTaskStep acc task =
      { acc with session := { acc.session with
          taskItems := acc.session.taskItems ++ [⟨false, false, taskItemText task, 0⟩] } } := by
  unfold renderTaskStep
  simp only [hc, hf, Bool.not_true, Bool.false_eq_true, if_false]

theorem renderTaskStep_spec (acc : RenderAcc) (task : ExerciseTask) (m : Nat)
    (hlen : acc.session.taskItems.length = m) (hord : task.exerciseOrder = m + 1)
    (hsel : ∀ (i : Nat) (el : TaskItem), acc.session.taskItems[i]? = some el →
      el.taskSelected = true →
      acc.session.currentTaskNumber = some (i + 1) ∧ acc.firstTaskFound = true)
    (hex : acc.firstTaskFound = true →
      ∃ (i : Nat) (el : TaskItem), acc.session.taskItems[i]? = some el ∧ el.taskSelected = true) :
    (renderTaskStep acc task).session.lesson = acc.session.lesson ∧
    (renderTaskStep acc task).session.taskItems.length = m + 1 ∧
    (∀ (i : Nat) (el : TaskItem), (renderTaskStep acc task).session.taskItems[i]? = some el →
      el.taskSelected = true →
      (renderTaskStep acc task).session.currentTaskNumber = some (i + 1) ∧
        (renderTaskStep acc task).firstTaskFound = true) ∧
    ((renderTaskStep acc task).firstTaskFound = true →
      ∃ (i : Nat) (el : TaskItem), (renderTaskStep acc task).session.taskItems[i]? = some el ∧
        el.taskSelected = true) ∧
    ((renderTaskStep acc task).firstTaskFound = false →
      acc.firstTaskFound = false ∧ task.completed = true) := by
  have happ : ∀ (x : TaskItem) (i : Nat) (el : TaskItem),
      (acc.session.taskItems ++ [x])[i]? = some el →
      (i < m ∧ acc.session.taskItems[i]? = some el) ∨ (i = m ∧ el = x) := by
    intro x i el hi
    by_cases him : i < m
    · left
      rw [List.getElem?_append_left (by omega)] at hi
      exact ⟨him, hi⟩
    · right
      rw [List.getElem?_append_right (by omega)] at hi
      have : i - acc.session.taskItems.length = 0 := by
        by_contra hne
        rw [List.getElem?_eq_none (by simp; omega)] at hi
        exact Option.noConfusion hi
      rw [this] at hi
      simp only [List.getElem?_cons_zero, Option.some.injEq] at hi
      exact ⟨by omega, hi.symm⟩
  have hkeep : ∀ (x : TaskItem) (i : Nat) (el : TaskItem),
      acc.session.taskItems[i]? = some el → (acc.session.taskItems ++ [x])[i]? = some el := by
    intro x i el hi
    obtain ⟨hl, _⟩ := List.getElem?_eq_some.mp hi
    rw [List.getElem?_append_left hl]
    exact hi
  by_cases hc : task.completed = true
  · rw [renderTaskStep_completed acc task hc]
    refine ⟨rfl, by simp [hlen], ?_, ?_, fun hf => ⟨hf, hc⟩⟩
    · intro i el hi hs
      rcases happ _ i el hi with ⟨_, h1⟩ | ⟨_, h2⟩
      · exact hsel i el h1 hs
      · rw [h2] at hs; exact Bool.noConfusion hs
    · intro hf
      obtain ⟨i, el, h1, h2⟩ := hex hf
      exact ⟨i, el, hkeep _ i el h1, h2⟩
  · by_cases hf : acc.firstTaskFound = true
    · rw [renderTaskStep_later acc task hc hf]
      refine ⟨rfl, by simp [hlen], ?_, ?_, fun hf2 => ?_⟩
      · intro i el hi hs
        rcases happ _ i el hi with ⟨_, h1⟩ | ⟨_, h2⟩
        · exact hsel i el h1 hs
        · rw [h2] at hs; exact Bool.noConfusion hs
      · intro _
        obtain ⟨i, el, h1, h2⟩ := hex hf
        exact ⟨i, el, hkeep _ i el h1, h2⟩
      · exact absurd hf (by simpa using hf2)
    · rw [renderTaskStep_first acc task hc hf]
      refine ⟨rfl, by simp [hlen], ?_, ?_, fun hf2 => Bool.noConfusion hf2⟩
      · intro i el hi hs
        rcases happ _ i el hi with ⟨_, h1⟩ | ⟨h2, _⟩
        · exact absurd (hsel i el h1 hs).2 hf
        · rw [h2, hord]
          exact ⟨rfl, rfl⟩
      · intro _
        refine ⟨m, ⟨true, false, taskItemText task, 0⟩, ?_, rfl⟩
        simp only
        rw [List.getElem?_append_right (by omega)]
        simp [hlen]

theorem renderFold_spec (tasks : List ExerciseTask) :
    ∀ (acc : RenderAcc) (m : Nat), acc.session.taskItems.length = m →
    (∀ i t, tasks[i]? = some t → t.exerciseOrder = m + i + 1) →
    (∀ (i : Nat) (el : TaskItem), acc.session.taskItems[i]? = some el →
      el.taskSelected = true →
      acc.session.currentTaskNumber = some (i + 1) ∧ acc.firstTaskFound = true) →
    (acc.firstTaskFound = true →
      ∃ (i : Nat) (el : TaskItem), acc.session.taskItems[i]? = some el ∧ el.taskSelected = true) →
    (tasks.foldl renderTaskStep acc).session.lesson = acc.session.lesson ∧
    (tasks.foldl renderTaskStep acc).session.taskItems.length = m + tasks.length ∧
    (∀ (i : Nat) (el : TaskItem), (tasks.foldl renderTaskStep acc).session.taskItems[i]? = some el →
      el.taskSelected = true →
      (tasks.foldl renderTaskStep acc).session.currentTaskNumber = some (i + 1)) ∧
    ((tasks.foldl renderTaskStep acc).firstTaskFound = true →
      ∃ (i : Nat) (el : TaskItem),
        (tasks.foldl renderTaskStep acc).session.taskItems[i]? = some el ∧ el.taskSelected = true) ∧
    ((tasks.foldl renderTaskStep acc).firstTaskFound = false →
      acc.firstTaskFound = false ∧ ∀ t ∈ tasks, t.completed = true) := by
  induction tasks with
  | nil =>
    intro acc m hlen _ hsel hex
    exact ⟨rfl, by simpa using hlen, fun i el hi hs => (hsel i el hi hs).1, hex,
      fun hf => ⟨hf, by simp⟩⟩
  | cons task rest ih =>
    intro acc m hlen hord hsel hex
    have h0 : task.exerciseOrder = m + 1 := by
      have := hord 0 task (by simp)
      simpa using this
    obtain ⟨s1, s2, s3, s4, s5⟩ := renderTaskStep_spec acc task m hlen h0 hsel hex
    have hord2 : ∀ i t, rest[i]? = some t → t.exerciseOrder = (m + 1) + i + 1 := by
      intro i t hi
      have := hord (i + 1) t (by simpa using hi)
      omega
    obtain ⟨r1, r2, r3, r4, r5⟩ := ih (renderTaskStep acc task) (m + 1) s2 hord2 s3 s4
    simp only [List.foldl_cons]
    refine ⟨r1.trans s1, by rw [r2]; simp; omega, r3, r4, ?_⟩
    intro hf
    obtain ⟨h1, h2⟩ := r5 hf
    obtain ⟨h3, h4⟩ := s5 h1
    refine ⟨h3, ?_⟩
    intro t ht
    rcases List.mem_cons.mp ht with rfl | hmem
    · exact h4
    · exact h2 t hmem

theorem loadLesson_inv (lesson : Lesson) (editor : Option String) (hd : DenseOrder lesson) :
    SessionInv (loadLesson lesson editor) := by
  have hal := aligned_sortTasks hd
  have hspec := renderFold_spec (sortTasks lesson.exerciseTasks)
    ⟨false, ⟨some { lesson with exerciseTasks := sortTasks lesson.exerciseTasks }, none, editor,
      [], [], closedPopup⟩, []⟩ 0 rfl
    (by intro i t hi; have := hal i t hi; omega)
    (by intro i el hi; simp at hi)
    (by intro hf; exact Bool.noConfusion hf)
  obtain ⟨r1, r2, r3, r4, r5⟩ := hspec
  simp only [Nat.zero_add] at r2
  have key : ∀ (s : Session),
      s.lesson = some { lesson with exerciseTasks := sortTasks lesson.exerciseTasks } →
      s.taskItems.length = (sortTasks lesson.exerciseTasks).length →
      (∀ (i : Nat) (el : TaskItem), s.taskItems[i]? = some el → el.taskSelected = true →
        s.currentTaskNumber = some (i + 1)) →
      ((∃ t ∈ sortTasks lesson.exerciseTasks, t.completed = false) →
        ∃ (i : Nat) (el : TaskItem), s.taskItems[i]? = some el ∧ el.taskSelected = true) →
      SessionInv s := by
    intro s h1 h2 h3 h4
    have ht : s.tasks = sortTasks lesson.exerciseTasks := by simp [Session.tasks, h1]
    exact ⟨ht ▸ hal, ht ▸ h2, h3, ht ▸ h4⟩
  have hex : (∃ t ∈ sortTasks lesson.exerciseTasks, t.completed = false) →
      (List.foldl renderTaskStep
        ⟨false, ⟨some { lesson with exerciseTasks := sortTasks lesson.exerciseTasks }, none, editor,
          [], [], closedPopup⟩, []⟩ (sortTasks lesson.exerciseTasks)).firstTaskFound = true := by
    intro ⟨t, ht, htc⟩
    by_contra hne
    have := (r5 (by simpa using hne)).2 t ht
    rw [this] at htc
    exact Bool.noConfusion htc
  unfold loadLesson renderTaskList
  simp only
  split
  · split
    · apply key
      · exact r1
      · exact r2
      · exact r3
      · intro h; exact r4 (hex h)
    · apply key
      · exact r1
      · exact r2
      · exact r3
      · intro h; exact r4 (hex h)
  · apply key
    · exact r1
    · exact r2
    · exact r3
    · intro h; exact r4 (hex h)

theorem runEvents_inv (lesson : Lesson) (editor : Option String) (events : List Event)
    (hd : DenseOrder lesson) : SessionInv (runEvents lesson editor events) := by
  unfold runEvents
  have h0 := loadLesson_inv lesson editor hd
  generalize loadLesson lesson editor = s at h0
  induction events generalizing s with
  | nil => exact h0
  | cons e rest ih =>
    simp only [List.foldl_cons]
    apply ih
    cases e with
    | click i => exact clickTask_inv s i h0
    | submit r => exact submitSQL_inv s r h0

theorem countP_le_one {α : Type} (p : α → Bool) :
    ∀ (l : List α), (∀ (i j : Nat) (a b : α), l[i]? = some a → l[j]? = some b →
      p a = true → p b = true → i = j) → l.countP p ≤ 1 := by
  intro l
  induction l with
  | nil => intro _; simp
  | cons x xs ih =>
    intro h
    have hxs : xs.countP p ≤ 1 := by
      apply ih
      intro i j a b hi hj ha hb
      have := h (i + 1) (j + 1) a b (by simpa using hi) (by simpa using hj) ha hb
      omega
    by_cases hx : p x = true
    · have hzero : xs.countP p = 0 := by
        rw [List.countP_eq_zero]
        intro b hb hpb
        obtain ⟨j, hj, hjb⟩ := List.getElem_of_mem hb
        have := h 0 (j + 1) x b (by simp) (by simp [List.getElem?_eq_getElem hj, hjb]) hx hpb
        omega
      rw [List.countP_cons_of_pos _ _ hx, hzero]
    · rw [List.countP_cons_of_neg _ _ hx]
      exact hxs

/-! ## The notification for a response that does not match -/

theorem incorrectMessage_str (e : String) (he : e ≠ "") :
    incorrectMessage (JsVal.str e) = "Incorrect Answer: " ++ e := by
  simp [incorrectMessage, JsVal.looseNeEmptyString, JsVal.toJsString, he]

theorem incorrectMessage_ne_empty (v : JsVal) : incorrectMessage v ≠ "" := by
  intro hv
  have hlen := congrArg String.length hv
  unfold incorrectMessage at hlen
  split at hlen
  · rw [String.length_append] at hlen
    have : ("Incorrect Answer: " : String).length = 18 := by decide
    simp only [this, String.length] at hlen
    simp at hlen
  · have : ("Incorrect Answer" : String).length = 16 := by decide
    simp only [this, String.length] at hlen
    simp at hlen

/-! ## The task array after an operation -/

theorem sorted_modifyAt {tasks : List ExerciseTask} (h : List.Sorted orderLE tasks)
    (n : Option Nat) : List.Sorted orderLE (modifyAt tasks n completeTask) := by
  unfold modifyAt
  cases jsIndex n with
  | none => exact h
  | some j =>
    simp only
    unfold List.Sorted at h ⊢
    rw [List.pairwise_iff_getElem] at h ⊢
    intro a b ha hb hab
    have ha2 : a < tasks.length := by simpa using ha
    have hb2 : b < tasks.length := by simpa using hb
    have := h a b ha2 hb2 hab
    simp only [List.getElem_modify]
    unfold orderLE at this ⊢
    split <;> split <;> simpa [completeTask] using this

theorem switchTask_tasks (s : Session) (cur : Option Nat) (next : Nat) (c : Bool)
    (hs : List.Sorted orderLE s.tasks) : (switchTask s cur next c).session.tasks = s.tasks := by
  unfold switchTask
  cases hL : s.lesson with
  | none => simp [Session.tasks, hL]
  | some lesson =>
    have hs2 : List.Sorted orderLE lesson.exerciseTasks := by
      simpa [Session.tasks, hL] using hs
    have htasks : s.tasks = lesson.exerciseTasks := by simp [Session.tasks, hL]
    rw [htasks]
    simp only
    cases elemAt lesson.exerciseTasks (some next) with
    | none => simp [Session.tasks, hL]
    | some target =>
      simp only
      split
      · simp [Session.tasks, hL]
      · rw [sortTasks_of_sorted hs2]
        cases elemAt lesson.exerciseTasks (some next) with
        | none => simp [Session.tasks]
        | some newTask => simp [Session.tasks]

theorem markTaskComplete_none (s : Session) (k : Nat) (h : elemAt s.taskItems (some k) = none) :
    markTaskComplete s k = ⟨s, [], false⟩ := by
  unfold markTaskComplete
  simp only [h]

theorem submitSQL_tasks (s : Session) (result : EvalResponse)
    (hs : List.Sorted orderLE s.tasks) :
    (submitSQL s result).session.tasks = s.tasks ∨
    (result.resultsMatch.truthy = true ∧ ∃ k, s.currentTaskNumber = some k ∧
      taskIncomplete s.tasks k = true ∧
      (submitSQL s result).session.tasks = modifyAt s.tasks (some k) completeTask) := by
  cases hcur : s.currentTaskNumber with
  | none => left; unfold submitSQL; simp only [hcur]
  | some k =>
    cases hL : s.lesson with
    | none => left; unfold submitSQL; simp only [hcur, hL]
    | some lesson =>
      have htasks : s.tasks = lesson.exerciseTasks := by simp [Session.tasks, hL]
      cases hti : elemAt lesson.exerciseTasks (some k) with
      | none => left; unfold submitSQL; simp only [hcur, hL, hti]
      | some currentTask =>
        by_cases hc : currentTask.completed = true
        · left; unfold submitSQL; simp only [hcur, hL, hti, hc, if_true]
        · cases hed : s.editor with
          | none =>
            left; unfold submitSQL
            simp only [hcur, hL, hti, hc, hed, Bool.false_eq_true, if_false]
          | some sql =>
            by_cases hm : result.resultsMatch.truthy = true
            · cases hitem : elemAt s.taskItems (some k) with
              | none =>
                left
                unfold submitSQL
                simp only [hcur, hL, hti, hc, hed, hm, Bool.not_true, Bool.false_eq_true, if_false,
                  markTaskComplete_none s k hitem]
                split
                · rfl
                · split
                  · rfl
                  · exact switchTask_tasks s _ _ _ hs
              | some el =>
                right
                refine ⟨hm, k, rfl, ?_, ?_⟩
                · rw [htasks]
                  simp [taskIncomplete, hti, hc]
                · have hs3 := sorted_modifyAt (htasks ▸ hs) (some k)
                  rw [htasks]
                  unfold submitSQL
                  simp only [hcur, hL, hti, hc, hed, hm, Bool.not_true, Bool.false_eq_true,
                    if_false, markTaskComplete_eq s lesson k el currentTask hL hitem hti]
                  split
                  · simp [Session.tasks]
                  · split
                    · simp [Session.tasks]
                    · rw [switchTask_tasks _ _ _ _ (by simpa only [Session.tasks] using hs3)]
                      simp [Session.tasks]
            · left; unfold submitSQL
              simp only [hcur, hL, hti, hc, hed, hm, Bool.not_false, Bool.false_eq_true, if_false,
                if_true]

theorem op_tasks (s : Session) (op : Op) (hs : List.Sorted orderLE s.tasks) :
    (op.apply s).session.tasks = s.tasks ∨
    ∃ r k, op = Op.submitSQL r ∧ r.resultsMatch.truthy = true ∧ s.currentTaskNumber = some k ∧
      taskIncomplete s.tasks k = true ∧
      (op.apply s).session.tasks = modifyAt s.tasks (some k) completeTask := by
  cases op with
  | click i =>
    left
    simp only [Op.apply]
    unfold clickTask
    split
    · split
      · split
        · rfl
        · exact switchTask_tasks s _ _ _ hs
      · rfl
    · rfl
  | switchTask cur next c => exact Or.inl (switchTask_tasks s cur next c hs)
  | submitSQL r =>
    rcases submitSQL_tasks s r hs with h | ⟨hm, k, hk, hinc, h⟩
    · exact Or.inl h
    · exact Or.inr ⟨r, k, rfl, hm, hk, hinc, h⟩
  | runLiveQuery il r0 r =>
    left
    simp only [Op.apply]
    unfold runLiveQuery
    repeat' split
    all_goals first | rfl | (simp only []; split_ifs <;> rfl)
  | revealTaskAnswer r =>
    left
    simp only [Op.apply]
    unfold revealTaskAnswer
    repeat' split
    all_goals rfl
  | resetMonaco =>
    left
    simp only [Op.apply]
    unfold resetMonaco
    repeat' split
    all_goals rfl

theorem switchTask_tasks_perm (s : Session) (cur : Option Nat) (next : Nat) (c : Bool) :
    List.Perm (switchTask s cur next c).session.tasks s.tasks := by
  unfold switchTask
  cases hL : s.lesson with
  | none => simp [Session.tasks, hL]
  | some lesson =>
    have htasks : s.tasks = lesson.exerciseTasks := by simp [Session.tasks, hL]
    rw [htasks]
    simp only
    cases elemAt lesson.exerciseTasks (some next) with
    | none => simp [Session.tasks, hL]
    | some target =>
      simp only
      split
      · simp [Session.tasks, hL]
      · cases elemAt (sortTasks lesson.exerciseTasks) (some next) with
        | none => exact List.perm_insertionSort _ _
        | some newTask => exact List.perm_insertionSort _ _

theorem submitSQL_tasks_perm (s : Session) (result : EvalResponse) :
    List.Perm (submitSQL s result).session.tasks s.tasks ∨
    (result.resultsMatch.truthy = true ∧ ∃ k, s.currentTaskNumber = some k ∧
      taskIncomplete s.tasks k = true ∧
      List.Perm (submitSQL s result).session.tasks (modifyAt s.tasks (some k) completeTask)) := by
  have hrefl : ∀ o : Outcome, o = ⟨s, [], false⟩ ∨ o = ⟨s, [], true⟩ →
      List.Perm o.session.tasks s.tasks := by
    intro o ho
    rcases ho with rfl | rfl <;> exact List.Perm.refl _
  cases hcur : s.currentTaskNumber with
  | none => left; apply hrefl; left; unfold submitSQL; simp only [hcur]
  | some k =>
    cases hL : s.lesson with
    | none => left; apply hrefl; right; unfold submitSQL; simp only [hcur, hL]
    | some lesson =>
      have htasks : s.tasks = lesson.exerciseTasks := by simp [Session.tasks, hL]
      cases hti : elemAt lesson.exerciseTasks (some k) with
      | none => left; apply hrefl; right; unfold submitSQL; simp only [hcur, hL, hti]
      | some currentTask =>
        by_cases hc : currentTask.completed = true
        · left; apply hrefl; left; unfold submitSQL; simp only [hcur, hL, hti, hc, if_true]
        · cases hed : s.editor with
          | none =>
            left; apply hrefl; right; unfold submitSQL
            simp only [hcur, hL, hti, hc, hed, Bool.false_eq_true, if_false]
          | some sql =>
            by_cases hm : result.resultsMatch.truthy = true
            · cases hitem : elemAt s.taskItems (some k) with
              | none =>
                left
                unfold submitSQL
                simp only [hcur, hL, hti, hc, hed, hm, Bool.not_true, Bool.false_eq_true, if_false,
                  markTaskComplete_none s k hitem]
                split
                · exact List.Perm.refl _
                · split
                  · exact List.Perm.refl _
                  · exact switchTask_tasks_perm s _ _ _
              | some el =>
                right
                refine ⟨hm, k, rfl, ?_, ?_⟩
                · rw [htasks]
                  simp [taskIncomplete, hti, hc]
                · rw [htasks]
                  unfold submitSQL
                  simp only [hcur, hL, hti, hc, hed, hm, Bool.not_true, Bool.false_eq_true,
                    if_false, markTaskComplete_eq s lesson k el currentTask hL hitem hti]
                  split
                  · simp [Session.tasks]
                  · split
                    · simp [Session.tasks]
                    · refine (switchTask_tasks_perm _ _ _ _).trans ?_
                      simp [Session.tasks]
            · left; unfold submitSQL
              simp only [hcur, hL, hti, hc, hed, hm, Bool.not_false, Bool.false_eq_true, if_false,
                if_true]
              exact List.Perm.refl _

theorem op_tasks_perm (s : Session) (op : Op) :
    List.Perm (op.apply s).session.tasks s.tasks ∨
    ∃ r k, op = Op.submitSQL r ∧ r.resultsMatch.truthy = true ∧ s.currentTaskNumber = some k ∧
      taskIncomplete s.tasks k = true ∧
      List.Perm (op.apply s).session.tasks (modifyAt s.tasks (some k) completeTask) := by
  cases op with
  | click i =>
    left
    simp only [Op.apply]
    unfold clickTask
    split
    · split
      · split
        · exact List.Perm.refl _
        · exact switchTask_tasks_perm s _ _ _
      · exact List.Perm.refl _
    · exact List.Perm.refl _
  | switchTask cur next c => exact Or.inl (switchTask_tasks_perm s cur next c)
  | submitSQL r =>
    rcases submitSQL_tasks_perm s r with h | ⟨hm, k, hk, hinc, h⟩
    · exact Or.inl h
    · exact Or.inr ⟨r, k, rfl, hm, hk, hinc, h⟩
  | runLiveQuery il r0 r =>
    left
    simp only [Op.apply]
    unfold runLiveQuery
    repeat' split
    all_goals first | exact List.Perm.refl _ | (simp only []; split_ifs <;> exact List.Perm.refl _)
  | revealTaskAnswer r =>
    left
    simp only [Op.apply]
    unfold revealTaskAnswer
    repeat' split
    all_goals exact List.Perm.refl _
  | resetMonaco =>
    left
    simp only [Op.apply]
    unfold resetMonaco
    repeat' split
    all_goals exact List.Perm.refl _

theorem submitSQL_guard (s : Session) (result : EvalResponse)
    (h : s.currentTaskNumber = none ∨
      ∃ (lesson : Lesson) (t : ExerciseTask), s.lesson = some lesson ∧
        elemAt lesson.exerciseTasks s.currentTaskNumber = some t ∧ t.completed = true) :
    submitSQL s result = ⟨s, [], false⟩ := by
  unfold submitSQL
  rcases h with h | ⟨lesson, t, hL, ht, hc⟩
  · simp only [h]
  · cases hcur : s.currentTaskNumber with
    | none => rfl
    | some k =>
      rw [hcur] at ht
      simp only [hL, ht, hc, if_true]

theorem flags_modifyAt (tasks : List ExerciseTask) (j i : Nat) :
    ((modifyAt tasks (some (j + 1)) completeTask).map (fun t => t.completed))[i]? =
      if j = i then (tasks[i]?).map (fun _ => true)
      else (tasks.map (fun t => t.completed))[i]? := by
  rw [List.getElem?_map, getElem?_modifyAt]
  split
  · cases tasks[i]? <;> simp [completeTask]
  · simp

theorem submitSQL_flag_set (s : Session) (result : EvalResponse) (i : Nat) (b : Bool)
    (sql : String) (hs : List.Sorted orderLE s.tasks)
    (hm : result.resultsMatch.truthy = true) (hcur : s.currentTaskNumber = some (i + 1))
    (hb : (completedFlags s)[i]? = some b) (hi : i < s.taskItems.length)
    (hed : s.editor = some sql) :
    (completedFlags (submitSQL s result).session)[i]? = some true := by
  cases hL : s.lesson with
  | none => simp [completedFlags, Session.tasks, hL] at hb
  | some lesson =>
    have htasks : s.tasks = lesson.exerciseTasks := by simp [Session.tasks, hL]
    unfold completedFlags at hb ⊢
    rw [List.getElem?_map] at hb
    cases hti : s.tasks[i]? with
    | none => simp [hti] at hb
    | some t =>
      simp only [hti, Option.map_some', Option.some.injEq] at hb
      by_cases hc : t.completed = true
      · rw [submitSQL_guard s result (Or.inr ⟨lesson, t, hL, by
          rw [hcur, elemAt_some, ← htasks]; exact hti, hc⟩)]
        simp [hti, hc]
      · rcases submitSQL_tasks s result hs with h | ⟨_, k, hk, _, h⟩
        · exfalso
          have hitem : elemAt s.taskItems (some (i + 1)) = some s.taskItems[i] := by
            rw [elemAt_some]; exact List.getElem?_eq_getElem hi
          have hti2 : elemAt lesson.exerciseTasks (some (i + 1)) = some t := by
            rw [elemAt_some, ← htasks]; exact hti
          have hle : i + 1 - 1 ≤ (modifyAt lesson.exerciseTasks (some (i + 1)) completeTask).length := by
            rw [length_modifyAt, ← htasks]
            have := (List.getElem?_eq_some.mp hti).1
            omega
          have hthrew := (findNextTask_spec _ (i + 1) hle).1
          have hsorted := sorted_modifyAt (htasks ▸ hs) (some (i + 1))
          have : (submitSQL s result).session.tasks =
              modifyAt lesson.exerciseTasks (some (i + 1)) completeTask := by
            unfold submitSQL
            simp only [hcur, hL, hti2, hc, hed, hm, Bool.not_true, Bool.false_eq_true, if_false,
              markTaskComplete_eq s lesson (i + 1) _ t hL hitem hti2, hthrew]
            split
            · simp [Session.tasks]
            · rw [switchTask_tasks _ _ _ _ (by simpa only [Session.tasks] using hsorted)]
              simp [Session.tasks]
          rw [this, htasks] at h
          have h2 : (modifyAt lesson.exerciseTasks (some (i + 1)) completeTask)[i]? =
              lesson.exerciseTasks[i]? := by rw [h]
          rw [getElem?_modifyAt, if_pos rfl, ← htasks, hti] at h2
          have h3 := congrArg ExerciseTask.completed (Option.some.inj h2)
          exact hc h3.symm
        · rw [hcur] at hk
          have hk : i + 1 = k := by simpa using hk
          subst hk
          rw [h, flags_modifyAt]
          simp [hti]

/-! ## Character classes -/

theorem isUpper_iff (c : Char) : c.isUpper = true ↔ 65 ≤ c.toNat ∧ c.toNat ≤ 90 := by
  unfold Char.isUpper
  rw [Bool.and_eq_true, decide_eq_true_eq, decide_eq_true_eq]
  exact Iff.rfl

theorem isLower_iff (c : Char) : c.isLower = true ↔ 97 ≤ c.toNat ∧ c.toNat ≤ 122 := by
  unfold Char.isLower
  rw [Bool.and_eq_true, decide_eq_true_eq, decide_eq_true_eq]
  exact Iff.rfl

theorem isDigit_iff (c : Char) : c.isDigit = true ↔ 48 ≤ c.toNat ∧ c.toNat ≤ 57 := by
  unfold Char.isDigit
  rw [Bool.and_eq_true, decide_eq_true_eq, decide_eq_true_eq]
  exact Iff.rfl

theorem eq_underscore_iff (c : Char) : c = '_' ↔ c.toNat = 95 := by
  constructor
  · intro h; rw [h]; rfl
  · intro h
    apply Char.ext
    apply UInt32.ext
    exact h

theorem isWordChar_iff (c : Char) :
    isWordChar c = true ↔
      (65 ≤ c.toNat ∧ c.toNat ≤ 90) ∨ (97 ≤ c.toNat ∧ c.toNat ≤ 122) ∨
      (48 ≤ c.toNat ∧ c.toNat ≤ 57) ∨ c.toNat = 95 := by
  unfold isWordChar Char.isAlphanum Char.isAlpha
  simp only [Bool.or_eq_true, isUpper_iff, isLower_iff, isDigit_iff, beq_iff_eq,
    eq_underscore_iff]
  tauto

theorem isWordChar_of_toUpper (x : Char) (h : x.toUpper.isUpper = true) : isWordChar x = true := by
  rw [isWordChar_iff]
  by_cases hl : 97 ≤ x.toNat ∧ x.toNat ≤ 122
  · exact Or.inr (Or.inl hl)
  · have : x.toUpper = x := by
      unfold Char.toUpper
      simp only [ge_iff_le]
      rw [if_neg hl]
    rw [this, isUpper_iff] at h
    exact Or.inl h

theorem not_isWordChar_of_whitespace (c : Char) (h : isJsWhitespace c = true) :
    isWordChar c = false := by
  cases hw : isWordChar c with
  | false => rfl
  | true =>
    exfalso
    rw [isWordChar_iff] at hw
    unfold isJsWhitespace at h
    simp only [Bool.or_eq_true, beq_iff_eq, Bool.and_eq_true, decide_eq_true_eq] at h
    omega

/-! ## Runs of the matcher -/

theorem run_seq (a b : Re) (st : MatchState) :
    (Re.seq a b).run st = (a.run st).flatMap (fun t => b.run t) := by
  rw [Re.run]

theorem run_alt (a b : Re) (st : MatchState) : (Re.alt a b).run st = a.run st ++ b.run st := by
  rw [Re.run]

theorem run_group (a : Re) (st : MatchState) :
    (Re.group a).run st =
      (a.run st).map (fun t =>
        { t with capture := some ((t.before.take (t.before.length - st.before.length)).reverse) }) := by
  rw [Re.run]

theorem run_ciWord : ∀ (w kw b rest : List Char) (cap : Option (List Char)),
    kw.map Char.toUpper = w →
    (ciWord w).run ⟨b, kw ++ rest, cap⟩ = [⟨kw.reverse ++ b, rest, cap⟩] := by
  intro w
  induction w with
  | nil =>
    intro kw b rest cap h
    have : kw = [] := by simpa using h
    subst this
    rfl
  | cons c w ih =>
    intro kw b rest cap h
    cases kw with
    | nil => simp at h
    | cons x kw =>
      simp only [List.map_cons, List.cons.injEq] at h
      obtain ⟨hx, hkw⟩ := h
      have := ih kw (x :: b) rest cap hkw
      simp only [ciWord, Re.run, List.cons_append, hx, beq_self_eq_true, if_true,
        List.flatMap_cons, List.flatMap_nil, List.append_nil, this, List.reverse_cons,
        List.append_assoc, List.singleton_append, List.nil_append]

theorem run_keywordRe (keyword : String) (kw b rest : List Char) (cap : Option (List Char))
    (hkw : kw.map Char.toUpper = keyword.toList) (hne : kw ≠ [])
    (hup : ∀ c ∈ keyword.toList, c.isUpper = true)
    (hb : ∀ c, b.head? = some c → isWordChar c = false)
    (hrest : ∀ c, rest.head? = some c → isWordChar c = false) :
    (keywordRe keyword).run ⟨b, kw ++ rest, cap⟩ = [⟨kw.reverse ++ b, rest, cap⟩] := by
  have hword : ∀ x ∈ kw, isWordChar x = true := by
    intro x hx
    apply isWordChar_of_toUpper
    apply hup
    rw [← hkw]
    exact List.mem_map_of_mem _ hx
  have hb1 : atWordBoundary ⟨b, kw ++ rest, cap⟩ = true := by
    cases kw with
    | nil => exact absurd rfl hne
    | cons x kw =>
      have hx := hword x (List.mem_cons_self _ _)
      unfold atWordBoundary
      cases b with
      | nil => simp [hx]
      | cons y b => simp [hx, hb y rfl]
  have hb2 : atWordBoundary ⟨kw.reverse ++ b, rest, cap⟩ = true := by
    have hlast : ∃ y tl, kw.reverse ++ b = y :: tl ∧ isWordChar y = true := by
      cases hr : kw.reverse with
      | nil => exact absurd (List.reverse_eq_nil_iff.mp hr) hne
      | cons y tl =>
        refine ⟨y, tl ++ b, rfl, hword y ?_⟩
        have : y ∈ kw.reverse := by rw [hr]; exact List.mem_cons_self _ _
        exact List.mem_reverse.mp this
    obtain ⟨y, tl, hy, hyw⟩ := hlast
    unfold atWordBoundary
    rw [hy]
    cases rest with
    | nil => simp [hyw]
    | cons z rest => simp [hyw, hrest z rfl]
  simp only [keywordRe, Re.run, hb1, if_true, List.flatMap_cons, List.flatMap_nil,
    List.append_nil, run_ciWord keyword.toList kw b rest cap hkw, hb2]

theorem mem_starLoop_cls (p : Char → Bool) : ∀ (ws b : List Char) (cap : Option (List Char))
    (fuel : Nat), (∀ c ∈ ws, p c = true) → ws.length ≤ fuel →
    (⟨ws.reverse ++ b, [], cap⟩ : MatchState) ∈
      starLoop (fun t => (Re.cls p).run t) fuel ⟨b, ws, cap⟩ := by
  intro ws
  induction ws with
  | nil =>
    intro b cap fuel _ _
    cases fuel with
    | zero => simp [starLoop]
    | succ f => simp [starLoop]
  | cons w ws ih =>
    intro b cap fuel hall hlen
    cases fuel with
    | zero => simp at hlen
    | succ f =>
      have hw : p w = true := hall w (List.mem_cons_self _ _)
      have := ih (w :: b) cap f (fun c hc => hall c (List.mem_cons_of_mem _ hc))
        (by simpa using hlen)
      simp only [starLoop, Re.run, hw, if_true, List.length_cons, List.filter_cons,
        Nat.lt_succ_self, decide_True, List.filter_nil, List.flatMap_cons, List.flatMap_nil,
        List.append_nil, List.mem_append, List.mem_singleton]
      left
      simpa using this

theorem execFrom_isSome (re : Re) : ∀ (pre before rest : List Char),
    re.run ⟨pre.reverse ++ before, rest, none⟩ ≠ [] →
    (re.execFrom before (pre ++ rest)).isSome = true := by
  intro pre
  induction pre with
  | nil =>
    intro before rest h
    simp only [List.reverse_nil, List.nil_append] at h ⊢
    cases rest with
    | nil =>
      simp only [Re.execFrom]
      cases hr : re.run ⟨before, [], none⟩ with
      | nil => exact absurd hr h
      | cons m ms => rfl
    | cons c rest =>
      simp only [Re.execFrom]
      cases hr : re.run ⟨before, c :: rest, none⟩ with
      | nil => exact absurd hr h
      | cons m ms => rfl
  | cons p ps ih =>
    intro before rest h
    simp only [List.cons_append, Re.execFrom]
    cases hr : (re.run ⟨before, p :: (ps ++ rest), none⟩).head? with
    | some m => rfl
    | none =>
      simp only
      apply ih
      simpa using h

theorem tableKeyword_test (pre kw ws : List Char)
    (hkw : kw.map Char.toUpper ∈ tableKeywords)
    (hpre : ∀ c, pre.getLast? = some c → isWordChar c = false)
    (hws : ws ≠ []) (hall : ∀ c ∈ ws, isJsWhitespace c = true) :
    tableKeywordRe.test (pre ++ kw ++ ws) = true := by
  unfold Re.test Re.exec
  rw [List.append_assoc]
  apply execFrom_isSome
  simp only [List.append_nil]
  have hb : ∀ c, pre.reverse.head? = some c → isWordChar c = false := by
    intro c hc
    apply hpre
    rw [List.getLast?_eq_head?_reverse]
    exact hc
  obtain ⟨w, ws2, rfl⟩ : ∃ w ws2, ws = w :: ws2 := by
    cases ws with
    | nil => exact absurd rfl hws
    | cons w ws2 => exact ⟨w, ws2, rfl⟩
  have hrest : ∀ c, (w :: ws2).head? = some c → isWordChar c = false := by
    intro c hc
    simp only [List.head?_cons, Option.some.injEq] at hc
    subst hc
    exact not_isWordChar_of_whitespace _ (hall _ (List.mem_cons_self _ _))
  have hne : kw ≠ [] := by
    intro h
    subst h
    revert hkw
    decide
  have hkey : ∀ keyword : String, kw.map Char.toUpper = keyword.toList →
      (∀ c ∈ keyword.toList, c.isUpper = true) →
      (keywordRe keyword).run ⟨pre.reverse, kw ++ w :: ws2, none⟩ =
        [⟨kw.reverse ++ pre.reverse, w :: ws2, none⟩] :=
    fun keyword h1 h2 => run_keywordRe keyword kw pre.reverse (w :: ws2) none h1 hne h2 hb hrest
  have htail : ∀ cap : Option (List Char),
      (Re.seq (Re.seq (Re.cls isJsWhitespace) (Re.star (Re.cls isJsWhitespace))) Re.endOfInput).run
        ⟨kw.reverse ++ pre.reverse, w :: ws2, cap⟩ ≠ [] := by
    intro cap
    have hw := hall w (List.mem_cons_self _ _)
    have hmem := mem_starLoop_cls isJsWhitespace ws2 (w :: (kw.reverse ++ pre.reverse)) cap
      ws2.length (fun c hc => hall c (List.mem_cons_of_mem _ hc)) (Nat.le_refl _)
    intro hnil
    have : (⟨ws2.reverse ++ w :: (kw.reverse ++ pre.reverse), [], cap⟩ : MatchState) ∈
        (Re.seq (Re.seq (Re.cls isJsWhitespace) (Re.star (Re.cls isJsWhitespace)))
          Re.endOfInput).run ⟨kw.reverse ++ pre.reverse, w :: ws2, cap⟩ := by
      simp only [Re.run, hw, if_true, List.flatMap_cons, List.flatMap_nil, List.append_nil,
        List.mem_flatMap]
      exact ⟨_, hmem, by simp⟩
    rw [hnil] at this
    exact List.not_mem_nil _ this
  have hgroup : ∃ m, m ∈ (Re.group (Re.alt (keywordRe "FROM")
      (Re.alt (keywordRe "JOIN") (Re.alt (keywordRe "UPDATE") (keywordRe "INTO"))))).run
        ⟨pre.reverse, kw ++ w :: ws2, none⟩ ∧
      m.before = kw.reverse ++ pre.reverse ∧ m.after = w :: ws2 := by
    unfold tableKeywords at hkw
    simp only [List.mem_cons, List.mem_singleton, List.not_mem_nil, or_false] at hkw
    simp only [run_group, run_alt, List.mem_map, List.mem_append]
    rcases hkw with h | h | h | h
    · exact ⟨_, ⟨_, Or.inl (by rw [hkey "FROM" h (by decide)]; exact List.mem_singleton_self _),
        rfl⟩, rfl, rfl⟩
    · exact ⟨_, ⟨_, Or.inr (Or.inl (by
        rw [hkey "JOIN" h (by decide)]; exact List.mem_singleton_self _)), rfl⟩, rfl, rfl⟩
    · exact ⟨_, ⟨_, Or.inr (Or.inr (Or.inl (by
        rw [hkey "UPDATE" h (by decide)]; exact List.mem_singleton_self _))), rfl⟩, rfl, rfl⟩
    · exact ⟨_, ⟨_, Or.inr (Or.inr (Or.inr (by
        rw [hkey "INTO" h (by decide)]; exact List.mem_singleton_self _))), rfl⟩, rfl, rfl⟩
  obtain ⟨m, hm, hmb, hma⟩ := hgroup
  intro hnil
  have hm2 := htail m.capture
  apply hm2
  have hmeq : m = ⟨kw.reverse ++ pre.reverse, w :: ws2, m.capture⟩ := by
    cases m
    simp only at hmb hma
    simp [hmb, hma]
  unfold tableKeywordRe at hnil
  rw [run_seq] at hnil
  rw [List.flatMap_eq_nil_iff] at hnil
  have := hnil m hm
  rw [hmeq] at this
  exact this

/-! ## The suggestion lists -/

theorem tableSuggestion_injective : Function.Injective tableSuggestion := by
  intro a b h
  exact congrArg Suggestion.label h

theorem columnSuggestion_injective : Function.Injective columnSuggestion := by
  intro a b h
  exact congrArg Suggestion.label h

theorem foldl_concat (ctx : SqlContext) : ∀ (acc : List String),
    ctx.foldl (fun allCols entry => allCols ++ entry.2) acc =
      acc ++ (ctx.map (fun e => e.2)).flatten := by
  induction ctx with
  | nil => intro acc; simp
  | cons e rest ih =>
    intro acc
    simp only [List.foldl_cons, ih, List.map_cons, List.flatten_cons, List.append_assoc]

theorem allColumns_eq (ctx : SqlContext) : allColumns ctx = (ctx.map (fun e => e.2)).flatten := by
  unfold allColumns
  rw [foldl_concat]
  rfl

theorem sum_count_nodup (ctx : SqlContext) (col : String) (h : ∀ e ∈ ctx, e.2.Nodup) :
    (ctx.map (fun e => e.2.count col)).sum = ctx.countP (fun e => decide (col ∈ e.2)) := by
  induction ctx with
  | nil => rfl
  | cons e rest ih =>
    have h1 := h e (List.mem_cons_self _ _)
    have h2 := ih (fun x hx => h x (List.mem_cons_of_mem _ hx))
    simp only [List.map_cons, List.sum_cons, h2, List.countP_cons, List.count_eq_of_nodup h1]
    by_cases hc : col ∈ e.2
    · simp [hc]; omega
    · simp [hc]


/-! ## The debounce timer -/

theorem advanceFuel_idle (c : Clock) (t : Nat) (h : nextDue c.timers t = none) :
    ∀ fuel, advanceFuel fuel c t = { c with now := max c.now t } := by
  intro fuel
  cases fuel with
  | zero => rfl
  | succ f => simp only [advanceFuel, h]

theorem nextDue_none (timers : List Timer) (t : Nat) (h : ∀ tm ∈ timers, t < tm.due) :
    nextDue timers t = none := by
  unfold nextDue
  have : timers.filter (fun tm => decide (tm.due ≤ t)) = [] := by
    rw [List.filter_eq_nil_iff]
    intro tm htm
    have := h tm htm
    simp only [decide_eq_true_eq]
    omega
  rw [this]
  rfl

theorem pending_first (c : Clock) (t : Nat) (text : String) (hnow : c.now ≤ t)
    (hpending : ∀ tm ∈ c.timers, c.debounceTimer = some tm.id ∧ t < tm.due) :
    Pending (changeAt c t text) t text c.runs := by
  unfold changeAt advance
  rw [advanceFuel_idle c t (nextDue_none _ _ (fun tm htm => (hpending tm htm).2))]
  have hclear : (clearTimeout { c with now := max c.now t, editorText := text }
      c.debounceTimer).timers = [] := by
    unfold clearTimeout
    cases hd : c.debounceTimer with
    | none =>
      simp only
      cases hts : c.timers with
      | nil => rfl
      | cons tm rest =>
        have := (hpending tm (by rw [hts]; exact List.mem_cons_self _ _)).1
        rw [hd] at this
        exact Option.noConfusion this
    | some i =>
      simp only
      rw [List.filter_eq_nil_iff]
      intro tm htm
      have := (hpending tm htm).1
      rw [hd] at this
      simp only [Option.some.injEq] at this
      simp [this]
  unfold onDidChangeModelContent setTimeout
  simp only [hclear, List.nil_append]
  refine ⟨?_, ⟨_, ?_, rfl⟩, ?_, ?_⟩
  · unfold clearTimeout
    cases c.debounceTimer <;> simp <;> omega
  · unfold clearTimeout
    cases c.debounceTimer <;> simp <;> omega
  · unfold clearTimeout
    cases c.debounceTimer <;> rfl
  · unfold clearTimeout
    cases c.debounceTimer <;> rfl

theorem pending_next (c : Clock) (t t2 : Nat) (text text2 : String) (runs : List (Nat × String))
    (h : Pending c t text runs) (h1 : t ≤ t2) (h2 : t2 < t + 400) :
    Pending (changeAt c t2 text2) t2 text2 runs := by
  obtain ⟨hnow, ⟨id, htimers, hdeb⟩, _, hruns⟩ := h
  rw [← hruns]
  apply pending_first c t2 text2 (by omega)
  intro tm htm
  rw [htimers] at htm
  simp only [List.mem_singleton] at htm
  subst htm
  exact ⟨hdeb, h2⟩

theorem pending_changes : ∀ (events : List (Nat × String)) (c : Clock) (t : Nat) (text : String)
    (runs : List (Nat × String)), Pending c t text runs → Burst 400 t events →
    Pending (changes c events) (lastChange (t, text) events).1 (lastChange (t, text) events).2 runs := by
  intro events
  induction events with
  | nil => intro c t text runs h _; exact h
  | cons e rest ih =>
    intro c t text runs h hb
    obtain ⟨h1, h2, h3⟩ := hb
    have := ih (changeAt c e.1 e.2) e.1 e.2 runs (pending_next c t e.1 text e.2 runs h h1 h2) h3
    simpa [changes, lastChange] using this

theorem pending_advance (c : Clock) (t : Nat) (text : String) (runs : List (Nat × String))
    (h : Pending c t text runs) (T : Nat) :
    (advance c T).runs = if t + 400 ≤ T then runs ++ [(t + 400, text)] else runs := by
  obtain ⟨hnow, ⟨id, htimers, _⟩, htext, hruns⟩ := h
  unfold advance
  rw [htimers]
  simp only [List.length_singleton, advanceFuel, htimers, nextDue]
  by_cases hT : t + 400 ≤ T
  · simp [hT, hnow, htext, hruns]
  · simp [hT, hruns]


/-! ## The refresh of the context -/

theorem setTable_new (ctx : SqlContext) (name : String) (columns : List String)
    (h : name ∉ ctx.map (fun e => e.1)) : setTable ctx name columns = ctx ++ [(name, columns)] := by
  unfold setTable
  have : ctx.any (fun e => e.1 == name) = false := by
    rw [List.any_eq_false]
    intro e he heq
    apply h
    rw [List.mem_map]
    exact ⟨e, he, by simpa using heq⟩
  simp only [this, Bool.false_eq_true, if_false]

theorem foldl_setTable (endpoint : String → TableMetadata) : ∀ (ts : List String)
    (ctx : SqlContext), (∀ t ∈ ts, (endpoint t).name = t) → ts.Nodup →
    (∀ t ∈ ts, t ∉ ctx.map (fun e => e.1)) →
    ts.foldl (fun c t => setTable c (endpoint t).name (endpoint t).columns) ctx =
      ctx ++ ts.map (fun t => (t, (endpoint t).columns)) := by
  intro ts
  induction ts with
  | nil => intro ctx _ _ _; simp
  | cons t rest ih =>
    intro ctx hecho hnd hnew
    have ht := hecho t (List.mem_cons_self _ _)
    have hnd' := List.nodup_cons.mp hnd
    simp only [List.foldl_cons, ht]
    rw [setTable_new ctx t _ (hnew t (List.mem_cons_self _ _))]
    rw [ih _ (fun x hx => hecho x (List.mem_cons_of_mem _ hx)) hnd'.2]
    · simp
    · intro x hx
      simp only [List.map_append, List.map_cons, List.map_nil, List.mem_append,
        List.mem_singleton, not_or]
      refine ⟨hnew x (List.mem_cons_of_mem _ hx), ?_⟩
      intro hxt
      rw [hxt] at hx
      exact hnd'.1 hx

theorem runToEnd_ended (endpoint : String → TableMetadata) (fuel : Nat) (s : Session)
    (effects : List Effect) (threw : Bool) :
    runToEnd endpoint fuel ⟨s, none, effects, threw⟩ = ⟨s, none, effects, threw⟩ := by
  cases fuel <;> rfl

theorem runToEnd_spec (endpoint : String → TableMetadata) : ∀ (rest : List String) (t : String)
    (s : Session) (effects : List Effect) (fuel : Nat), rest.length + 1 ≤ fuel →
    runToEnd endpoint fuel ⟨s, some ⟨t :: rest⟩, effects, false⟩ =
      ⟨{ s with sqlContext :=
          ((t :: rest).foldl (fun c x => setTable c (endpoint x).name (endpoint x).columns)
            s.sqlContext) },
        none,
        effects ++ rest.map Effect.fetchTableMeta ++
          (if s.editor.isSome then [Effect.triggerSuggest] else []),
        false⟩ := by
  intro rest
  induction rest with
  | nil =>
    intro t s effects fuel hf
    cases fuel with
    | zero => simp at hf
    | succ f =>
      simp only [runToEnd, resumeRefresh, refreshNext, runToEnd_ended, List.foldl_cons,
        List.foldl_nil, List.map_nil, List.append_nil]
  | cons t2 rest ih =>
    intro t s effects fuel hf
    cases fuel with
    | zero => simp at hf
    | succ f =>
      have := ih t2
        { s with sqlContext := setTable s.sqlContext (endpoint t).name (endpoint t).columns }
        (effects ++ [Effect.fetchTableMeta t2]) f (by simpa using hf)
      simp only [runToEnd, resumeRefresh, refreshNext, this, List.foldl_cons, List.map_cons,
        List.append_assoc, List.singleton_append]


/-! ## The loop of `renderTaskList` on any task array -/

theorem firstOpen_zero (t : ExerciseTask) (rest : List ExerciseTask) :
    FirstOpen (t :: rest) 0 ↔ t.completed = false := by
  unfold FirstOpen
  constructor
  · rintro ⟨⟨u, hu, hc⟩, _⟩
    simp only [List.getElem?_cons_zero, Option.some.injEq] at hu
    rw [hu]; exact hc
  · intro h
    exact ⟨⟨t, by simp, h⟩, fun j hj => absurd hj (Nat.not_lt_zero j)⟩

theorem firstOpen_succ_done (t : ExerciseTask) (rest : List ExerciseTask) (i : Nat)
    (h : t.completed = true) : FirstOpen (t :: rest) (i + 1) ↔ FirstOpen rest i := by
  unfold FirstOpen
  simp only [List.getElem?_cons_succ]
  constructor
  · rintro ⟨h1, h2⟩
    refine ⟨h1, fun j hj u hu => h2 (j + 1) (by omega) u (by simpa using hu)⟩
  · rintro ⟨h1, h2⟩
    refine ⟨h1, fun j hj u hu => ?_⟩
    cases j with
    | zero =>
      simp only [List.getElem?_cons_zero, Option.some.injEq] at hu
      rw [← hu]; exact h
    | succ k => exact h2 k (by omega) u (by simpa using hu)

theorem firstOpen_succ_open (t : ExerciseTask) (rest : List ExerciseTask) (i : Nat)
    (h : ¬ t.completed = true) : ¬ FirstOpen (t :: rest) (i + 1) := by
  rintro ⟨_, h2⟩
  exact h (h2 0 (Nat.succ_pos i) t (by simp))

theorem renderFold_found : ∀ (tasks : List ExerciseTask) (acc : RenderAcc),
    acc.firstTaskFound = true →
    (tasks.foldl renderTaskStep acc).firstTaskFound = true ∧
    (tasks.foldl renderTaskStep acc).session.lesson = acc.session.lesson ∧
    (tasks.foldl renderTaskStep acc).session.currentTaskNumber = acc.session.currentTaskNumber ∧
    (tasks.foldl renderTaskStep acc).session.editor = acc.session.editor ∧
    ∃ newItems : List TaskItem,
      (tasks.foldl renderTaskStep acc).session.taskItems = acc.session.taskItems ++ newItems ∧
      newItems.length = tasks.length ∧ ∀ el ∈ newItems, el.taskSelected = false := by
  intro tasks
  induction tasks with
  | nil => intro acc h; exact ⟨h, rfl, rfl, rfl, [], by simp, rfl, by simp⟩
  | cons t rest ih =>
    intro acc h
    simp only [List.foldl_cons]
    by_cases hc : t.completed = true
    · have e := renderTaskStep_completed acc t hc
      obtain ⟨h1, h2, h3, h4, items, h5, h6, h7⟩ := ih (renderTaskStep acc t)
        (by rw [e]; exact h)
      refine ⟨h1, h2.trans (by rw [e]), h3.trans (by rw [e]), h4.trans (by rw [e]),
        ⟨false, true, taskItemText t, 1⟩ :: items, ?_, by simp [h6], ?_⟩
      · rw [h5, e]; simp
      · intro el hel
        rcases List.mem_cons.mp hel with rfl | hm
        · rfl
        · exact h7 el hm
    · have e := renderTaskStep_later acc t hc h
      obtain ⟨h1, h2, h3, h4, items, h5, h6, h7⟩ := ih (renderTaskStep acc t)
        (by rw [e]; exact h)
      refine ⟨h1, h2.trans (by rw [e]), h3.trans (by rw [e]), h4.trans (by rw [e]),
        ⟨false, false, taskItemText t, 0⟩ :: items, ?_, by simp [h6], ?_⟩
      · rw [h5, e]; simp
      · intro el hel
        rcases List.mem_cons.mp hel with rfl | hm
        · rfl
        · exact h7 el hm

theorem renderFold_search : ∀ (tasks : List ExerciseTask) (acc : RenderAcc),
    acc.firstTaskFound = false →
    (tasks.foldl renderTaskStep acc).firstTaskFound =
      (tasks.find? (fun t => !t.completed)).isSome ∧
    (tasks.foldl renderTaskStep acc).session.lesson = acc.session.lesson ∧
    (tasks.foldl renderTaskStep acc).session.currentTaskNumber =
      ((tasks.find? (fun t => !t.completed)).map (fun t => t.exerciseOrder)).or
        acc.session.currentTaskNumber ∧
    (tasks.find? (fun t => !t.completed) = none →
      (tasks.foldl renderTaskStep acc).session.editor = acc.session.editor) ∧
    ∃ newItems : List TaskItem,
      (tasks.foldl renderTaskStep acc).session.taskItems = acc.session.taskItems ++ newItems ∧
      newItems.length = tasks.length ∧
      ∀ (i : Nat) (el : TaskItem), newItems[i]? = some el →
        (el.taskSelected = true ↔ FirstOpen tasks i) := by
  intro tasks
  induction tasks with
  | nil =>
    intro acc h
    refine ⟨by simpa using h, rfl, by simp, fun _ => rfl, [], by simp, rfl, ?_⟩
    intro i el hi
    simp at hi
  | cons t rest ih =>
    intro acc h
    simp only [List.foldl_cons]
    by_cases hc : t.completed = true
    · have e := renderTaskStep_completed acc t hc
      obtain ⟨h1, h2, h3, h4, items, h5, h6, h7⟩ := ih (renderTaskStep acc t)
        (by rw [e]; exact h)
      have hfind : (t :: rest).find? (fun t => !t.completed) =
          rest.find? (fun t => !t.completed) := by
        simp [List.find?_cons, hc]
      rw [hfind]
      refine ⟨h1, h2.trans (by rw [e]), h3.trans (by rw [e]),
        fun hn => (h4 hn).trans (by rw [e]),
        ⟨false, true, taskItemText t, 1⟩ :: items, ?_, by simp [h6], ?_⟩
      · rw [h5, e]; simp
      · intro i el hi
        cases i with
        | zero =>
          simp only [List.getElem?_cons_zero, Option.some.injEq] at hi
          rw [firstOpen_zero, ← hi, hc]
          simp
        | succ k =>
          rw [firstOpen_succ_done t rest k hc]
          exact h7 k el (by simpa using hi)
    · have hf : ¬ acc.firstTaskFound = true := by simp [h]
      have e := renderTaskStep_first acc t hc hf
      obtain ⟨h1, h2, h3, h4, items, h5, h6, h7⟩ := renderFold_found rest (renderTaskStep acc t)
        (by rw [e])
      have hfind : (t :: rest).find? (fun t => !t.completed) = some t := by
        simp [List.find?_cons, hc]
      rw [hfind]
      refine ⟨by rw [h1]; rfl, h2.trans (by rw [e]), h3.trans (by rw [e]; rfl),
        fun hn => Option.noConfusion hn,
        ⟨true, false, taskItemText t, 0⟩ :: items, ?_, by simp [h6], ?_⟩
      · rw [h5, e]; simp
      · intro i el hi
        cases i with
        | zero =>
          simp only [List.getElem?_cons_zero, Option.some.injEq] at hi
          rw [firstOpen_zero, ← hi]
          simp [hc]
        | succ k =>
          have hel : el ∈ items := List.getElem?_mem (by simpa using hi)
          have := h7 el hel
          constructor
          · intro hs; rw [this] at hs; exact Bool.noConfusion hs
          · intro hfo; exact absurd hfo (firstOpen_succ_open t rest k hc)

/-! ## The two routines for the next-lesson button -/

theorem allLessonsCompletedLoop_eq (lessonsData : LessonsData) :
    allLessonsCompletedLoop lessonsData = lessonsData.all (fun e => e.2.completed) := by
  induction lessonsData with
  | nil => rfl
  | cons e rest ih =>
    cases hc : e.2.completed <;> simp [allLessonsCompletedLoop, hc, ih]

theorem resolvers_agree (s : Session) (lesson : Lesson) (button : NextLessonButton)
    (nextLessonId : JsVal) (lessonsData : LessonsData) (hL : s.lesson = some lesson)
    (hdone : incompleteTaskExists lesson.exerciseTasks = false)
    (hid : nextLessonId.looseNeNull = nextLessonId.truthy) :
    (pageLoadNextLesson s button nextLessonId lessonsData).button.innerText =
      (handleNextLessonButton s button nextLessonId lessonsData).button.innerText ∧
    (pageLoadNextLesson s button nextLessonId lessonsData).button.destination =
      (handleNextLessonButton s button nextLessonId lessonsData).button.destination := by
  unfold pageLoadNextLesson handleNextLessonButton
  simp only [hL, hdone, Bool.false_eq_true, if_false, allLessonsCompletedLoop_eq, hid]
  split
  · exact ⟨rfl, rfl⟩
  · split <;> exact ⟨rfl, rfl⟩

/-! ## The text of a match -/

theorem mem_run_cls (p : Char → Bool) (st t : MatchState) (h : t ∈ (Re.cls p).run st) :
    ∃ c, p c = true ∧ st.after = c :: t.after ∧ t.before = c :: st.before := by
  rw [Re.run] at h
  cases ha : st.after with
  | nil => simp [ha] at h
  | cons c rest =>
    simp only [ha] at h
    by_cases hp : p c = true
    · simp only [hp, if_true, List.mem_singleton] at h
      subst h
      exact ⟨c, hp, rfl, rfl⟩
    · simp [hp] at h

theorem mem_run_endOfInput (st t : MatchState) (h : t ∈ Re.endOfInput.run st) :
    t = st ∧ st.after = [] := by
  rw [Re.run] at h
  cases ha : st.after with
  | nil =>
    simp only [ha, List.isEmpty_nil, if_true, List.mem_singleton] at h
    exact ⟨h, rfl⟩
  | cons c rest => simp [ha] at h

theorem starLoop_text (stepFn : MatchState → List MatchState)
    (hstep : ∀ u v, v ∈ stepFn u → v.before.reverse ++ v.after = u.before.reverse ++ u.after) :
    ∀ (fuel : Nat) (st t : MatchState), t ∈ starLoop stepFn fuel st →
      t.before.reverse ++ t.after = st.before.reverse ++ st.after := by
  intro fuel
  induction fuel with
  | zero =>
    intro st t h
    simp only [starLoop, List.mem_singleton] at h
    rw [h]
  | succ f ih =>
    intro st t h
    simp only [starLoop, List.mem_append, List.mem_flatMap, List.mem_filter,
      List.mem_singleton] at h
    rcases h with ⟨u, ⟨hu, _⟩, ht⟩ | h
    · exact (ih u t ht).trans (hstep st u hu)
    · rw [h]

theorem run_text : ∀ (re : Re) (st t : MatchState), t ∈ re.run st →
    t.before.reverse ++ t.after = st.before.reverse ++ st.after := by
  intro re
  induction re with
  | eps =>
    intro st t h
    rw [Re.run, List.mem_singleton] at h
    rw [h]
  | cls p =>
    intro st t h
    obtain ⟨c, _, ha, hb⟩ := mem_run_cls p st t h
    rw [ha, hb]
    simp
  | wordBoundary =>
    intro st t h
    rw [Re.run] at h
    split at h
    · rw [List.mem_singleton] at h
      rw [h]
    · simp at h
  | endOfInput =>
    intro st t h
    rw [(mem_run_endOfInput st t h).1]
  | seq a b iha ihb =>
    intro st t h
    rw [run_seq, List.mem_flatMap] at h
    obtain ⟨u, hu, ht⟩ := h
    exact (ihb u t ht).trans (iha st u hu)
  | alt a b iha ihb =>
    intro st t h
    rw [run_alt, List.mem_append] at h
    rcases h with h | h
    · exact iha st t h
    · exact ihb st t h
  | star a iha =>
    intro st t h
    rw [Re.run] at h
    exact starLoop_text _ (fun u v hv => iha u v hv) _ st t h
  | group a iha =>
    intro st t h
    rw [run_group, List.mem_map] at h
    obtain ⟨u, hu, ht⟩ := h
    rw [← ht]
    exact iha st u hu

theorem execFrom_text (re : Re) : ∀ (after before : List Char) (m : MatchState),
    re.execFrom before after = some m →
    m.before.reverse ++ m.after = before.reverse ++ after := by
  intro after
  induction after with
  | nil =>
    intro before m h
    rw [Re.execFrom] at h
    exact run_text re _ m (List.mem_of_mem_head? h)
  | cons c rest ih =>
    intro before m h
    rw [Re.execFrom] at h
    cases hr : (re.run ⟨before, c :: rest, none⟩).head? with
    | some m' =>
      rw [hr] at h
      simp only [Option.some.injEq] at h
      subst h
      exact run_text re _ _ (List.mem_of_mem_head? hr)
    | none =>
      rw [hr] at h
      have := ih (c :: before) m h
      simpa using this

theorem execFrom_mem_run (re : Re) : ∀ (after before : List Char) (m : MatchState),
    re.execFrom before after = some m → ∃ st, m ∈ re.run st := by
  intro after
  induction after with
  | nil =>
    intro before m h
    rw [Re.execFrom] at h
    exact ⟨_, List.mem_of_mem_head? h⟩
  | cons c rest ih =>
    intro before m h
    rw [Re.execFrom] at h
    cases hr : (re.run ⟨before, c :: rest, none⟩).head? with
    | some m' =>
      rw [hr] at h
      simp only [Option.some.injEq] at h
      subst h
      exact ⟨_, List.mem_of_mem_head? hr⟩
    | none =>
      rw [hr] at h
      exact ih (c :: before) m h

/-- A match that ends at the end of the input right after a character: the
text ends with that character. -/
theorem exec_getLast (re : Re) (text : List Char) (m : MatchState) (c : Char)
    (rest : List Char) (h : re.exec text = some m) (hafter : m.after = [])
    (hbefore : m.before = c :: rest) : text.getLast? = some c := by
  have := execFrom_text re text [] m h
  rw [hafter, hbefore] at this
  simp only [List.reverse_cons, List.append_nil, List.reverse_nil, List.nil_append] at this
  rw [← this]
  simp

theorem mem_starLoop_head (p : Char → Bool) : ∀ (fuel : Nat) (st t : MatchState),
    t ∈ starLoop (fun u => (Re.cls p).run u) fuel st →
    t = st ∨ ∃ c rest, t.before = c :: rest ∧ p c = true := by
  intro fuel
  induction fuel with
  | zero =>
    intro st t h
    simp only [starLoop, List.mem_singleton] at h
    exact Or.inl h
  | succ f ih =>
    intro st t h
    simp only [starLoop, List.mem_append, List.mem_flatMap, List.mem_filter,
      List.mem_singleton] at h
    rcases h with ⟨u, ⟨hu, _⟩, ht⟩ | h
    · right
      rcases ih u t ht with e | e
      · obtain ⟨c, hp, _, hb⟩ := mem_run_cls p st u hu
        exact ⟨c, st.before, by rw [e, hb], hp⟩
      · exact e
    · exact Or.inl h

/-- Every match of the table-keyword expression ends at the end of the input
right after a whitespace character. -/
theorem mem_run_tableKeywordRe (st t : MatchState) (h : t ∈ tableKeywordRe.run st) :
    t.after = [] ∧ ∃ c rest, t.before = c :: rest ∧ isJsWhitespace c = true := by
  unfold tableKeywordRe at h
  rw [run_seq, List.mem_flatMap] at h
  obtain ⟨u, _, h⟩ := h
  rw [run_seq, List.mem_flatMap] at h
  obtain ⟨w, hw, h⟩ := h
  rw [run_seq, List.mem_flatMap] at hw
  obtain ⟨v, hv, hw⟩ := hw
  obtain ⟨ht, hafter⟩ := mem_run_endOfInput w t h
  subst ht
  refine ⟨hafter, ?_⟩
  rw [Re.run] at hw
  rcases mem_starLoop_head isJsWhitespace _ v t hw with e | e
  · obtain ⟨c, hp, _, hb⟩ := mem_run_cls isJsWhitespace u v hv
    exact ⟨c, u.before, by rw [e, hb], hp⟩
  · exact e

/-- Every match of the identifier-dot expression ends at the end of the input
right after a full stop. -/
theorem mem_run_tableDotRe (st t : MatchState) (h : t ∈ tableDotRe.run st) :
    t.after = [] ∧ ∃ rest, t.before = '.' :: rest := by
  unfold tableDotRe at h
  rw [run_seq, List.mem_flatMap] at h
  obtain ⟨u, _, h⟩ := h
  rw [run_seq, List.mem_flatMap] at h
  obtain ⟨v, hv, h⟩ := h
  obtain ⟨ht, hafter⟩ := mem_run_endOfInput v t h
  subst ht
  obtain ⟨c, hp, _, hb⟩ := mem_run_cls _ u t hv
  have hc : c = '.' := by simpa using hp
  exact ⟨hafter, u.before, by rw [hb, hc]⟩

theorem tableKeyword_getLast (text : List Char) (h : tableKeywordRe.test text = true) :
    ∃ c, text.getLast? = some c ∧ isJsWhitespace c = true := by
  unfold Re.test at h
  cases he : tableKeywordRe.exec text with
  | none => simp [he] at h
  | some m =>
    obtain ⟨st, hm⟩ := execFrom_mem_run tableKeywordRe text [] m he
    obtain ⟨hafter, c, rest, hb, hc⟩ := mem_run_tableKeywordRe st m hm
    exact ⟨c, exec_getLast tableKeywordRe text m c rest he hafter hb, hc⟩

theorem tableDot_getLast (text : List Char) (m : MatchState) (h : tableDotRe.exec text = some m) :
    text.getLast? = some '.' := by
  obtain ⟨st, hm⟩ := execFrom_mem_run tableDotRe text [] m h
  obtain ⟨hafter, rest, hb⟩ := mem_run_tableDotRe st m hm
  exact exec_getLast tableDotRe text m '.' rest h hafter hb

/-- The two rules exclude each other: a text on which the table-keyword
expression matches has no match of the identifier-dot expression. -/
theorem tableDot_none_of_tableKeyword (text : List Char)
    (h : tableKeywordRe.test text = true) : tableDotRe.exec text = none := by
  cases he : tableDotRe.exec text with
  | none => rfl
  | some m =>
    exfalso
    obtain ⟨c, hc, hws⟩ := tableKeyword_getLast text h
    have hdot := tableDot_getLast text m he
    rw [hc] at hdot
    simp only [Option.some.injEq] at hdot
    rw [hdot] at hws
    exact absurd hws (by decide)

/-! ## The entries of the context after a refresh -/

theorem setTable_keys (ctx : SqlContext) (name : String) (columns : List String) :
    (setTable ctx name columns).map (fun e => e.1) =
      if name ∈ ctx.map (fun e => e.1) then ctx.map (fun e => e.1)
      else ctx.map (fun e => e.1) ++ [name] := by
  by_cases h : name ∈ ctx.map (fun e => e.1)
  · have hany : ctx.any (fun e => e.1 == name) = true := by
      rw [List.any_eq_true]
      obtain ⟨e, he, hen⟩ := List.mem_map.mp h
      exact ⟨e, he, by simpa using hen⟩
    unfold setTable
    simp only [hany, if_true, h, List.map_map]
    apply List.map_congr_left
    intro e _
    by_cases hen : e.1 = name
    · simp [hen]
    · simp [hen]
  · rw [setTable_new ctx name columns h]
    simp [h]

theorem mem_setTable (ctx : SqlContext) (name : String) (columns : List String)
    (e : String × List String) (h : e ∈ setTable ctx name columns) :
    e = (name, columns) ∨ e ∈ ctx := by
  unfold setTable at h
  split at h
  · obtain ⟨x, hx, hxe⟩ := List.mem_map.mp h
    by_cases hxn : x.1 = name
    · left
      rw [← hxe]
      simp [hxn]
    · right
      rw [← hxe]
      simpa [hxn] using hx
  · rcases List.mem_append.mp h with h | h
    · exact Or.inr h
    · exact Or.inl (by simpa using h)

theorem foldl_setTable_entries (endpoint : String → TableMetadata) : ∀ (ts : List String)
    (ctx : SqlContext), (∀ t ∈ ts, (endpoint t).name = t) →
    (ctx.map (fun e => e.1)).Nodup → (∀ e ∈ ctx, e.2 = (endpoint e.1).columns) →
    ((ts.foldl (fun c t => setTable c (endpoint t).name (endpoint t).columns) ctx).map
      (fun e => e.1)).Nodup ∧
    (∀ n, n ∈ (ts.foldl (fun c t => setTable c (endpoint t).name (endpoint t).columns) ctx).map
      (fun e => e.1) ↔ n ∈ ctx.map (fun e => e.1) ∨ n ∈ ts) ∧
    (∀ e ∈ ts.foldl (fun c t => setTable c (endpoint t).name (endpoint t).columns) ctx,
      e.2 = (endpoint e.1).columns) := by
  intro ts
  induction ts with
  | nil =>
    intro ctx _ hnd hcols
    exact ⟨hnd, fun n => by simp, hcols⟩
  | cons t rest ih =>
    intro ctx hecho hnd hcols
    have ht := hecho t (List.mem_cons_self _ _)
    simp only [List.foldl_cons, ht]
    have hkeys := setTable_keys ctx t (endpoint t).columns
    have hnd1 : ((setTable ctx t (endpoint t).columns).map (fun e => e.1)).Nodup := by
      rw [hkeys]
      split
      · exact hnd
      · rename_i hnot
        rw [List.nodup_append]
        refine ⟨hnd, List.nodup_singleton _, ?_⟩
        intro a ha hb
        rw [List.mem_singleton] at hb
        exact hnot (hb ▸ ha)
    have hcols1 : ∀ e ∈ setTable ctx t (endpoint t).columns, e.2 = (endpoint e.1).columns := by
      intro e he
      rcases mem_setTable ctx t _ e he with h | h
      · rw [h]
      · exact hcols e h
    obtain ⟨h1, h2, h3⟩ := ih (setTable ctx t (endpoint t).columns)
      (fun x hx => hecho x (List.mem_cons_of_mem _ hx)) hnd1 hcols1
    refine ⟨h1, ?_, h3⟩
    intro n
    rw [h2 n, hkeys]
    split
    · rename_i hin
      constructor
      · rintro (h | h)
        · exact Or.inl h
        · exact Or.inr (List.mem_cons_of_mem _ h)
      · rintro (h | h)
        · exact Or.inl h
        · rcases List.mem_cons.mp h with h | h
          · exact Or.inl (h ▸ hin)
          · exact Or.inr h
    · simp only [List.mem_append, List.mem_singleton, List.mem_cons]
      tauto

/-- With a table list on the lesson and an override that narrows it, the
table list of the loop is the effective table set, unless the list of the
lesson is empty, and then the effective set is empty as well. -/
theorem effectiveTables_of_narrowing (lesson : Lesson) (databaseTables : List String)
    (task : ExerciseTask) (hdb : lesson.databaseTables = some databaseTables)
    (hnarrow : NarrowingOverride lesson task) :
    (databaseTables = [] → effectiveTables lesson task = []) ∧
    (task.tables.or lesson.databaseTables).getD [] = effectiveTables lesson task := by
  unfold effectiveTables
  unfold NarrowingOverride at hnarrow
  rw [hdb] at hnarrow ⊢
  cases hts : task.tables with
  | none => exact ⟨fun h => h, rfl⟩
  | some override =>
    refine ⟨?_, rfl⟩
    intro hempty
    have := hnarrow override hts
    rw [hempty] at this
    simp only [Option.getD_some, List.not_mem_nil] at this
    exact List.eq_nil_iff_forall_not_mem.mpr this

/-- The refresh of a lesson with a table list, run to completion. -/
theorem updateSqlContextForTask_spec (s : Session) (lesson : Lesson)
    (databaseTables : List String) (task : ExerciseTask) (endpoint : String → TableMetadata)
    (hL : s.lesson = some lesson) (hdb : lesson.databaseTables = some databaseTables)
    (hnarrow : NarrowingOverride lesson task) :
    updateSqlContextForTask s (some task) endpoint =
      ⟨{ s with sqlContext :=
          ((effectiveTables lesson task).foldl
            (fun c t => setTable c (endpoint t).name (endpoint t).columns) []) },
        none,
        (effectiveTables lesson task).map Effect.fetchTableMeta ++
          (if databaseTables.length == 0 then []
           else if s.editor.isSome then [Effect.triggerSuggest] else []),
        false⟩ := by
  obtain ⟨hempty, hlist⟩ := effectiveTables_of_narrowing lesson databaseTables task hdb hnarrow
  unfold updateSqlContextForTask startRefresh
  simp only [hL]
  rw [hlist]
  simp only [hdb]
  by_cases h0 : (databaseTables.length == 0) = true
  · have hnil : databaseTables = [] := List.length_eq_zero.mp (by simpa using h0)
    simp only [h0, if_true, hempty hnil, List.map_nil, List.append_nil, List.foldl_nil]
  · simp only [h0, Bool.false_eq_true, if_false]
    cases hts : effectiveTables lesson task with
    | nil => simp only [refreshNext, List.map_nil, List.nil_append, List.foldl_nil]
    | cons t rest =>
      simp only [refreshNext]
      rw [runToEnd_spec endpoint rest t _ _ _ (by simp)]
      simp

/-! ## The callers of `switchTask` -/

theorem switchTask_effects (s : Session) (current : Option Nat) (next : Nat) (complete : Bool)
    (cur : Option Nat) (n : Nat) (c : Bool) :
    Effect.callSwitchTask cur n c ∉ (switchTask s current next complete).effects := by
  unfold switchTask
  simp only
  split
  · simp
  · split
    · simp
    · split
      · simp
      · split <;> simp

theorem markTaskComplete_effects (s : Session) (k : Nat) (cur : Option Nat) (n : Nat) (c : Bool) :
    Effect.callSwitchTask cur n c ∉ (markTaskComplete s k).effects := by
  unfold markTaskComplete
  split
  · simp
  · simp only
    split
    · simp
    · split <;> simp

/-- Every call of `switchTask` that `submitSQL` makes has `complete_task` true. -/
theorem submitSQL_call_complete (s : Session) (result : EvalResponse) (cur : Option Nat)
    (n : Nat) : Effect.callSwitchTask cur n false ∉ (submitSQL s result).effects := by
  have hm := markTaskComplete_effects
  have hs := switchTask_effects
  unfold submitSQL
  split
  · simp
  · split
    · simp
    · split
      · simp
      · split
        · simp
        · split
          · simp
          · split
            · simp
            · simp only
              split
              · simp [hm]
              · split
                · simp [hm]
                · split
                  · simp [hm]
                  · simp [hm, hs]

/-! ## The text the provider examines -/

/-- With the cursor at the end of the line, the slice the provider takes is
the text before the cursor. -/
theorem textBeforeCursor_at_end (line : String) (column : Nat) (h : line.length < column) :
    line.toList.take column = textBeforeCursor line column := by
  have hlen : line.toList.length < column := h
  unfold textBeforeCursor
  rw [List.take_of_length_le (Nat.le_of_lt hlen), List.take_of_length_le (by omega)]

theorem resolveCompletion_tableKeyword (ctx : SqlContext) (pre kw ws : List Char)
    (hkw : kw.map Char.toUpper ∈ tableKeywords)
    (hpre : ∀ c, pre.getLast? = some c → isWordChar c = false)
    (hws : ws ≠ []) (hall : ∀ c ∈ ws, isJsWhitespace c = true) :
    resolveCompletion ctx (pre ++ kw ++ ws) =
      Except.ok ((ctx.map (fun e => e.1)).map tableSuggestion) := by
  unfold resolveCompletion
  rw [tableKeyword_test pre kw ws hkw hpre hws hall]
  rfl

theorem resolveCompletion_allColumns (ctx : SqlContext) (text : List Char)
    (h1 : tableKeywordRe.test text = false) (h2 : tableDotRe.exec text = none) :
    resolveCompletion ctx text =
      Except.ok ((ctx.map (fun e => e.2)).flatten.map columnSuggestion) := by
  unfold resolveCompletion
  simp only [h1, h2, Bool.false_eq_true, if_false, allColumns_eq]

theorem count_columnSuggestion (ctx : SqlContext) (col : String) :
    ((ctx.map (fun e => e.2)).flatten.map columnSuggestion).count (columnSuggestion col) =
      (ctx.map (fun e => e.2.count col)).sum := by
  rw [List.count_map_of_injective _ _ columnSuggestion_injective, List.count_flatten,
    List.map_map]
  rfl

/-! ## Properties of the lesson page -/

/-- C1: in every state reached from lesson load by clicks on task items and
submissions with any response, for a lesson whose exercise orders are
`1, ..., N`, at most one task item is selected, exactly one is selected
while some task is not completed, and a selected item is the one at the
position of `currentTaskNumber`. -/
theorem selected_marker_unique (lesson : Lesson) (editor : Option String) (events : List Event)
    (hd : DenseOrder lesson) :
    selectedCount (runEvents lesson editor events) ≤ 1 ∧
    ((∃ t ∈ (runEvents lesson editor events).tasks, t.completed = false) →
      selectedCount (runEvents lesson editor events) = 1) ∧
    (∀ (i : Nat) (el : TaskItem), (runEvents lesson editor events).taskItems[i]? = some el →
      el.taskSelected = true → (runEvents lesson editor events).currentTaskNumber = some (i + 1)) := by
  have h := runEvents_inv lesson editor events hd
  have hle : selectedCount (runEvents lesson editor events) ≤ 1 := by
    unfold selectedCount
    apply countP_le_one
    intro i j a b hi hj ha hb
    have h1 := h.selected_cursor i a hi ha
    have h2 := h.selected_cursor j b hj hb
    rw [h1] at h2
    simpa using h2
  refine ⟨hle, ?_, h.selected_cursor⟩
  intro hex
  obtain ⟨i, el, hi, hsel⟩ := h.selected_exists hex
  have hpos : 0 < selectedCount (runEvents lesson editor events) := by
    unfold selectedCount
    rw [List.countP_pos_iff]
    exact ⟨el, List.mem_iff_getElem?.mpr ⟨i, hi⟩, hsel⟩
  omega

/-- The selection after a click on the third item and two matching
submissions in the example lesson. -/
theorem selected_marker_unique_witness :
    selectedCount (runEvents exampleLesson (some "")
      [Event.click 2, Event.submit ⟨JsVal.bool true, JsVal.str ""⟩,
       Event.submit ⟨JsVal.bool true, JsVal.str ""⟩]) ≤ 1 :=
  (selected_marker_unique exampleLesson (some "")
    [Event.click 2, Event.submit ⟨JsVal.bool true, JsVal.str ""⟩,
     Event.submit ⟨JsVal.bool true, JsVal.str ""⟩]
    (by unfold DenseOrder; decide)).1

/-- C2: for a task list of length `N` and a just-completed task `k` (in range,
its flag already true), the scan of `submitSQL` does not throw, returns the
first task that is not completed in the cyclic order `k+1, ..., N, 1, ..., k-1`,
reads the tasks along an enumeration of all indices in which each index occurs
once (it stops at the task it finds and reads every index when it finds
none), returns null exactly when no task is left, and returns the
lowest-numbered task that is not completed when every task after `k` is
completed; on the example it returns task 2. -/
theorem findNextTask_cyclic (tasks : List ExerciseTask) (k : Nat) (t : ExerciseTask)
    (hk : elemAt tasks (some k) = some t) (hdone : t.completed = true) :
    (findNextTask tasks k).threw = false ∧
    (findNextTask tasks k).nextTaskNumber =
      (cyclicOrder tasks.length k).find? (taskIncomplete tasks) ∧
    (findNextTask tasks k).examined <+: scanOrder tasks.length k ∧
    List.Perm (scanOrder tasks.length k) (List.range tasks.length) ∧
    (findNextTask tasks k).examined.Nodup ∧
    ((findNextTask tasks k).nextTaskNumber = none →
      List.Perm (findNextTask tasks k).examined (List.range tasks.length)) ∧
    ((findNextTask tasks k).nextTaskNumber = none ↔ ∀ x ∈ tasks, x.completed = true) ∧
    ((∀ j, k < j → taskIncomplete tasks j = false) →
      (findNextTask tasks k).nextTaskNumber =
        (List.range' 1 tasks.length).find? (taskIncomplete tasks)) ∧
    (findNextTask exampleTasks 3).nextTaskNumber = some 2 := by
  obtain ⟨j, hkj, hj⟩ := elemAt_eq_some hk
  have hkj : k = j + 1 := by simpa using hkj
  subst hkj
  obtain ⟨hlt, _⟩ := List.getElem?_eq_some.mp hj
  have hle : j + 1 - 1 ≤ tasks.length := by omega
  obtain ⟨h1, h2, h3, h4⟩ := findNextTask_spec tasks (j + 1) hle
  have hperm := scanOrder_perm tasks.length (j + 1) hle
  have hnodup : (scanOrder tasks.length (j + 1)).Nodup :=
    (hperm.nodup_iff).mpr (List.nodup_range _)
  have hnext := h2.trans (scanOrder_find tasks j t hj hdone)
  have hnone := findNextTask_none_iff tasks (j + 1) hle
  refine ⟨h1, hnext, h3, hperm, ?_, ?_, hnone, ?_, by decide⟩
  · exact List.Nodup.sublist h3.sublist hnodup
  · intro hn
    rw [h4 hn]
    exact hperm
  · intro hafter
    rw [hnext]
    unfold cyclicOrder
    have hsplit : List.range' 1 tasks.length =
        List.range' 1 j ++ ((j + 1) :: List.range' (j + 2) (tasks.length - (j + 1))) := by
      have h5 := List.range'_append 1 j (tasks.length - j) 1
      have h6 : tasks.length - j + j = tasks.length := by omega
      have h7 : tasks.length - j = (tasks.length - (j + 1)) + 1 := by omega
      rw [h6] at h5
      rw [← h5, h7, List.range'_succ]
      simp [Nat.add_comm]
      omega
    have hfirst : (List.range' (j + 1 + 1) (tasks.length - (j + 1))).find? (taskIncomplete tasks)
        = none := by
      rw [List.find?_eq_none]
      intro x hx
      have : j + 1 < x := by
        have := (List.mem_range'_1.mp hx).1
        omega
      simp [hafter x this]
    have hself : taskIncomplete tasks (j + 1) = false := by
      simp [taskIncomplete, elemAt_some, hj, hdone]
    rw [hsplit, List.find?_append, List.find?_append, List.find?_cons, hself, hfirst]
    simp

/-- The scan at a just-completed task of the example. -/
theorem findNextTask_cyclic_witness :
    (findNextTask exampleTasks 3).nextTaskNumber =
      (cyclicOrder exampleTasks.length 3).find? (taskIncomplete exampleTasks) :=
  (findNextTask_cyclic exampleTasks 3 ⟨"t3", 3, "third", "", true, true, false, none⟩ rfl rfl).2.1

/-- C3, as stated, fails: after a matching submission on the only task of a
lesson every task is completed and no item is selected, but
`currentTaskNumber` still holds 1; it is not null. -/
theorem submit_last_cursor_not_null :
    (loadLesson oneTaskLesson (some "")).currentTaskNumber = some 1 ∧
    (submitSQL (loadLesson oneTaskLesson (some "")) ⟨JsVal.bool true, JsVal.str ""⟩).session.tasks.all
      (fun t => t.completed) = true ∧
    (submitSQL (loadLesson oneTaskLesson (some "")) ⟨JsVal.bool true, JsVal.str ""⟩).session.currentTaskNumber
      = some 1 ∧
    ¬ (submitSQL (loadLesson oneTaskLesson (some "")) ⟨JsVal.bool true, JsVal.str ""⟩).session.currentTaskNumber
      = none := by
  decide

/-- C3, amended: when task `k` is the only task that is not completed, a
matching submission on `k`, whatever its position, does not throw and leaves
every task completed and no task item selected, calls no `switchTask`,
requests the lesson-completion endpoint, and leaves `currentTaskNumber` at
`k` (the code does not reset it to null). -/
theorem submit_last_task (s : Session) (lesson : Lesson) (k : Nat) (t : ExerciseTask)
    (sql : String) (result : EvalResponse)
    (hL : s.lesson = some lesson) (hcur : s.currentTaskNumber = some k)
    (hk : elemAt lesson.exerciseTasks (some k) = some t) (hopen : t.completed = false)
    (honly : ∀ (i : Nat) (x : ExerciseTask), lesson.exerciseTasks[i]? = some x → i + 1 ≠ k →
      x.completed = true)
    (hitems : s.taskItems.length = lesson.exerciseTasks.length)
    (hsel : ∀ (i : Nat) (el : TaskItem), s.taskItems[i]? = some el → el.taskSelected = true →
      i + 1 = k)
    (hed : s.editor = some sql) (hm : result.resultsMatch.truthy = true) :
    (submitSQL s result).threw = false ∧
    (∀ x ∈ (submitSQL s result).session.tasks, x.completed = true) ∧
    (∀ el ∈ (submitSQL s result).session.taskItems, el.taskSelected = false) ∧
    (∀ e ∈ (submitSQL s result).effects, ∀ c n b, e ≠ Effect.callSwitchTask c n b) ∧
    Effect.fetchComplete lesson.id ∈ (submitSQL s result).effects ∧
    (submitSQL s result).session.currentTaskNumber = some k := by
  obtain ⟨j, hkj, hj⟩ := elemAt_eq_some hk
  have hkj : k = j + 1 := by simpa using hkj
  subst hkj
  obtain ⟨hlt, _⟩ := List.getElem?_eq_some.mp hj
  have hjl : j < s.taskItems.length := by omega
  have hitem : elemAt s.taskItems (some (j + 1)) = some s.taskItems[j] := by
    rw [elemAt_some]; exact List.getElem?_eq_getElem hjl
  have hle : j + 1 - 1 ≤ (modifyAt lesson.exerciseTasks (some (j + 1)) completeTask).length := by
    rw [length_modifyAt]; omega
  have hall : ∀ x ∈ modifyAt lesson.exerciseTasks (some (j + 1)) completeTask,
      x.completed = true := by
    intro x hx
    obtain ⟨i, hi⟩ := List.mem_iff_getElem?.mp hx
    rw [getElem?_modifyAt] at hi
    by_cases hji : j = i
    · simp only [hji, if_true] at hi
      cases hy : lesson.exerciseTasks[i]? with
      | none => simp [hy] at hi
      | some y =>
        simp only [hy, Option.map_some', Option.some.injEq] at hi
        rw [← hi]
        rfl
    · simp only [hji, if_false] at hi
      exact honly i x hi (by omega)
  have hnone := (findNextTask_none_iff _ (j + 1) hle).mpr hall
  have hthrew := (findNextTask_spec _ (j + 1) hle).1
  have heq : submitSQL s result =
      ⟨{ s with
          taskItems := modifyAt s.taskItems (some (j + 1)) completeItem
          lesson := some { lesson with
            exerciseTasks := modifyAt lesson.exerciseTasks (some (j + 1)) completeTask } },
        [Effect.fetchEvaluate lesson.id t.taskId sql] ++ [Effect.updateLessonMenu] ++
          [Effect.showPopup "Correct!" PopupType.success] ++ [Effect.fetchComplete lesson.id],
        false⟩ := by
    unfold submitSQL
    simp only [hcur, hL, hk, hopen, hed, hm, Bool.not_true, Bool.false_eq_true, if_false,
      markTaskComplete_eq s lesson (j + 1) _ t hL hitem hk, hthrew, hnone]
  rw [heq]
  refine ⟨rfl, ?_, ?_, ?_, by simp, hcur⟩
  · intro x hx
    exact hall x hx
  · intro el hel
    simp only at hel
    obtain ⟨i, hi⟩ := List.mem_iff_getElem?.mp hel
    rw [getElem?_modifyAt] at hi
    by_cases hji : j = i
    · simp only [hji, if_true] at hi
      cases hy : s.taskItems[i]? with
      | none => simp [hy] at hi
      | some y =>
        simp only [hy, Option.map_some', Option.some.injEq] at hi
        rw [← hi]
        rfl
    · simp only [hji, if_false] at hi
      cases hs : el.taskSelected with
      | false => rfl
      | true =>
        have := hsel i el hi hs
        omega
  · intro e he c n b
    simp only [List.mem_append, List.mem_singleton] at he
    rcases he with ((rfl | rfl) | rfl) | rfl <;> simp

/-- The matching submission on the only task of the one-task lesson. -/
theorem submit_last_task_witness :
    (submitSQL (loadLesson oneTaskLesson (some "")) ⟨JsVal.bool true, JsVal.str ""⟩).session.currentTaskNumber
      = some 1 :=
  (submit_last_task (loadLesson oneTaskLesson (some "")) 
    ⟨"lesson-1", "Basics", "Select", [⟨"a", 1, "only", "SELECT 1", false, true, false, none⟩], some []⟩
    1 ⟨"a", 1, "only", "SELECT 1", false, true, false, none⟩
    (editorHeader ++ "SELECT 1") ⟨JsVal.bool true, JsVal.str ""⟩
    (by decide) (by decide) (by decide) (by decide)
    (by intro i x hi hne
        cases i with
        | zero => exact absurd rfl hne
        | succ n => simp at hi)
    (by decide)
    (by intro i el hi _
        cases i with
        | zero => rfl
        | succ n =>
          have : (loadLesson oneTaskLesson (some "")).taskItems = [⟨true, false, "1: only", 0⟩] := by
            decide
          rw [this] at hi
          simp at hi)
    (by decide) (by decide)).2.2.2.2.2

/-- C9: when no task is selected (`currentTaskNumber` is null) or the selected
task is already completed, `submitSQL` sends no request, shows no
notification, does not throw and leaves the session as it is. -/
theorem submitSQL_silent (s : Session) (result : EvalResponse)
    (h : s.currentTaskNumber = none ∨
      ∃ (lesson : Lesson) (t : ExerciseTask), s.lesson = some lesson ∧
        elemAt lesson.exerciseTasks s.currentTaskNumber = some t ∧ t.completed = true) :
    submitSQL s result = ⟨s, [], false⟩ :=
  submitSQL_guard s result h

/-- A submission while `currentTaskNumber` is null. -/
theorem submitSQL_silent_witness :
    submitSQL ⟨some oneTaskLesson, none, some "SELECT 1", [], [], closedPopup⟩
        ⟨JsVal.bool true, JsVal.str ""⟩ =
      ⟨⟨some oneTaskLesson, none, some "SELECT 1", [], [], closedPopup⟩, [], false⟩ :=
  submitSQL_silent _ _ (Or.inl rfl)


/-- C4: every operation (a click on a task item, `switchTask`, `submitSQL` with
any response, `runLiveQuery`, `revealTaskAnswer`, `resetMonaco`) leaves the
task records as they were, up to the order of the array, except that
`submitSQL` with a response whose match flag is truthy sets the completed
flag of the task at `currentTaskNumber`, which was false, to true.  In a
session whose task array is in exercise order (as it is after lesson load)
the array keeps its order, so by position: every flag is as before but for
that exception, no flag goes from true to false, and that submission does
set the flag whenever the task item and the editor exist. -/
theorem completed_flags_frame (s : Session) (op : Op) :
    (List.Perm (op.apply s).session.tasks s.tasks ∨
      ∃ r k, op = Op.submitSQL r ∧ r.resultsMatch.truthy = true ∧
        s.currentTaskNumber = some k ∧ taskIncomplete s.tasks k = true ∧
        List.Perm (op.apply s).session.tasks (modifyAt s.tasks (some k) completeTask)) ∧
    (List.Sorted orderLE s.tasks →
      (completedFlags (op.apply s).session).length = (completedFlags s).length ∧
      (∀ (i : Nat) (b : Bool), (completedFlags s)[i]? = some b →
        (completedFlags (op.apply s).session)[i]? = some b ∨
        ((∃ r, op = Op.submitSQL r ∧ r.resultsMatch.truthy = true) ∧
          s.currentTaskNumber = some (i + 1) ∧ b = false ∧
          (completedFlags (op.apply s).session)[i]? = some true)) ∧
      (∀ (i : Nat), (completedFlags s)[i]? = some true →
        (completedFlags (op.apply s).session)[i]? = some true) ∧
      (∀ (r : EvalResponse) (i : Nat) (b : Bool) (sql : String), op = Op.submitSQL r →
        r.resultsMatch.truthy = true → s.currentTaskNumber = some (i + 1) →
        (completedFlags s)[i]? = some b → i < s.taskItems.length → s.editor = some sql →
        (completedFlags (op.apply s).session)[i]? = some true)) := by
  refine ⟨op_tasks_perm s op, ?_⟩
  intro hs
  have hframe : ∀ (i : Nat) (b : Bool), (completedFlags s)[i]? = some b →
      (completedFlags (op.apply s).session)[i]? = some b ∨
      ((∃ r, op = Op.submitSQL r ∧ r.resultsMatch.truthy = true) ∧
        s.currentTaskNumber = some (i + 1) ∧ b = false ∧
        (completedFlags (op.apply s).session)[i]? = some true) := by
    intro i b hb
    rcases op_tasks s op hs with h | ⟨r, k, hop, hm, hk, hinc, h⟩
    · left
      unfold completedFlags at hb ⊢
      rw [h]; exact hb
    · obtain ⟨j, rfl⟩ : ∃ j, k = j + 1 := by
        cases k with
        | zero => simp [taskIncomplete, elemAt, jsIndex] at hinc
        | succ j => exact ⟨j, rfl⟩
      unfold completedFlags at hb ⊢
      rw [h, flags_modifyAt]
      by_cases hji : j = i
      · right
        subst hji
        refine ⟨⟨r, hop, hm⟩, hk, ?_, ?_⟩
        · simp only [taskIncomplete, elemAt_some] at hinc
          rw [List.getElem?_map] at hb
          cases ht : s.tasks[j]? with
          | none => simp [ht] at hb
          | some t =>
            simp only [ht, Bool.not_eq_true'] at hinc
            simp only [ht, Option.map_some', Option.some.injEq] at hb
            rw [← hb]; exact hinc
        · rw [List.getElem?_map] at hb
          cases ht : s.tasks[j]? with
          | none => simp [ht] at hb
          | some t => simp
      · left
        simp only [hji, if_false]
        exact hb
  refine ⟨?_, hframe, ?_, ?_⟩
  · rcases op_tasks s op hs with h | ⟨r, k, _, _, _, _, h⟩
    · unfold completedFlags; rw [h]
    · unfold completedFlags; rw [h]; simp [length_modifyAt]
  · intro i hi
    rcases hframe i true hi with h | ⟨_, _, h, _⟩
    · exact h
    · exact Bool.noConfusion h
  · intro r i b sql hop hm hcur hb hi hed
    subst hop
    exact submitSQL_flag_set s r i b sql hs hm hcur hb hi hed

/-- The matching submission on task 2 of the example lesson sets its flag. -/
theorem completed_flags_frame_witness :
    (completedFlags ((Op.submitSQL ⟨JsVal.bool true, JsVal.str ""⟩).apply
      (loadLesson exampleLesson (some ""))).session)[1]? = some true :=
  ((completed_flags_frame (loadLesson exampleLesson (some ""))
    (Op.submitSQL ⟨JsVal.bool true, JsVal.str ""⟩)).2
    (by unfold List.Sorted; decide)).2.2.2
    ⟨JsVal.bool true, JsVal.str ""⟩ 1 false (editorHeader ++ "SELECT 2") rfl (by decide)
    (by decide) (by decide) (by decide) (by decide)

/-- C5: the provider examines `line.slice(0, position.column)`; the editor
counts columns from 1, so this is the text before the cursor together with
the character after it.  For the line `SELECT * FROM x` with the cursor at
column 15, between the space and `x`, the text before the cursor is
`SELECT * FROM `, which ends with the keyword FROM and a space and on which
the table rule gives the tables orders and users; the provider examines the
whole line and returns the columns id, total, id, name, no table name among
them; at every position the examined text is the text before the cursor one
column further.  With the cursor at the end of its line the examined text is the text
before the cursor, and when that ends with one of the keywords FROM, JOIN,
UPDATE, INTO (in any letter case, not preceded by a word character) followed
by one or more white space characters, the provider returns one item per
table name of the context, in order, each a table item and none a column
item, without repetition for distinct table names. -/
theorem table_names_cursor_offset :
    textBeforeCursor "SELECT * FROM x" 15 = "SELECT * ".toList ++ "FROM".toList ++ [' '] ∧
    resolveCompletion exampleContext (textBeforeCursor "SELECT * FROM x" 15) =
      Except.ok [tableSuggestion "orders", tableSuggestion "users"] ∧
    provideCompletionItems exampleContext "SELECT * FROM x" 15 =
      Except.ok (["id", "total", "id", "name"].map columnSuggestion) ∧
    (∀ name : String,
      tableSuggestion name ∉ ["id", "total", "id", "name"].map columnSuggestion) ∧
    (∀ (ctx : SqlContext) (line : String) (column : Nat),
      provideCompletionItems ctx line column =
        resolveCompletion ctx (textBeforeCursor line (column + 1))) ∧
    provideCompletionItems exampleContext "SELECT * FROM " 15 =
      Except.ok [tableSuggestion "orders", tableSuggestion "users"] ∧
    (∀ (ctx : SqlContext) (line : String) (column : Nat) (pre kw ws : List Char),
      line.length < column → textBeforeCursor line column = pre ++ kw ++ ws →
      kw.map Char.toUpper ∈ tableKeywords →
      (∀ c, pre.getLast? = some c → isWordChar c = false) →
      ws ≠ [] → (∀ c ∈ ws, isJsWhitespace c = true) →
      provideCompletionItems ctx line column =
        Except.ok ((ctx.map (fun e => e.1)).map tableSuggestion) ∧
      ((ctx.map (fun e => e.1)).Nodup → ((ctx.map (fun e => e.1)).map tableSuggestion).Nodup) ∧
      (∀ sg ∈ (ctx.map (fun e => e.1)).map tableSuggestion,
        sg.kind = CompletionItemKind.Class ∧ sg.label ∈ ctx.map (fun e => e.1)) ∧
      (∀ name ∈ ctx.map (fun e => e.1),
        tableSuggestion name ∈ (ctx.map (fun e => e.1)).map tableSuggestion)) := by
  refine ⟨by decide, rfl, rfl, ?_, fun _ _ _ => rfl, rfl, ?_⟩
  · intro name h
    obtain ⟨col, _, hcol⟩ := List.mem_map.mp h
    have hkind : CompletionItemKind.Field = CompletionItemKind.Class :=
      congrArg Suggestion.kind hcol
    exact absurd hkind (by decide)
  · intro ctx line column pre kw ws hend htext hkw hpre hws hall
    refine ⟨?_, fun hkeys => hkeys.map tableSuggestion_injective, ?_, ?_⟩
    · unfold provideCompletionItems
      rw [textBeforeCursor_at_end line column hend, htext]
      exact resolveCompletion_tableKeyword ctx pre kw ws hkw hpre hws hall
    · intro sg hsg
      obtain ⟨name, hname, rfl⟩ := List.mem_map.mp hsg
      exact ⟨rfl, hname⟩
    · intro name hname
      exact List.mem_map_of_mem _ hname

/-- C6: the identifier-dot rule, evaluated.  For a known table the items are
its columns in order, and for `o`, which is no table, the list is empty; but
for the identifier `constructor`, which is no table either, the property read
finds the function inherited from `Object.prototype` and `cols.map` throws a
`TypeError` instead of giving an empty list. -/
theorem column_lookup_inherited_property :
    resolveCompletion exampleContext "SELECT users.".toList =
      Except.ok [columnSuggestion "id", columnSuggestion "name"] ∧
    resolveCompletion exampleContext "SELECT o.".toList = Except.ok [] ∧
    lookupTable exampleContext "constructor" = PropertyValue.inherited ∧
    resolveCompletion exampleContext "SELECT constructor.".toList =
      Except.error (JsError.typeError "cols.map is not a function") ∧
    provideCompletionItems [] "constructor." 12 =
      Except.error (JsError.typeError "cols.map is not a function") :=
  ⟨rfl, rfl, rfl, rfl, rfl⟩

/-- C7: for the line `SELECT * FROM users` with the cursor at column 14, right
after `FROM`, the text before the cursor is `SELECT * FROM`, which matches
neither the table-keyword rule nor the identifier-dot rule and on which the
provider's rules give the columns id, total, id, name; the provider examines
`line.slice(0, position.column)`, one character more, finds the keyword
followed by a space and returns the table names orders and users, no column
among them.  With the cursor at the end of its line the examined text is the
text before the cursor, and when that matches neither rule the provider
returns the column lists of all tables concatenated in table order, without
deduplication: the number of items is the sum of the lengths of the column
lists, and a column name occurs as often as it occurs in the lists together,
which for lists without repetition is the number of tables that have it. -/
theorem all_columns_cursor_offset :
    textBeforeCursor "SELECT * FROM users" 14 = "SELECT * FROM".toList ∧
    tableKeywordRe.test (textBeforeCursor "SELECT * FROM users" 14) = false ∧
    tableDotRe.exec (textBeforeCursor "SELECT * FROM users" 14) = none ∧
    resolveCompletion exampleContext (textBeforeCursor "SELECT * FROM users" 14) =
      Except.ok (["id", "total", "id", "name"].map columnSuggestion) ∧
    provideCompletionItems exampleContext "SELECT * FROM users" 14 =
      Except.ok [tableSuggestion "orders", tableSuggestion "users"] ∧
    (∀ col : String,
      columnSuggestion col ∉ [tableSuggestion "orders", tableSuggestion "users"]) ∧
    provideCompletionItems exampleContext "SELECT " 8 =
      Except.ok (["id", "total", "id", "name"].map columnSuggestion) ∧
    (∀ (ctx : SqlContext) (line : String) (column : Nat),
      line.length < column →
      tableKeywordRe.test (textBeforeCursor line column) = false →
      tableDotRe.exec (textBeforeCursor line column) = none →
      provideCompletionItems ctx line column =
        Except.ok ((ctx.map (fun e => e.2)).flatten.map columnSuggestion) ∧
      ((ctx.map (fun e => e.2)).flatten.map columnSuggestion).length =
        (ctx.map (fun e => e.2.length)).sum ∧
      (∀ col : String,
        ((ctx.map (fun e => e.2)).flatten.map columnSuggestion).count (columnSuggestion col) =
          (ctx.map (fun e => e.2.count col)).sum) ∧
      (∀ col : String, (∀ e ∈ ctx, e.2.Nodup) →
        ((ctx.map (fun e => e.2)).flatten.map columnSuggestion).count (columnSuggestion col) =
          ctx.countP (fun e => decide (col ∈ e.2)))) := by
  refine ⟨by decide, by decide, by decide, rfl, rfl, ?_, rfl, ?_⟩
  · intro col h
    obtain ⟨name, _, hname⟩ := List.mem_map.mp
      (show columnSuggestion col ∈ ["orders", "users"].map tableSuggestion from h)
    have hkind : CompletionItemKind.Class = CompletionItemKind.Field :=
      congrArg Suggestion.kind hname
    exact absurd hkind (by decide)
  · intro ctx line column hend h1 h2
    refine ⟨?_, ?_, count_columnSuggestion ctx, ?_⟩
    · unfold provideCompletionItems
      rw [textBeforeCursor_at_end line column hend]
      exact resolveCompletion_allColumns ctx _ h1 h2
    · rw [List.length_map, List.length_flatten, List.map_map]
      rfl
    · intro col hnd
      rw [count_columnSuggestion, sum_count_nodup ctx col hnd]

/-- C8: the notification of `submitSQL` for an evaluation response that does
not match, evaluated.  With a non-empty explanation the text is
`Incorrect Answer: <explanation>` and with the empty explanation it is
`Incorrect Answer`; for a response without the `userError` field the text is
`Incorrect Answer: undefined`, and for a null one `Incorrect Answer: null`,
not the generic text. -/
theorem incorrect_message_absent_explanation :
    incorrectMessage (JsVal.str "Wrong row count") = "Incorrect Answer: Wrong row count" ∧
    incorrectMessage (JsVal.str "") = "Incorrect Answer" ∧
    incorrectMessage JsVal.undefined = "Incorrect Answer: undefined" ∧
    incorrectMessage JsVal.null = "Incorrect Answer: null" ∧
    (submitSQL (loadLesson oneTaskLesson (some "")) ⟨JsVal.bool false, JsVal.undefined⟩).effects =
      [Effect.fetchEvaluate "lesson-1" "a" (editorHeader ++ "SELECT 1"),
       Effect.showPopup "Incorrect Answer: undefined" PopupType.error] := by
  decide

/-- C10: a burst of content changes, the first at time `t0` and each later one
less than 400 ms after the one before it, starting from a state in which the
only pending timer (if any) is the one held by `debounceTimer` and is not yet
due.  During the burst and until 400 ms after its last change no
`runLiveQuery` is started by a timer, and after the burst a single timer is
pending, every earlier one being cancelled; from then on exactly one has been
started, 400 ms after the last change and with the editor text of the last
change.  Three changes within 100 ms give one execution. -/
theorem debounce_single_run (c : Clock) (t0 : Nat) (text0 : String)
    (events : List (Nat × String)) (hnow : c.now ≤ t0)
    (hpending : ∀ tm ∈ c.timers, c.debounceTimer = some tm.id ∧ t0 < tm.due)
    (hburst : Burst 400 t0 events) :
    (changes c ((t0, text0) :: events)).runs = c.runs ∧
    (∃ id, (changes c ((t0, text0) :: events)).timers =
      [⟨id, (lastChange (t0, text0) events).1 + 400⟩]) ∧
    (∀ T, T < (lastChange (t0, text0) events).1 + 400 →
      (advance (changes c ((t0, text0) :: events)) T).runs = c.runs) ∧
    (∀ T, (lastChange (t0, text0) events).1 + 400 ≤ T →
      (advance (changes c ((t0, text0) :: events)) T).runs =
        c.runs ++ [((lastChange (t0, text0) events).1 + 400, (lastChange (t0, text0) events).2)]) ∧
    (advance (changes initialClock [(0, "S"), (50, "SE"), (100, "SEL")]) 1000).runs =
      [(500, "SEL")] := by
  have hp := pending_changes events (changeAt c t0 text0) t0 text0 c.runs
    (pending_first c t0 text0 hnow hpending) hburst
  have hc : changes c ((t0, text0) :: events) = changes (changeAt c t0 text0) events := rfl
  rw [hc]
  refine ⟨hp.2.2.2, ?_, ?_, ?_, by decide⟩
  · obtain ⟨id, hid, _⟩ := hp.2.1
    exact ⟨id, hid⟩
  · intro T hT
    rw [pending_advance _ _ _ _ hp T, if_neg (by omega)]
  · intro T hT
    rw [pending_advance _ _ _ _ hp T, if_pos hT]

/-- Three changes within 100 ms on a fresh page. -/
theorem debounce_single_run_witness :
    (advance (changes initialClock [(0, "S"), (50, "SE"), (100, "SEL")]) 500).runs =
      initialClock.runs ++ [(100 + 400, "SEL")] :=
  (debounce_single_run initialClock 0 "S" [(50, "SE"), (100, "SEL")] (by decide) (by decide)
    (by simp [Burst])).2.2.2.1 500 (by decide)

/-- C11: in a session with a loaded lesson and a selected task, when the
preview-allowed flag of the selected task is false or the editor text is empty
after trimming, `runLiveQuery` sends no preview request, shows no notification,
renders no table, does not throw and leaves the session as it is, for either
value of `initial_load` and whatever the responses would be. -/
theorem runLiveQuery_guard (s : Session) (lesson : Lesson) (task : ExerciseTask)
    (initialLoad : Bool) (firstResp resp : PreviewResponse)
    (hL : s.lesson = some lesson)
    (ht : elemAt lesson.exerciseTasks s.currentTaskNumber = some task)
    (h : task.previewAllowed = false ∨ ∃ sql, s.editor = some sql ∧ blankAfterTrim sql = true) :
    runLiveQuery s initialLoad firstResp resp = ⟨s, [], false⟩ := by
  unfold runLiveQuery
  cases hed : s.editor with
  | none => rfl
  | some sql =>
    simp only
    by_cases hb : blankAfterTrim sql = true
    · simp only [hb, if_true]
    · rcases h with hp | ⟨sql2, h1, h2⟩
      · simp only [hb, Bool.false_eq_true, if_false, hL, ht, hp, Bool.not_false, if_true]
      · rw [hed] at h1
        simp only [Option.some.injEq] at h1
        rw [h1] at hb
        exact absurd h2 hb

/-- A debounced call in the loaded example lesson while the editor holds only
white space. -/
theorem runLiveQuery_guard_witness :
    runLiveQuery { loadLesson exampleLesson (some "") with editor := some " \n" } false
        ⟨200, none⟩ ⟨200, none⟩ =
      ⟨{ loadLesson exampleLesson (some "") with editor := some " \n" }, [], false⟩ :=
  runLiveQuery_guard { loadLesson exampleLesson (some "") with editor := some " \n" }
    ⟨"lesson-1", "Basics", "Select",
     [⟨"a", 1, "first", "SELECT 1", true, true, false, none⟩,
      ⟨"b", 2, "second", "SELECT 2", false, true, false, none⟩,
      ⟨"c", 3, "third", "SELECT 3", false, true, false, none⟩], some []⟩
    ⟨"b", 2, "second", "SELECT 2", false, true, false, none⟩ false ⟨200, none⟩ ⟨200, none⟩
    (by decide) (by decide) (Or.inr ⟨" \n", rfl, by decide⟩)

/-- C12: `runLiveQuery` on the loaded example lesson, evaluated.  For a response
with an error field and a status other than 400 it shows the error
notification and renders no table; but for a response with status 400 it reads
`data` before its declaration has run: it throws and shows no notification. -/
theorem runLiveQuery_status_400 :
    runLiveQuery (loadLesson exampleLesson (some "")) false ⟨200, none⟩
        ⟨200, some ⟨JsVal.str "no such table: order", none⟩⟩ =
      ⟨loadLesson exampleLesson (some ""),
        [Effect.fetchPreview "lesson-1" "b" (editorHeader ++ "SELECT 2"),
         Effect.showPopup "no such table: order" PopupType.error], false⟩ ∧
    runLiveQuery (loadLesson exampleLesson (some "")) false ⟨200, none⟩
        ⟨400, some ⟨JsVal.str "near FORM: syntax error", none⟩⟩ =
      ⟨loadLesson exampleLesson (some ""),
        [Effect.fetchPreview "lesson-1" "b" (editorHeader ++ "SELECT 2")], true⟩ := by
  decide

/-- C14: two refreshes of the context in the example lesson, the first for a
task restricted to `orders`, the second for a task restricted to `users`,
evaluated.  When the second starts while the first awaits its metadata, the
late response of the first is written into the object of the second: both
runs have ended and the context holds `orders` and `users`.  Run one after
the other they leave `users` alone. -/
theorem refresh_interleaved_merges :
    (startRefresh (loadLesson contextLesson (some ""))
      (some ⟨"a", 1, "first", "SELECT 1", false, true, false, some ["orders"]⟩)).run
      = some ⟨["orders"]⟩ ∧
    (startRefresh
      (startRefresh (loadLesson contextLesson (some ""))
        (some ⟨"a", 1, "first", "SELECT 1", false, true, false, some ["orders"]⟩)).session
      (some ⟨"b", 2, "second", "SELECT 2", false, true, false, some ["users"]⟩)).run
      = some ⟨["users"]⟩ ∧
    (resumeRefresh
      (resumeRefresh
        (startRefresh
          (startRefresh (loadLesson contextLesson (some ""))
            (some ⟨"a", 1, "first", "SELECT 1", false, true, false, some ["orders"]⟩)).session
          (some ⟨"b", 2, "second", "SELECT 2", false, true, false, some ["users"]⟩)).session
        ⟨["orders"]⟩ (exampleEndpoint "orders")).session
      ⟨["users"]⟩ (exampleEndpoint "users")).run = none ∧
    (resumeRefresh
      (resumeRefresh
        (startRefresh
          (startRefresh (loadLesson contextLesson (some ""))
            (some ⟨"a", 1, "first", "SELECT 1", false, true, false, some ["orders"]⟩)).session
          (some ⟨"b", 2, "second", "SELECT 2", false, true, false, some ["users"]⟩)).session
        ⟨["orders"]⟩ (exampleEndpoint "orders")).session
      ⟨["users"]⟩ (exampleEndpoint "users")).session.sqlContext =
      [("orders", ["id", "total"]), ("users", ["id", "name"])] ∧
    (updateSqlContextForTask
      (updateSqlContextForTask (loadLesson contextLesson (some ""))
        (some ⟨"a", 1, "first", "SELECT 1", false, true, false, some ["orders"]⟩)
        exampleEndpoint).session
      (some ⟨"b", 2, "second", "SELECT 2", false, true, false, some ["users"]⟩)
      exampleEndpoint).session.sqlContext = [("users", ["id", "name"])] := by
  decide

/-- C16: `revealTaskAnswer` on the loaded example lesson, evaluated.  Status 403
gives the error popup with the timer message and no SQL block, and a
successful response gives the success popup with the description and the
answer; but for status 404 with a JSON body the code goes on after the error
popup, and the popup that stays is the success one, with `undefined` as the
answer. -/
theorem reveal_not_found_falls_through :
    (revealTaskAnswer (loadLesson exampleLesson (some "")) ⟨403, none⟩).session.answerPopup =
      ⟨true, true, true, false, timerActiveMessage, "", false⟩ ∧
    (revealTaskAnswer (loadLesson exampleLesson (some ""))
      ⟨200, some (JsVal.str "SELECT 2")⟩).session.answerPopup =
      ⟨true, true, false, true, "Task b Answer: second",
        "<pre><code class=\"language-sql\">SELECT 2</code></pre>", true⟩ ∧
    (revealTaskAnswer (loadLesson exampleLesson (some ""))
      ⟨404, some JsVal.undefined⟩).session.answerPopup =
      ⟨true, true, false, true, "Task b Answer: second",
        "<pre><code class=\"language-sql\">undefined</code></pre>", true⟩ ∧
    (revealTaskAnswer (loadLesson exampleLesson (some "")) ⟨404, some JsVal.undefined⟩).threw
      = false := by
  decide

/-- C17: the select transition to a completed task is a no-op.  The call
`switchTask(current, target, false)` stands in one place, the click handler
of a task item, and the handler returns before it when the task of the item
is completed.  For every session state and every item whose task is
completed, the click leaves the whole session as it was, so the cursor, the
task items with their selected markers, the editor text and the context, and
it sends nothing and throws nothing.  The handler makes the call for a task
that is not completed, and `submitSQL` calls `switchTask` with `complete_task`
true only.  The call for a completed target, which no caller makes, leaves
the cursor, the editor text and the context as they are and sends nothing,
having removed the selected marker from every item before its test. -/
theorem select_completed_noop (s : Session) (lesson : Lesson) (i : Nat) (task : ExerciseTask)
    (hL : s.lesson = some lesson) (ht : lesson.exerciseTasks[i]? = some task)
    (hc : task.completed = true) :
    clickTask s i = ⟨s, [], false⟩ ∧
    (clickTask s i).session.currentTaskNumber = s.currentTaskNumber ∧
    (clickTask s i).session.taskItems = s.taskItems ∧
    (clickTask s i).session.editor = s.editor ∧
    (clickTask s i).session.sqlContext = s.sqlContext ∧
    (∀ (j : Nat) (item : TaskItem) (t : ExerciseTask), s.taskItems[j]? = some item →
      lesson.exerciseTasks[j]? = some t →
      (clickTask s j ≠ ⟨s, [], false⟩ → t.completed = false) ∧
      (t.completed = false →
        clickTask s j = switchTask s s.currentTaskNumber t.exerciseOrder false)) ∧
    (∀ (result : EvalResponse) (cur : Option Nat) (n : Nat),
      Effect.callSwitchTask cur n false ∉ (submitSQL s result).effects) ∧
    (∀ (cur : Option Nat) (next : Nat) (target : ExerciseTask),
      elemAt lesson.exerciseTasks (some next) = some target → target.completed = true →
      (switchTask s cur next false).session.currentTaskNumber = s.currentTaskNumber ∧
      (switchTask s cur next false).session.editor = s.editor ∧
      (switchTask s cur next false).session.sqlContext = s.sqlContext ∧
      (switchTask s cur next false).session.taskItems = s.taskItems.map unselectItem ∧
      (switchTask s cur next false).effects = [] ∧
      (switchTask s cur next false).threw = false) := by
  have hclick : clickTask s i = ⟨s, [], false⟩ := by
    unfold clickTask
    cases hi : s.taskItems[i]? with
    | none => rfl
    | some item => simp only [hL, ht, hc, if_true]
  refine ⟨hclick, by rw [hclick], by rw [hclick], by rw [hclick], by rw [hclick], ?_,
    fun result cur n => submitSQL_call_complete s result cur n, ?_⟩
  · intro j item t hj htj
    have hopen : t.completed = false →
        clickTask s j = switchTask s s.currentTaskNumber t.exerciseOrder false := by
      intro hf
      unfold clickTask
      simp only [hj, hL, htj, hf, Bool.false_eq_true, if_false]
    refine ⟨?_, hopen⟩
    intro hne
    cases hcj : t.completed with
    | false => rfl
    | true =>
      exfalso
      apply hne
      unfold clickTask
      simp only [hj, hL, htj, hcj, if_true]
  · intro cur next target hnext htc
    unfold switchTask
    simp only [hL, hnext, htc, if_true, Bool.false_eq_true, if_false]
    exact ⟨trivial, trivial, trivial, trivial, trivial, trivial⟩

/-- The click on the item of the first task of the example lesson, which is
completed. -/
theorem select_completed_noop_witness :
    clickTask (loadLesson exampleLesson (some "")) 0 =
      ⟨loadLesson exampleLesson (some ""), [], false⟩ :=
  (select_completed_noop (loadLesson exampleLesson (some ""))
    ⟨"lesson-1", "Basics", "Select",
     [⟨"a", 1, "first", "SELECT 1", true, true, false, none⟩,
      ⟨"b", 2, "second", "SELECT 2", false, true, false, none⟩,
      ⟨"c", 3, "third", "SELECT 3", false, true, false, none⟩], some []⟩
    0 ⟨"a", 1, "first", "SELECT 1", true, true, false, none⟩
    (by decide) (by decide) (by decide)).1

/-- C19: `runLiveQuery` after the load of a lesson whose tasks are all completed,
evaluated.  `currentTaskNumber` is null and the editor holds the header and
the initial query of the first task; the call throws at
`lesson["exercise-tasks"][currentTaskNumber-1]["preview-allowed"]`, before any
request is sent and before the branch for the completed lesson is reached. -/
theorem runLiveQuery_completed_lesson_throws :
    (loadLesson completedLesson (some "")).currentTaskNumber = none ∧
    (loadLesson completedLesson (some "")).editor = some (editorHeader ++ "SELECT 1") ∧
    blankAfterTrim (editorHeader ++ "SELECT 1") = false ∧
    runLiveQuery (loadLesson completedLesson (some "")) true
        ⟨200, some ⟨JsVal.undefined, none⟩⟩ ⟨200, some ⟨JsVal.undefined, none⟩⟩ =
      ⟨loadLesson completedLesson (some ""), [], true⟩ := by
  decide

/-- C20: the two routines that set up the next-lesson button, on the lesson whose
tasks are all completed and a listing with an open lesson, evaluated.  For a
next-lesson id, for null and for an absent id they choose the same text and
destination; for the empty string the page-load handler (`!= null`) chooses
`Next Lesson` with the destination `/lesson/`, and `handleNextLessonButton`
(truthiness) chooses `View Incomplete Lessons` with the destination `/`. -/
theorem next_lesson_resolvers_differ :
    (pageLoadNextLesson (loadLesson completedLesson (some "")) initialButton
      (JsVal.str "lesson-2") exampleCatalog).button.innerText = "Next Lesson" ∧
    (handleNextLessonButton (loadLesson completedLesson (some "")) initialButton
      (JsVal.str "lesson-2") exampleCatalog).button.innerText = "Next Lesson" ∧
    (pageLoadNextLesson (loadLesson completedLesson (some "")) initialButton
      JsVal.null exampleCatalog).button.innerText = "View Incomplete Lessons" ∧
    (handleNextLessonButton (loadLesson completedLesson (some "")) initialButton
      JsVal.null exampleCatalog).button.innerText = "View Incomplete Lessons" ∧
    (pageLoadNextLesson (loadLesson completedLesson (some "")) initialButton
      (JsVal.str "") exampleCatalog).button.innerText = "Next Lesson" ∧
    (pageLoadNextLesson (loadLesson completedLesson (some "")) initialButton
      (JsVal.str "") exampleCatalog).button.destination = some "/lesson/" ∧
    (handleNextLessonButton (loadLesson completedLesson (some "")) initialButton
      (JsVal.str "") exampleCatalog).button.innerText = "View Incomplete Lessons" ∧
    (handleNextLessonButton (loadLesson completedLesson (some "")) initialButton
      (JsVal.str "") exampleCatalog).button.destination = some "/" := by
  decide

/-- C13: `updateSqlContextForTask` on a lesson object without the property
`database-tables`, for a task without a table list of its own, evaluated.
The effective table set is empty, the case for which a run without error is
stated; the run resets the context and sends no request, but the read
`lesson["database-tables"].length` throws a `TypeError`, before the line
whose fallback `|| []` provides for the missing list is reached.  For every
lesson with a table list and every task whose override narrows it, the run
ends without an exception and leaves in the context exactly one entry per
table of the effective table set (the override of the task when it has one,
otherwise the list of the lesson), each with the columns the metadata
endpoint returns for it, the endpoint answering under the name requested; it
sends one request per element of the set, none when the set is empty, and
changes nothing else in the session. -/
theorem refresh_absent_table_list :
    noTablesLesson.databaseTables = none ∧
    effectiveTables noTablesLesson ⟨"a", 1, "first", "SELECT 1", false, true, false, none⟩ = [] ∧
    updateSqlContextForTask (loadLesson noTablesLesson (some ""))
      (some ⟨"a", 1, "first", "SELECT 1", false, true, false, none⟩) exampleEndpoint =
      ⟨{ loadLesson noTablesLesson (some "") with sqlContext := [] }, none, [], true⟩ ∧
    (∀ (s : Session) (lesson : Lesson) (databaseTables : List String) (task : ExerciseTask)
      (endpoint : String → TableMetadata),
      s.lesson = some lesson → lesson.databaseTables = some databaseTables →
      NarrowingOverride lesson task →
      (∀ t ∈ effectiveTables lesson task, (endpoint t).name = t) →
      (updateSqlContextForTask s (some task) endpoint).threw = false ∧
      (updateSqlContextForTask s (some task) endpoint).run = none ∧
      (updateSqlContextForTask s (some task) endpoint).session =
        { s with sqlContext :=
          (updateSqlContextForTask s (some task) endpoint).session.sqlContext } ∧
      ((updateSqlContextForTask s (some task) endpoint).session.sqlContext.map
        (fun e => e.1)).Nodup ∧
      (∀ t, t ∈ (updateSqlContextForTask s (some task) endpoint).session.sqlContext.map
        (fun e => e.1) ↔ t ∈ effectiveTables lesson task) ∧
      (∀ e ∈ (updateSqlContextForTask s (some task) endpoint).session.sqlContext,
        e.2 = (endpoint e.1).columns) ∧
      ((effectiveTables lesson task).Nodup →
        (updateSqlContextForTask s (some task) endpoint).session.sqlContext =
          (effectiveTables lesson task).map (fun t => (t, (endpoint t).columns))) ∧
      (updateSqlContextForTask s (some task) endpoint).effects =
        (effectiveTables lesson task).map Effect.fetchTableMeta ++
          (if databaseTables.length == 0 then []
           else if s.editor.isSome then [Effect.triggerSuggest] else []) ∧
      (effectiveTables lesson task = [] →
        (updateSqlContextForTask s (some task) endpoint).session.sqlContext = [] ∧
        ∀ t, Effect.fetchTableMeta t ∉
          (updateSqlContextForTask s (some task) endpoint).effects)) ∧
    (updateSqlContextForTask (loadLesson contextLesson (some ""))
      (some ⟨"a", 1, "first", "SELECT 1", false, true, false, some ["orders"]⟩)
      exampleEndpoint).session.sqlContext = [("orders", ["id", "total"])] ∧
    (updateSqlContextForTask (loadLesson contextLesson (some ""))
      (some ⟨"c", 3, "third", "SELECT 3", false, true, false, none⟩)
      exampleEndpoint).session.sqlContext =
        [("orders", ["id", "total"]), ("users", ["id", "name"])] := by
  refine ⟨rfl, rfl, by decide, ?_, by decide, by decide⟩
  intro s lesson databaseTables task endpoint hL hdb hnarrow hecho
  rw [updateSqlContextForTask_spec s lesson databaseTables task endpoint hL hdb hnarrow]
  obtain ⟨h1, h2, h3⟩ := foldl_setTable_entries endpoint (effectiveTables lesson task) [] hecho
    List.nodup_nil (fun e he => absurd he (List.not_mem_nil e))
  refine ⟨rfl, rfl, rfl, h1, ?_, h3, ?_, rfl, ?_⟩
  · intro t
    rw [h2 t]
    simp
  · intro hnd
    have := foldl_setTable endpoint (effectiveTables lesson task) [] hecho hnd (by simp)
    simpa using this
  · intro hempty
    rw [hempty]
    refine ⟨rfl, ?_⟩
    intro t ht
    simp only [List.map_nil, List.nil_append] at ht
    split at ht
    · exact List.not_mem_nil _ ht
    · split at ht
      · simp at ht
      · exact List.not_mem_nil _ ht

/-- C15: with a loaded lesson, for every lesson listing and every value the
next-lesson lookup reports (null or absent, or the id of a lesson, a
non-empty string), `handleNextLessonButton` does not throw, enables the
button and chooses exactly one of three outcomes, decided in this order: when
every lesson of the listing is completed, `All Lessons Complete - Return Home`
with the destination `/`; otherwise, when an id is reported (the value is not
null), `Next Lesson` with the destination `/lesson/<id>`; otherwise
`View Incomplete Lessons` with the destination `/`, the page of the lesson
list.  The three texts differ, and the three conditions exclude each other
and cover every case. -/
theorem next_lesson_outcomes (s : Session) (lesson : Lesson) (button : NextLessonButton)
    (nextLessonId : JsVal) (lessonsData : LessonsData) (hL : s.lesson = some lesson)
    (hid : ReportedLessonId nextLessonId) :
    (handleNextLessonButton s button nextLessonId lessonsData).threw = false ∧
    (handleNextLessonButton s button nextLessonId lessonsData).button.disabled = false ∧
    ((∀ e ∈ lessonsData, e.2.completed = true) →
      (handleNextLessonButton s button nextLessonId lessonsData).button.innerText =
        "All Lessons Complete - Return Home" ∧
      (handleNextLessonButton s button nextLessonId lessonsData).button.destination = some "/") ∧
    (¬ (∀ e ∈ lessonsData, e.2.completed = true) → nextLessonId ≠ JsVal.null →
      nextLessonId ≠ JsVal.undefined →
      (handleNextLessonButton s button nextLessonId lessonsData).button.innerText = "Next Lesson" ∧
      (handleNextLessonButton s button nextLessonId lessonsData).button.destination =
        some ("/lesson/" ++ nextLessonId.toJsString) ∧
      ∀ id : String, nextLessonId = JsVal.str id →
        (handleNextLessonButton s button nextLessonId lessonsData).button.destination =
          some ("/lesson/" ++ id)) ∧
    (¬ (∀ e ∈ lessonsData, e.2.completed = true) →
      (nextLessonId = JsVal.null ∨ nextLessonId = JsVal.undefined) →
      (handleNextLessonButton s button nextLessonId lessonsData).button.innerText =
        "View Incomplete Lessons" ∧
      (handleNextLessonButton s button nextLessonId lessonsData).button.destination = some "/") ∧
    ((handleNextLessonButton s button nextLessonId lessonsData).button.innerText =
        "All Lessons Complete - Return Home" ∨
      (handleNextLessonButton s button nextLessonId lessonsData).button.innerText = "Next Lesson" ∨
      (handleNextLessonButton s button nextLessonId lessonsData).button.innerText =
        "View Incomplete Lessons") ∧
    ("All Lessons Complete - Return Home" ≠ "Next Lesson" ∧
      "All Lessons Complete - Return Home" ≠ "View Incomplete Lessons" ∧
      "Next Lesson" ≠ "View Incomplete Lessons") := by
  have hall : lessonsData.all (fun e => e.2.completed) = true ↔
      ∀ e ∈ lessonsData, e.2.completed = true := by
    rw [List.all_eq_true]
  have htruthy : nextLessonId.truthy = true ↔
      (nextLessonId ≠ JsVal.null ∧ nextLessonId ≠ JsVal.undefined) := by
    rcases hid with h | h | ⟨id, hne, h⟩
    · rw [h]; simp [JsVal.truthy]
    · rw [h]; simp [JsVal.truthy]
    · rw [h]; simp [JsVal.truthy, hne]
  unfold handleNextLessonButton
  simp only [hL]
  by_cases h1 : lessonsData.all (fun e => e.2.completed) = true
  · have h1' := hall.mp h1
    simp only [h1, if_true]
    exact ⟨trivial, trivial, fun _ => ⟨trivial, trivial⟩, fun hn => absurd h1' hn,
      fun hn => absurd h1' hn, Or.inl trivial, by decide⟩
  · have h1' : ¬ ∀ e ∈ lessonsData, e.2.completed = true := fun h => h1 (hall.mpr h)
    by_cases h2 : nextLessonId.truthy = true
    · have h2' := htruthy.mp h2
      simp only [h1, h2, Bool.false_eq_true, if_false, if_true]
      refine ⟨trivial, trivial, fun h => absurd h h1', fun _ _ _ => ⟨trivial, trivial, ?_⟩,
        ?_, Or.inr (Or.inl trivial), by decide⟩
      · intro id hidv
        rw [hidv]
        rfl
      · intro _ h
        rcases h with h | h
        · exact absurd h h2'.1
        · exact absurd h h2'.2
    · have h2' : ¬ (nextLessonId ≠ JsVal.null ∧ nextLessonId ≠ JsVal.undefined) :=
        fun h => h2 (htruthy.mpr h)
      simp only [h1, h2, Bool.false_eq_true, if_false]
      exact ⟨trivial, trivial, fun h => absurd h h1',
        fun _ hn hu => absurd ⟨hn, hu⟩ h2',
        fun _ _ => ⟨trivial, trivial⟩, Or.inr (Or.inr trivial), by decide⟩

/-- The button after the last task of the example lesson, with the next
lesson `lesson-2` reported and an open lesson in the listing. -/
theorem next_lesson_outcomes_witness :
    (handleNextLessonButton (loadLesson completedLesson (some "")) initialButton
      (JsVal.str "lesson-2") exampleCatalog).button.innerText = "Next Lesson" ∧
    (handleNextLessonButton (loadLesson completedLesson (some "")) initialButton
      (JsVal.str "lesson-2") exampleCatalog).button.destination = some "/lesson/lesson-2" :=
  ((next_lesson_outcomes (loadLesson completedLesson (some ""))
    ⟨"lesson-1", "Basics", "Select",
     [⟨"a", 1, "first", "SELECT 1", true, true, false, none⟩,
      ⟨"b", 2, "second", "SELECT 2", true, true, false, none⟩,
      ⟨"c", 3, "third", "SELECT 3", true, true, false, none⟩], some []⟩
    initialButton (JsVal.str "lesson-2") exampleCatalog (by decide)
    (Or.inr (Or.inr ⟨"lesson-2", by decide, rfl⟩))).2.2.2.1 (by decide) (by decide)
    (by decide)).imp_right (fun h => h.2 "lesson-2" rfl)

/-- C18: for a fetched lesson with at least one task, in any array order, and
an editor, `renderTaskList` on the initial globals does not throw and leaves
the tasks sorted by exercise order (a stable sort of the fetched array), one
task item per task, and `currentTaskNumber` at the exercise order of the
first task of the sorted array that is not completed, whose item is the only
one selected.  When every task is completed `currentTaskNumber` is null, no
item is selected and the editor holds the header line followed by the
initial query of the first task of the sorted array, a task of lowest
exercise order. -/
theorem renderTaskList_initial (lesson : Lesson) (text : String)
    (hne : lesson.exerciseTasks ≠ []) :
    (renderTaskList ⟨some lesson, none, some text, [], [], closedPopup⟩).threw = false ∧
    (loadLesson lesson (some text)).tasks = sortTasks lesson.exerciseTasks ∧
    List.Sorted orderLE (sortTasks lesson.exerciseTasks) ∧
    List.Perm (sortTasks lesson.exerciseTasks) lesson.exerciseTasks ∧
    (loadLesson lesson (some text)).currentTaskNumber =
      ((sortTasks lesson.exerciseTasks).find? (fun t => !t.completed)).map
        (fun t => t.exerciseOrder) ∧
    (loadLesson lesson (some text)).taskItems.length = lesson.exerciseTasks.length ∧
    (∀ (i : Nat) (el : TaskItem), (loadLesson lesson (some text)).taskItems[i]? = some el →
      (el.taskSelected = true ↔ FirstOpen (sortTasks lesson.exerciseTasks) i)) ∧
    ((∀ t ∈ lesson.exerciseTasks, t.completed = true) →
      (loadLesson lesson (some text)).currentTaskNumber = none ∧
      (∀ el ∈ (loadLesson lesson (some text)).taskItems, el.taskSelected = false) ∧
      ∃ first, (sortTasks lesson.exerciseTasks).head? = some first ∧
        (∀ t ∈ lesson.exerciseTasks, first.exerciseOrder ≤ t.exerciseOrder) ∧
        (loadLesson lesson (some text)).editor = some (editorHeader ++ first.initialQuery)) := by
  have hsorted : List.Sorted orderLE (sortTasks lesson.exerciseTasks) :=
    List.sorted_insertionSort _ _
  have hperm : List.Perm (sortTasks lesson.exerciseTasks) lesson.exerciseTasks :=
    List.perm_insertionSort _ _
  obtain ⟨first, others, hcons⟩ : ∃ first others,
      sortTasks lesson.exerciseTasks = first :: others := by
    cases hs : sortTasks lesson.exerciseTasks with
    | nil =>
      exfalso
      apply hne
      have := hperm.length_eq
      rw [hs] at this
      exact List.length_eq_zero.mp this.symm
    | cons first others => exact ⟨first, others, rfl⟩
  have hmin : ∀ t ∈ lesson.exerciseTasks, first.exerciseOrder ≤ t.exerciseOrder := by
    intro t ht
    have hmem : t ∈ first :: others := by rw [← hcons]; exact hperm.mem_iff.mpr ht
    rw [hcons] at hsorted
    rcases List.mem_cons.mp hmem with rfl | hm
    · exact Nat.le_refl _
    · exact List.rel_of_sorted_cons hsorted t hm
  obtain ⟨r1, r2, r3, r4, items, r5, r6, r7⟩ := renderFold_search
    (sortTasks lesson.exerciseTasks)
    ⟨false, ⟨some { lesson with exerciseTasks := sortTasks lesson.exerciseTasks }, none,
      some text, [], [], closedPopup⟩, []⟩ rfl
  simp only [List.nil_append, Option.or_none] at r3 r5
  have hstate : ∀ (ed : Option String),
      let s : Session := { (List.foldl renderTaskStep
        ⟨false, ⟨some { lesson with exerciseTasks := sortTasks lesson.exerciseTasks }, none,
          some text, [], [], closedPopup⟩, []⟩ (sortTasks lesson.exerciseTasks)).session with
        editor := ed }
      s.tasks = sortTasks lesson.exerciseTasks ∧
      s.currentTaskNumber = ((sortTasks lesson.exerciseTasks).find? (fun t => !t.completed)).map
        (fun t => t.exerciseOrder) ∧
      s.taskItems.length = lesson.exerciseTasks.length ∧
      (∀ (i : Nat) (el : TaskItem), s.taskItems[i]? = some el →
        (el.taskSelected = true ↔ FirstOpen (sortTasks lesson.exerciseTasks) i)) := by
    intro ed
    refine ⟨?_, r3, ?_, ?_⟩
    · simp only [Session.tasks, r2]
    · simp only [r5, r6, hperm.length_eq]
    · intro i el hi
      simp only [r5] at hi
      exact r7 i el hi
  have hfind : (∀ t ∈ lesson.exerciseTasks, t.completed = true) →
      (sortTasks lesson.exerciseTasks).find? (fun t => !t.completed) = none := by
    intro hall
    rw [List.find?_eq_none]
    intro t ht
    simp [hall t (hperm.mem_iff.mp ht)]
  have hnosel : (∀ t ∈ lesson.exerciseTasks, t.completed = true) →
      ∀ el ∈ items, el.taskSelected = false := by
    intro hall el hel
    obtain ⟨i, hi⟩ := List.mem_iff_getElem?.mp hel
    cases hs : el.taskSelected with
    | false => rfl
    | true =>
      exfalso
      obtain ⟨⟨t, ht, hc⟩, _⟩ := (r7 i el hi).mp hs
      have := hall t (hperm.mem_iff.mp (List.getElem?_mem ht))
      rw [this] at hc
      exact Bool.noConfusion hc
  by_cases hfound : (List.foldl renderTaskStep
      ⟨false, ⟨some { lesson with exerciseTasks := sortTasks lesson.exerciseTasks }, none,
        some text, [], [], closedPopup⟩, []⟩ (sortTasks lesson.exerciseTasks)).firstTaskFound = true
  · have hsome : ((sortTasks lesson.exerciseTasks).find? (fun t => !t.completed)).isSome = true := by
      rw [← r1]; exact hfound
    have heq : renderTaskList ⟨some lesson, none, some text, [], [], closedPopup⟩ =
        ⟨(List.foldl renderTaskStep
          ⟨false, ⟨some { lesson with exerciseTasks := sortTasks lesson.exerciseTasks }, none,
            some text, [], [], closedPopup⟩, []⟩ (sortTasks lesson.exerciseTasks)).session,
         (List.foldl renderTaskStep
          ⟨false, ⟨some { lesson with exerciseTasks := sortTasks lesson.exerciseTasks }, none,
            some text, [], [], closedPopup⟩, []⟩ (sortTasks lesson.exerciseTasks)).effects,
         false⟩ := by
      unfold renderTaskList
      simp only [hfound, Bool.not_true, Bool.false_eq_true, if_false]
    obtain ⟨s1, s2, s3, s4⟩ := hstate (List.foldl renderTaskStep
          ⟨false, ⟨some { lesson with exerciseTasks := sortTasks lesson.exerciseTasks }, none,
            some text, [], [], closedPopup⟩, []⟩ (sortTasks lesson.exerciseTasks)).session.editor
    unfold loadLesson
    rw [heq]
    refine ⟨rfl, s1, hsorted, hperm, s2, s3, s4, ?_⟩
    intro hall
    rw [hfind hall] at hsome
    exact Bool.noConfusion hsome
  · have hnone : (sortTasks lesson.exerciseTasks).find? (fun t => !t.completed) = none := by
      cases hf : (sortTasks lesson.exerciseTasks).find? (fun t => !t.completed) with
      | none => rfl
      | some t =>
        rw [hf] at r1
        exact absurd r1 hfound
    have hed := r4 hnone
    simp only at hed
    have heq : renderTaskList ⟨some lesson, none, some text, [], [], closedPopup⟩ =
        ⟨{ (List.foldl renderTaskStep
          ⟨false, ⟨some { lesson with exerciseTasks := sortTasks lesson.exerciseTasks }, none,
            some text, [], [], closedPopup⟩, []⟩ (sortTasks lesson.exerciseTasks)).session with
            editor := some (editorHeader ++ first.initialQuery) },
         (List.foldl renderTaskStep
          ⟨false, ⟨some { lesson with exerciseTasks := sortTasks lesson.exerciseTasks }, none,
            some text, [], [], closedPopup⟩, []⟩ (sortTasks lesson.exerciseTasks)).effects,
         false⟩ := by
      have hff := Bool.eq_false_iff.mpr hfound
      unfold renderTaskList
      simp only [hff, Bool.not_false, if_true, hed]
      split
      · rename_i val first2 tail2 _ hsplit
        rw [hcons] at hsplit
        injection hsplit with h1 _
        rw [← h1]
      · rename_i hno
        exact absurd hcons (hno text first others rfl)
    obtain ⟨s1, s2, s3, s4⟩ := hstate (some (editorHeader ++ first.initialQuery))
    unfold loadLesson
    rw [heq]
    refine ⟨rfl, s1, hsorted, hperm, s2, s3, s4, ?_⟩
    intro hall
    refine ⟨?_, ?_, first, by rw [hcons]; rfl, hmin, rfl⟩
    · simp only [r3, hnone, Option.map_none']
    · intro el hel
      simp only [r5] at hel
      exact hnosel hall el hel

/-- The load of the lesson whose tasks are all completed. -/
theorem renderTaskList_initial_witness :
    (loadLesson completedLesson (some "")).currentTaskNumber =
      ((sortTasks completedLesson.exerciseTasks).find? (fun t => !t.completed)).map
        (fun t => t.exerciseOrder) :=
  (renderTaskList_initial completedLesson "" (by decide)).2.2.2.2.1

/-- C21: for every text before the cursor, the table-keyword rule and the
identifier-dot rule of the completion provider never both match; hence, for
every context, the provider returns the same result when the two rules are
tested in the opposite order. Both rules do match some text, one each. -/
theorem completion_rules_exclusive :
    (∀ text : List Char,
      ¬ (tableKeywordRe.test text = true ∧ (tableDotRe.exec text).isSome = true)) ∧
    (∀ (ctx : SqlContext) (text : List Char),
      resolveCompletionSwapped ctx text = resolveCompletion ctx text) ∧
    (∀ (ctx : SqlContext) (line : String) (column : Nat),
      resolveCompletionSwapped ctx (line.toList.take column) =
        provideCompletionItems ctx line column) ∧
    tableKeywordRe.test "SELECT * FROM ".toList = true ∧
    (tableDotRe.exec "SELECT users.".toList).isSome = true := by
  refine ⟨?_, ?_, ?_, by decide, by decide⟩
  · intro text h
    rw [tableDot_none_of_tableKeyword text h.1] at h
    exact absurd h.2 (by simp)
  · intro ctx text
    unfold resolveCompletionSwapped resolveCompletion
    cases hk : tableKeywordRe.test text with
    | true =>
      rw [tableDot_none_of_tableKeyword text hk]
    | false =>
      cases tableDotRe.exec text with
      | none => simp
      | some m => simp
  · intro ctx line column
    unfold resolveCompletionSwapped provideCompletionItems resolveCompletion
    cases hk : tableKeywordRe.test (line.toList.take column) with
    | true =>
      rw [tableDot_none_of_tableKeyword _ hk]
    | false =>
      cases tableDotRe.exec (line.toList.take column) with
      | none => simp
      | some m => simp

end SqlTraining
